import Mathlib

/-!
# EasyClozeWeb: the list synchronisation engine of `src/List.jsx`

A shallow embedding of the `List` component's synchronisation code: the
reconciliation performed by `sync()`, the transport classification of
`fetch_sync`, the logout collapse of the `[token]` effect and the scheduler
object `sync_state.manager`.

Conventions of the embedding.
* A JavaScript string used as an id or a storage key is the list of its UTF-16
  code units; `Array.prototype.sort()` without comparator orders strings by
  these code units, which is `id_le` below.
* The durable store read and written through `localJson(key)` is a function
  from keys to optional records; writing `null` and an absent key are both
  read back as `null` (`none`).
* The item controllers held in `item_map` live in `Item.jsx`; a controller is
  a pair of functions, and what `merge` does is given by the callbacks it
  makes, in order, and by the store it leaves behind.
* Every observable call (controller merges, callbacks, store writes of the
  engine, `setList`, `onSync`, `setToken`, `setError`, `setSyncing`, `fetch`,
  `setTimeout`) is appended to an event log, so that statements like
  "is invoked exactly once" or "is not called" are statements about the log.
* A `TypeError` raised by `item_map.get(id).merge` or `.sync` on a missing
  controller aborts the running function; the state reached so far is kept.
* An `async` function runs up to its `await` of the request and resumes when
  the outcome of the request arrives; `do_sync`, `sync` and `prepare_sync` are
  each given by the part before and the part after that point. Timers armed
  by `setTimeout` and requests handed to `fetch` are kept in the state until
  they fire or are answered, and time is the reading of `Date.now()` passed to
  each step.
* A call of `do_sync()` is a sync attempt; it is appended to the event log
  with its caller and clock reading, so that "the loop starts no attempt
  before t" is a statement about the log.
-/

namespace EasyCloze

/-! ## Data model -/

/-- An item id, as the UTF-16 code units of the id string. -/
abbrev ItemId := List Nat

/-- A key of the durable store, as the UTF-16 code units of the key string. -/
abbrev Key := List Nat

/-- A JSON value held in the `val` field of a record. -/
inductive Val where
  | null
  | bool (b : Bool)
  | num (n : Int)
  | str (s : String)
  | obj (json : String)
  deriving DecidableEq, Repr

/-- JavaScript truthiness of a JSON value, as tested by `ver > 0 && val`. -/
def Val.truthy : Val → Bool
  | .null => false
  | .bool b => b
  | .num n => n != 0
  | .str s => s != ""
  | .obj _ => true

/-- One element `{ id, ver, val }` of the authoritative array, also the shape
of a payload produced by a controller. -/
structure Item where
  id : ItemId
  ver : Nat
  val : Val
  deriving DecidableEq, Repr

/-- A JSON object kept in the store: a remote snapshot `{ ver, val }` has no
`ref` field, a local record `{ ref, ver, val }` has one. -/
structure Record where
  ref : Option Nat
  ver : Nat
  val : Val
  deriving DecidableEq, Repr

/-- Modelled from the spec: `localJson` of `utility/local` is not part of
`List.jsx`; it gives access to the durable key-value store, a single place
mapping a string key to a JSON value. A key that was never written and a key
written with `null` both read as `null`, which is `none` here. -/
abbrev Store := Key → Option Record

/-- Modelled from the spec: the setter returned by `localJson(key)`, which
replaces the value kept under `key`. -/
def Store.set (s : Store) (key : Key) (value : Option Record) : Store :=
  fun k => if k = key then value else s k

/-- A callback made by a controller during `merge`. -/
inductive Effect where
  | onMove (id id_new : ItemId)
  | onRemove (id : ItemId)
  deriving DecidableEq, Repr

/-- An item controller registered in `item_map`: `sync()` produces the payload
(or nothing), `merge(remote, onMove, onRemove)` makes callbacks and may rewrite
the store. -/
structure Controller where
  sync : Store → Option Item
  merge : Option Item → Store → List Effect × Store

/-- Who awaits a `do_sync()` call: the scheduling loop (`prepare_sync`) or the
exposed manual `sync`. -/
inductive Caller where
  | loop
  | manual
  deriving DecidableEq, Repr

/-- Observable calls, in the order they are made. A call of `do_sync()` is
recorded with its caller and the clock reading at the call: it is a sync
attempt, whether or not it goes on to the request. -/
inductive Event where
  | merge (id : ItemId) (remote : Option Item)
  | onMove (id id_new : ItemId)
  | onRemove (id : ItemId)
  | write (key : Key) (value : Option Record)
  | setList (l : List ItemId)
  | onSync (ok : Bool)
  | setTokenNull
  | setError (msg : Option String)
  | setSyncing (b : Bool)
  | fetch (body : List Item)
  | setTimeout (delay : Int)
  | throwTypeError
  | do_sync (caller : Caller) (now : Nat)
  deriving DecidableEq, Repr

/-- The values captured by the closures of one render of `List`: the `token`
prop and the `list` state. -/
structure Closure where
  token : Option String
  list : List ItemId
  deriving DecidableEq, Repr

/-- A request handed to `fetch` whose response has not arrived yet. -/
structure Inflight where
  closure : Closure
  body : List Item
  caller : Caller
  deriving DecidableEq, Repr

/-- A pending `setTimeout(sync_state.manager.prepare_sync, delay)`. -/
structure Timer where
  closure : Closure
  due : Nat
  deriving DecidableEq, Repr

/-- The mutable state reachable from `List`: the `list` state as last set, the
store, `item_map`, `sync_state`, the status collaborator (`time`, `syncing`),
the error notice, the pending timers and requests, and the event log. -/
structure World where
  list : List ItemId
  store : Store
  item_map : ItemId → Option Controller
  manager : Closure
  enabled : Bool
  next : Nat
  time : Nat
  syncing : Bool
  error : Option String
  timers : List Timer
  inflight : List Inflight
  log : List Event

def max_list_length : Nat := 10
def op_delay_interval : Nat := 1 * 60 * 1000
def idle_sync_period : Nat := 10 * 60 * 1000
def min_sync_interval : Nat := 15 * 1000

/-! ## Ordering of ids and `sort()` -/

/-- Comparison of two strings by UTF-16 code units, the order used by
`sort()` without a comparator. -/
def id_le : ItemId → ItemId → Bool
  | [], _ => true
  | _ :: _, [] => false
  | a :: as, b :: bs => if a < b then true else if a = b then id_le as bs else false

/-- The order `id_le` as a relation. -/
abbrev IdLe (a b : ItemId) : Prop := id_le a b = true

/-- The result of `[...].sort()` on an array of id strings. -/
def sort (l : List ItemId) : List ItemId := l.insertionSort IdLe

/-! ## JavaScript `Set` and `Map` operations -/

/-- The call `set.add(id)` on a `Set` kept in insertion order. -/
def set_add (s : List ItemId) (id : ItemId) : List ItemId :=
  if id ∈ s then s else s ++ [id]

/-- The call `set.delete(id)`. -/
def set_delete_id (s : List ItemId) (id : ItemId) : List ItemId :=
  s.filter (fun x => x != id)

/-- The call `item_map.delete(id)`. -/
def map_delete (m : ItemId → Option Controller) (id : ItemId) : ItemId → Option Controller :=
  fun x => if x = id then none else m x

/-! ## Reconciliation: `sync()` after its two early returns (lines 141 to 181) -/

/-- The local variables of one run of `sync()` past its early returns, together with
the parts of the world it mutates, the events it has produced and whether a
`TypeError` has aborted it. -/
structure Sync where
  store : Store
  item_map : ItemId → Option Controller
  current_item_set : List ItemId
  list_add : List ItemId
  set_delete : List ItemId
  log : List Event
  threw : Bool

/-- The local function `onAdd`. -/
def Sync.onAdd (s : Sync) (id_new : ItemId) : Sync :=
  { s with list_add := s.list_add ++ [id_new] }

/-- The local function `onRemove`. -/
def Sync.onRemove (s : Sync) (id : ItemId) : Sync :=
  { s with set_delete := set_add s.set_delete id, item_map := map_delete s.item_map id }

/-- The local function `onMove`. -/
def Sync.onMove (s : Sync) (id id_new : ItemId) : Sync :=
  (s.onRemove id).onAdd id_new

/-- One callback made by a controller, recorded and executed. -/
def Sync.callback (s : Sync) : Effect → Sync
  | .onMove id id_new => ({ s with log := s.log ++ [Event.onMove id id_new] }).onMove id id_new
  | .onRemove id => ({ s with log := s.log ++ [Event.onRemove id] }).onRemove id

/-- The call `item_map.get(id).merge(remote, onMove, onRemove)`. -/
def Sync.merge (s : Sync) (id : ItemId) (remote : Option Item) : Sync :=
  if s.threw then s
  else
    match s.item_map id with
    | none => { s with threw := true, log := s.log ++ [Event.throwTypeError] }
    | some c =>
      (c.merge remote s.store).1.foldl Sync.callback
        { s with store := (c.merge remote s.store).2, log := s.log ++ [Event.merge id remote] }

/-- The callback given to `remote.filter`: a record whose id is still in
`current_item_set` is merged and dropped, any other record is kept. -/
def filter_step (acc : Sync × List Item) (item : Item) : Sync × List Item :=
  if acc.1.threw then acc
  else if item.id ∈ acc.1.current_item_set then
    (Sync.merge { acc.1 with current_item_set := set_delete_id acc.1.current_item_set item.id }
      item.id (some item), acc.2)
  else (acc.1, acc.2 ++ [item])

/-- The callback given to `new_item_list.forEach`. -/
def persist (key_remote key_local : ItemId → Key) (s : Sync) (item : Item) : Sync :=
  if s.threw then s
  else
    Sync.onAdd
      { s with
        store := (s.store.set (key_remote item.id) (some ⟨none, item.ver, item.val⟩)).set
          (key_local item.id) (some ⟨some item.ver, item.ver, Val.null⟩)
        log := s.log ++
          [Event.write (key_remote item.id) (some ⟨none, item.ver, item.val⟩),
           Event.write (key_local item.id) (some ⟨some item.ver, item.ver, Val.null⟩)] }
      item.id

/-- The state of `sync()` when it declares its local variables (line 158). -/
def sync_init (list : List ItemId) (w : World) : Sync :=
  { store := w.store, item_map := w.item_map,
    current_item_set := list.foldl set_add [],
    list_add := [], set_delete := [], log := [], threw := false }

/-- Lines 159 to 166: `remote.filter(...)`, giving the state and `new_item_list`. -/
def sync_matched (list : List ItemId) (remote : List Item) (w : World) : Sync × List Item :=
  remote.foldl filter_step (sync_init list w, [])

/-- Lines 168 to 170: `current_item_set.forEach(...)`. -/
def sync_only_local (s : Sync) : Sync :=
  s.current_item_set.foldl (fun s id => Sync.merge s id none) s

/-- Lines 141 to 177: the run of `sync()` up to, and without, `setList`. -/
def sync_run (key_remote key_local : ItemId → Key) (list : List ItemId) (remote : List Item)
    (w : World) : Sync :=
  (sync_matched list remote w).2.foldl (persist key_remote key_local)
    (sync_only_local (sync_matched list remote w).1)

/-- The list given to `setList` on line 179. -/
def sync_new_list (list : List ItemId) (s : Sync) : List ItemId :=
  sort (list.filter (fun id => decide (id ∉ s.set_delete)) ++ s.list_add)

/-- Modelled from the spec: the status collaborator lives in the menu component,
which is not part of `List.jsx`; `onSync(success)` is reported to it and a
success moves its last-successful-sync timestamp `time` to the current time. -/
def onSync (ok : Bool) (now : Nat) (w : World) : World :=
  { w with time := if ok then now else w.time, log := w.log ++ [Event.onSync ok] }

/-- Lines 141 to 181: reconciliation of `list` against the authoritative array
`remote`, at clock reading `now`. -/
def sync_apply (key_remote key_local : ItemId → Key) (now : Nat) (list : List ItemId)
    (remote : List Item) (w : World) : World :=
  let s := sync_run key_remote key_local list remote w
  if s.threw then
    { w with store := s.store, item_map := s.item_map, log := w.log ++ s.log }
  else
    onSync true now
      { w with store := s.store, item_map := s.item_map, list := sync_new_list list s,
               log := w.log ++ s.log ++ [Event.setList (sync_new_list list s)] }

/-! ## Transport classification: `fetch_sync` (lines 96 to 121) -/

/-- The result of `response.json()`: it rejects (`invalid`), or it gives the
parsed body, which is `null` (`none`) or an array of records. -/
inductive Body where
  | invalid
  | json (value : Option (List Item))
  deriving DecidableEq, Repr

/-- The outcome of `fetch`: it rejects, or it resolves to a response. The
arrival of the response and the reading of its body by `response.json()` are
taken as one event: nothing else runs between them. -/
inductive Outcome where
  | rejected
  | response (status : Nat) (body : Body)
  deriving DecidableEq, Repr

/-- The call `getErrorRef().setError(msg)`. -/
def setError (msg : Option String) (w : World) : World :=
  { w with error := msg, log := w.log ++ [Event.setError msg] }

/-- The call `setToken(null)`, handled by the parent component. -/
def setTokenNull (w : World) : World :=
  { w with log := w.log ++ [Event.setTokenNull] }

/-- The call `fetch(...)` with the payload batch: the request is recorded as
in flight. -/
def fetch_sync_request (c : Closure) (caller : Caller) (body : List Item) (w : World) : World :=
  { w with inflight := w.inflight ++ [⟨c, body, caller⟩], log := w.log ++ [Event.fetch body] }

/-- The rest of `fetch_sync` once the transport has an outcome: the value
returned and the world left behind. -/
def fetch_sync_response (out : Outcome) (now : Nat) (w : World) : Option (List Item) × World :=
  match out with
  | .rejected => (none, onSync false now w)
  | .response status body =>
    if status ≠ 200 then
      if status = 404 then (none, setTokenNull w)
      else if status = 429 then (none, setError (some "list.error.limit.sync.message") w)
      else (none, onSync false now w)
    else
      match body with
      | .invalid => (none, onSync false now (setError none w))
      | .json value => (value, setError none w)

/-- The whole of `fetch_sync(token, body)` when nothing else runs while the
request is in flight. -/
def fetch_sync (c : Closure) (caller : Caller) (body : List Item) (out : Outcome) (now : Nat)
    (w : World) : Option (List Item) × World :=
  fetch_sync_response out now (fetch_sync_request c caller body w)

/-! ## `sync()` (lines 123 to 182) -/

/-- Lines 124 to 131: the payload batch; `none` when `item_map.get(id)` is
undefined for one of the ids and `.sync()` raises a `TypeError`. -/
def build_local (m : ItemId → Option Controller) (store : Store) : List ItemId → Option (List Item)
  | [] => some []
  | id :: ids =>
    match m id with
    | none => none
    | some c =>
      match build_local m store ids with
      | none => none
      | some rest =>
        match c.sync store with
        | none => some rest
        | some item => some (item :: rest)

/-- The part of `sync()` before its `await`: the world left behind, and
whether the request went out (`false`: a `TypeError` aborted `sync()`). -/
def sync_start (c : Closure) (caller : Caller) (w : World) : World × Bool :=
  match build_local w.item_map w.store (c.list.take max_list_length) with
  | none => ({ w with log := w.log ++ [Event.throwTypeError] }, false)
  | some body => (fetch_sync_request c caller body w, true)

/-- The part of `sync()` after its `await`, run when the transport has the
outcome `out`: the end of `fetch_sync`, the two early returns, and reconciliation. -/
def sync_resume (key_remote key_local : ItemId → Key) (c : Closure) (out : Outcome) (now : Nat)
    (w : World) : World :=
  match (fetch_sync_response out now w).1 with
  | none => (fetch_sync_response out now w).2
  | some remote =>
    if (fetch_sync_response out now w).2.enabled then
      sync_apply key_remote key_local now c.list remote (fetch_sync_response out now w).2
    else (fetch_sync_response out now w).2

/-! ## The scheduler `sync_state.manager` (lines 35 to 90) -/

/-- JavaScript truthiness of the `token` prop. -/
def token_ok (token : Option String) : Bool :=
  match token with
  | none => false
  | some t => t != ""

/-- The function `disable`. -/
def disable (w : World) : World :=
  { w with enabled := false }

/-- The call `getMenuRef().setSyncing(b)`. -/
def setSyncing (b : Bool) (w : World) : World :=
  { w with syncing := b, log := w.log ++ [Event.setSyncing b] }

/-- How far a call of `do_sync()` got before control returned to its caller. -/
inductive Progress where
  | settled
  | suspended
  | threw
  deriving DecidableEq, Repr

/-- The function `do_sync` up to its return or to the `await` of the request;
the call is recorded first. -/
def do_sync (c : Closure) (caller : Caller) (now : Nat) (w : World) : World × Progress :=
  if !token_ok c.token then
    (disable { w with log := w.log ++ [Event.do_sync caller now] }, Progress.settled)
  else if now < w.time + min_sync_interval then
    (setError (some "list.error.limit.sync.message")
      { w with log := w.log ++ [Event.do_sync caller now] }, Progress.settled)
  else if w.syncing then ({ w with log := w.log ++ [Event.do_sync caller now] }, Progress.settled)
  else
    match sync_start c caller
        (setSyncing true { w with log := w.log ++ [Event.do_sync caller now] }) with
    | (w1, true) => (w1, Progress.suspended)
    | (w1, false) => (w1, Progress.threw)

/-- Line 74: `setTimeout(sync_state.manager.prepare_sync, Math.min(next - now,
op_delay_interval))`; a negative delay fires at once. -/
def schedule (now : Nat) (w : World) : World :=
  { w with
    timers := w.timers ++
      [⟨w.manager, now + (min ((w.next : Int) - now) op_delay_interval).toNat⟩]
    log := w.log ++ [Event.setTimeout (min ((w.next : Int) - now) op_delay_interval)] }

/-- The function `prepare_sync` up to the point where control returns to the
event loop. When `do_sync()` settles without awaiting, line 74 runs in the
microtask that follows at once; when it awaits the request, line 74 is left to
the continuation that runs on the response; when it throws, line 74 is never
reached. -/
def prepare_sync (c : Closure) (now : Nat) (w : World) : World :=
  if !w.enabled then w
  else if now ≥ w.next then
    match do_sync c Caller.loop now { w with next := now + idle_sync_period } with
    | (w1, Progress.settled) => schedule now w1
    | (w1, _) => w1
  else schedule now w

/-- The function `enable`. -/
def enable (c : Closure) (now : Nat) (w : World) : World :=
  if w.enabled then w
  else prepare_sync c now { w with enabled := true, next := 0 }

/-- The function `op`. -/
def op (now : Nat) (w : World) : World :=
  if w.enabled then { w with next := now + op_delay_interval } else w

/-- Whether a `TypeError` aborts the part of `sync()` after its `await`. -/
def sync_resume_threw (key_remote key_local : ItemId → Key) (c : Closure) (out : Outcome)
    (now : Nat) (w : World) : Bool :=
  match (fetch_sync_response out now w).1 with
  | none => false
  | some remote =>
    (fetch_sync_response out now w).2.enabled &&
      (sync_run key_remote key_local c.list remote (fetch_sync_response out now w).2).threw

/-- The function `do_sync` from the `await` of the request on, run when the
transport has the outcome `out`: the rest of `sync()`, then line 63, which is
not reached when `sync()` throws. -/
def do_sync_resume (key_remote key_local : ItemId → Key) (c : Closure) (out : Outcome)
    (now : Nat) (w : World) : World × Progress :=
  if sync_resume_threw key_remote key_local c out now w then
    (sync_resume key_remote key_local c out now w, Progress.threw)
  else (setSyncing false (sync_resume key_remote key_local c out now w), Progress.settled)

/-- The step taken when the outcome `out` of the request `r` arrives: the
request leaves the requests in flight, `do_sync` resumes, and when the
scheduling loop awaited it, `prepare_sync` resumes at line 74. -/
def respond (key_remote key_local : ItemId → Key) (r : Inflight) (out : Outcome) (now : Nat)
    (w : World) : World :=
  match do_sync_resume key_remote key_local r.closure out now
      { w with inflight := w.inflight.erase r } with
  | (w1, Progress.settled) =>
    match r.caller with
    | Caller.loop => schedule now w1
    | Caller.manual => w1
  | (w1, _) => w1

/-! ## What happens to the scheduler: timers, responses and calls -/

/-- A pending timer fires: `prepare_sync` runs in the closure that armed the
timer, which leaves the pending timers. -/
def fire (t : Timer) (now : Nat) (w : World) : World :=
  prepare_sync t.closure now { w with timers := w.timers.erase t }

/-- One thing that happens to the scheduler: a call of `enable()`, `disable()`
or `op()`, a timer that fires, a call of the exposed `sync` (which is
`do_sync`), the arrival of the outcome of a request, or a render of `List`,
which assigns a new `sync_state.manager`. -/
inductive Step where
  | enable (c : Closure)
  | disable
  | op
  | fire (t : Timer)
  | sync (c : Closure)
  | respond (r : Inflight) (out : Outcome)
  | render (c : Closure)

/-- The effect of one step at clock reading `now`. -/
def step (key_remote key_local : ItemId → Key) (now : Nat) (w : World) : Step → World
  | .enable c => enable c now w
  | .disable => disable w
  | .op => op now w
  | .fire t => fire t now w
  | .sync c => (do_sync c Caller.manual now w).1
  | .respond r out => respond key_remote key_local r out now w
  | .render c => { w with manager := c }

/-- A step can happen in `w`: only a pending timer fires, and only a request
in flight gets an outcome. -/
def Step.possible (w : World) : Step → Prop
  | .fire t => t ∈ w.timers
  | .respond r _ => r ∈ w.inflight
  | _ => True

/-- A run: steps with their clock readings, one after the other. -/
def run (key_remote key_local : ItemId → Key) (w : World) : List (Nat × Step) → World
  | [] => w
  | s :: rest => run key_remote key_local (step key_remote key_local s.1 w s.2) rest

/-- Every step of the run can happen in the world it meets. -/
def run_possible (key_remote key_local : ItemId → Key) (w : World) : List (Nat × Step) → Prop
  | [] => True
  | s :: rest =>
    s.2.possible w ∧ run_possible key_remote key_local (step key_remote key_local s.1 w s.2) rest

/-- The scheduler is enabled before the run and after each of its steps. -/
def stays_enabled (key_remote key_local : ItemId → Key) (w : World) : List (Nat × Step) → Prop
  | [] => w.enabled = true
  | s :: rest =>
    w.enabled = true ∧
      stays_enabled key_remote key_local (step key_remote key_local s.1 w s.2) rest

/-- The first pending timer fires at its scheduled time. -/
def tick (w : World) : World :=
  match w.timers with
  | [] => w
  | t :: _ => fire t t.due w

/-- The sync attempts: caller and clock reading of the calls of `do_sync()`,
in call order. -/
def attempts (log : List Event) : List (Caller × Nat) :=
  log.filterMap fun e =>
    match e with
    | .do_sync caller now => some (caller, now)
    | _ => none

/-- The clock readings of the sync attempts started by the scheduling loop. -/
def loop_attempts (log : List Event) : List Nat :=
  (attempts log).filterMap fun a =>
    match a with
    | (Caller.loop, now) => some now
    | _ => none

/-- The payload batches handed to `fetch`, in call order. -/
def fetches (log : List Event) : List (List Item) :=
  log.filterMap fun e =>
    match e with
    | .fetch body => some body
    | _ => none

/-- At most one request is in flight, and the `syncing` flag is up while one is. -/
def single_flight (w : World) : Prop :=
  w.inflight = [] ∨ (w.syncing = true ∧ ∃ r, w.inflight = [r])

/-- A LocalRecord `{ ref, ver, val }` with `ver >= ref` is stored under the key. -/
def has_local (store : Store) (key : Key) : Prop :=
  ∃ loc r, store key = some loc ∧ loc.ref = some r ∧ r ≤ loc.ver

/-! ## The logout collapse of the `[token]` effect (lines 184 to 212) -/

/-- The state threaded through `list.map(...)` in the effect: the store, the
state `G` of the id generator, the ids minted so far and the store writes. -/
structure Logout (G : Type) where
  store : Store
  gen : G
  minted : List ItemId
  log : List Event

/-- A store write through a `localJson` setter, recorded. -/
def Logout.write {G : Type} (s : Logout G) (key : Key) (value : Option Record) : Logout G :=
  { s with store := s.store.set key value, log := s.log ++ [Event.write key value] }

/-- The callback given to `list.map` (lines 189 to 210): the id it returns
(`none` for `undefined` and `null`) and the state it leaves. The generator
`generate_local_id` of `utility/id` is a parameter: from the version and its
own state it gives the new id and its next state. -/
def collapse {G : Type} (key_remote key_local : ItemId → Key)
    (generate_local_id : Nat → G → ItemId × G) (s : Logout G) (id : ItemId) :
    Logout G × Option ItemId :=
  match s.store (key_local id) with
  | none => (s, none)
  | some loc =>
    if decide (loc.ver > 0) && loc.val.truthy then
      match s.store (key_remote id) with
      | none => (s, some id)
      | some _ =>
        (((({ s with gen := (generate_local_id loc.ver s.gen).2,
                     minted := s.minted ++ [(generate_local_id loc.ver s.gen).1] } : Logout G).write
              (key_local (generate_local_id loc.ver s.gen).1) (some ⟨some 0, loc.ver, loc.val⟩)).write
            (key_remote id) none).write (key_local id) none,
          some (generate_local_id loc.ver s.gen).1)
    else ((s.write (key_remote id) none).write (key_local id) none, none)

/-- The call `list.map(...)` of the effect, from state `s`: the final state and
the mapped array. -/
def collapse_all {G : Type} (key_remote key_local : ItemId → Key)
    (generate_local_id : Nat → G → ItemId × G) (s : Logout G) :
    List ItemId → Logout G × List (Option ItemId)
  | [] => (s, [])
  | id :: ids =>
    ((collapse_all key_remote key_local generate_local_id
        (collapse key_remote key_local generate_local_id s id).1 ids).1,
      (collapse key_remote key_local generate_local_id s id).2 ::
        (collapse_all key_remote key_local generate_local_id
          (collapse key_remote key_local generate_local_id s id).1 ids).2)

/-- The call `.filter(id => id)`: `undefined`, `null` and the empty string are
dropped. -/
def filter_truthy (l : List (Option ItemId)) : List ItemId :=
  l.filterMap fun o =>
    match o with
    | some (a :: as) => some (a :: as)
    | _ => none

/-- The run of `list.map(...)` of the effect on the world `w` after `disable()`. -/
def logout_run {G : Type} (key_remote key_local : ItemId → Key)
    (generate_local_id : Nat → G → ItemId × G) (c : Closure) (g : G) (w : World) :
    Logout G × List (Option ItemId) :=
  collapse_all key_remote key_local generate_local_id
    { store := w.store, gen := g, minted := [], log := [] } c.list

/-- The list given to `setList` by the effect. -/
def logout_list {G : Type} (key_remote key_local : ItemId → Key)
    (generate_local_id : Nat → G → ItemId × G) (c : Closure) (g : G) (w : World) :
    List ItemId :=
  sort (filter_truthy (logout_run key_remote key_local generate_local_id c g w).2)

/-- The `else` branch of the effect (lines 188 to 210): the logout transition. -/
def logout {G : Type} (key_remote key_local : ItemId → Key)
    (generate_local_id : Nat → G → ItemId × G) (c : Closure) (g : G) (w : World) : World :=
  { disable w with
    store := (logout_run key_remote key_local generate_local_id c g w).1.store
    list := logout_list key_remote key_local generate_local_id c g w
    log := w.log ++ (logout_run key_remote key_local generate_local_id c g w).1.log ++
      [Event.setList (logout_list key_remote key_local generate_local_id c g w)] }

/-- The effect run when `token` changes (lines 184 to 212). -/
def token_effect {G : Type} (key_remote key_local : ItemId → Key)
    (generate_local_id : Nat → G → ItemId × G) (c : Closure) (g : G) (now : Nat) (w : World) :
    World :=
  if token_ok c.token then enable c now w
  else logout key_remote key_local generate_local_id c g w

/-! ## Reading the event log -/

/-- The event recording a callback. -/
def Effect.toEvent : Effect → Event
  | .onMove id id_new => Event.onMove id id_new
  | .onRemove id => Event.onRemove id

/-- The ids handed to `onRemove`, directly or as the old id of an `onMove`:
the accumulated remove-set. -/
def removed (log : List Event) : List ItemId :=
  log.filterMap fun e =>
    match e with
    | .onMove id _ => some id
    | .onRemove id => some id
    | _ => none

/-- The new ids handed to `onMove`, in call order. -/
def moved_to (log : List Event) : List ItemId :=
  log.filterMap fun e =>
    match e with
    | .onMove _ id_new => some id_new
    | _ => none

/-- The controller merges: id and remote argument, in call order. -/
def merge_calls (log : List Event) : List (ItemId × Option Item) :=
  log.filterMap fun e =>
    match e with
    | .merge id remote => some (id, remote)
    | _ => none

/-- The store writes made by the engine itself, in call order. -/
def writes (log : List Event) : List (Key × Option Record) :=
  log.filterMap fun e =>
    match e with
    | .write key value => some (key, value)
    | _ => none

/-- The arguments of the `setList` calls, in call order. -/
def setList_calls (log : List Event) : List (List ItemId) :=
  log.filterMap fun e =>
    match e with
    | .setList l => some l
    | _ => none

/-! ## What `sync()` is specified to do, read off its inputs and its log -/

/-- The bookkeeping of a run of `sync()` agrees with the callbacks recorded in
its log, `m0` being `item_map` at the start of the run; no store write of the
engine and no `setList` has been made yet. -/
structure Sync.Tracks (m0 : ItemId → Option Controller) (s : Sync) : Prop where
  set_delete : ∀ x, x ∈ s.set_delete ↔ x ∈ removed s.log
  list_add : s.list_add = moved_to s.log
  item_map : ∀ x, s.item_map x = if x ∈ removed s.log then none else m0 x
  no_write : writes s.log = []
  no_setList : setList_calls s.log = []

/-- The state of a run of `sync()` on the list `l` in which no merge has made
a callback or changed the store so far: the store is `S`, `item_map` is `m`,
nothing is to be removed or added, and the ids still to be merged are ids of
`l`. -/
structure Sync.Quiet (l : List ItemId) (S : Store) (m : ItemId → Option Controller)
    (s : Sync) : Prop where
  threw : s.threw = false
  store : s.store = S
  item_map : s.item_map = m
  set_delete : s.set_delete = []
  list_add : s.list_add = []
  current : ∀ x ∈ s.current_item_set, x ∈ l

/-- The records of the authoritative array that find their id in the set of
current ids when `remote.filter` reaches them: the Matched records. -/
def matched (current_item_set : List ItemId) : List Item → List Item
  | [] => []
  | item :: rest =>
    if item.id ∈ current_item_set then
      item :: matched (set_delete_id current_item_set item.id) rest
    else matched current_item_set rest

/-- The records kept by `remote.filter`: the value of `new_item_list`. -/
def unmatched (current_item_set : List ItemId) : List Item → List Item
  | [] => []
  | item :: rest =>
    if item.id ∈ current_item_set then unmatched (set_delete_id current_item_set item.id) rest
    else item :: unmatched current_item_set rest

/-- The ids left in `current_item_set` after `remote.filter`: the Only-local ids. -/
def remaining (current_item_set : List ItemId) : List Item → List ItemId
  | [] => current_item_set
  | item :: rest =>
    if item.id ∈ current_item_set then remaining (set_delete_id current_item_set item.id) rest
    else remaining current_item_set rest

/-- The two store writes made for one record of `new_item_list`. -/
def persist_writes (key_remote key_local : ItemId → Key) (item : Item) :
    List (Key × Option Record) :=
  [(key_remote item.id, some ⟨none, item.ver, item.val⟩),
   (key_local item.id, some ⟨some item.ver, item.ver, Val.null⟩)]

/-- The list the reconciliation is specified to give to `setList`: the old list
without the ids of the remove-set, followed by the add-list, in ascending
order of the id strings. -/
def spec_new_list (list remove_set add_list : List ItemId) : List ItemId :=
  sort (list.filter (fun id => decide (id ∉ remove_set)) ++ add_list)

/-- The ids of the records kept by `remote.filter`, which the engine adds
itself. -/
def new_ids (list : List ItemId) (remote : List Item) : List ItemId :=
  (unmatched (list.foldl set_add []) remote).map Item.id

/-- A controller registered under `id` speaks for itself when the only id its
merges hand to `onRemove` or, as old id, to `onMove` is `id`. -/
def speaks_for_itself (id : ItemId) (c : Controller) : Prop :=
  ∀ remote store, ∀ x ∈ removed ((c.merge remote store).1.map Effect.toEvent), x = id

/-! ## Concrete ids, keys, controllers and worlds for the examples -/

/-- The key `"r" + id`. -/
def key_remote_ex (id : ItemId) : Key := 114 :: id

/-- The key `"l" + id`. -/
def key_local_ex (id : ItemId) : Key := 108 :: id

/-- The id `"L1"`. -/
def L1 : ItemId := [76, 49]

/-- The id `"R5"`. -/
def R5 : ItemId := [82, 53]

/-- The id `"R7"`. -/
def R7 : ItemId := [82, 55]

/-- The id `"R9"`. -/
def R9 : ItemId := [82, 57]

/-- A controller that has nothing to send and keeps its item on every merge. -/
def controller_keep : Controller :=
  ⟨fun _ => none, fun _ store => ([], store)⟩

/-- A controller that answers every merge with `onMove(id, id_new)`. -/
def controller_move (id id_new : ItemId) : Controller :=
  ⟨fun _ => none, fun _ store => ([Effect.onMove id id_new], store)⟩

/-- A world with the given list, store and controllers, scheduler enabled. -/
def world_ex (list : List ItemId) (store : Store) (item_map : ItemId → Option Controller) :
    World :=
  { list := list, store := store, item_map := item_map, manager := ⟨some "t", list⟩,
    enabled := true, next := 0, time := 0, syncing := false, error := none,
    timers := [], inflight := [], log := [] }

/-- A world with the scheduler disabled: `world_ex` after `disable()`. -/
def world_disabled (list : List ItemId) (store : Store)
    (item_map : ItemId → Option Controller) : World :=
  disable (world_ex list store item_map)

/-- Controllers for `L1`, which moves to `R7`, and for `R7` and `R9`, which keep. -/
def item_map_ex : ItemId → Option Controller :=
  fun id => if id = L1 then some (controller_move L1 R7)
    else if id = R7 then some controller_keep
    else if id = R9 then some controller_keep else none

/-- The id generator of the examples: `"L" + ver + "-" + n` for the `n`-th id
it mints (single digits). -/
def generate_local_id_ex (ver : Nat) (n : Nat) : ItemId × Nat :=
  ([76, 48 + ver, 45, 48 + n], n + 1)

/-- The store of the logout example of the specification: under `R7`, the
RemoteSnapshot `{ ver: 3, val: "x" }` and the LocalRecord
`{ ref: 3, ver: 5, val: "y" }`. -/
def store_R7 : Store := fun k =>
  if k = key_remote_ex R7 then some ⟨none, 3, Val.str "x"⟩
  else if k = key_local_ex R7 then some ⟨some 3, 5, Val.str "y"⟩
  else none

/-- A store with one LocalRecord, under `id`, and nothing else. -/
def store_local (id : ItemId) (loc : Record) : Store := fun k =>
  if k = key_local_ex id then some loc else none

/-- A store with one RemoteSnapshot, under `id`, and nothing else. -/
def store_remote (id : ItemId) (rem : Record) : Store := fun k =>
  if k = key_remote_ex id then some rem else none

/-- A controller that answers every merge with `onRemove(id)`. -/
def controller_remove (id : ItemId) : Controller :=
  ⟨fun _ => none, fun _ store => ([Effect.onRemove id], store)⟩

/-- A controller whose `sync()` always produces `item`, and which keeps its
item on every merge. -/
def controller_send (item : Item) : Controller :=
  ⟨fun _ => some item, fun _ store => ([], store)⟩

/-- A closure with a session token. -/
def closure_ex (list : List ItemId) : Closure := ⟨some "t", list⟩

/-- A disabled scheduler whose status collaborator saw the last successful
sync at 18 s. -/
def world_synced : World :=
  { world_disabled [R7] (fun _ => none) item_map_ex with time := 18000 }

/-- The calls `enable()` at 20 s, `disable()` at 30 s and `enable()` at 31 s. -/
def enable_disable_enable : List (Nat × Step) :=
  [(20000, Step.enable (closure_ex [R7])), (30000, Step.disable),
    (31000, Step.enable (closure_ex [R7]))]

/-- Controllers that swap ids: the one of `L1` moves to `R7`, the one of `R7`
moves to `L1`. -/
def item_map_swap : ItemId → Option Controller :=
  fun id => if id = L1 then some (controller_move L1 R7)
    else if id = R7 then some (controller_move R7 L1) else none

/-- One controller, for `R7`, which answers every merge with `onRemove(R7)`. -/
def item_map_remove : ItemId → Option Controller :=
  fun id => if id = R7 then some (controller_remove R7) else none

/-- Controllers for `L1` and `R7`: the one of `L1` answers every merge with
`onRemove(R7)`, the one of `R7` keeps its item. -/
def item_map_orphan : ItemId → Option Controller :=
  fun id => if id = L1 then some (controller_remove R7)
    else if id = R7 then some controller_keep else none

/-! ## The id order is a total order -/

theorem id_le_refl (a : ItemId) : id_le a a = true := by
  induction a with
  | nil => rfl
  | cons x xs ih => simp [id_le, ih]

theorem id_le_total (a b : ItemId) : id_le a b = true ∨ id_le b a = true := by
  induction a generalizing b with
  | nil => left; rfl
  | cons x xs ih =>
    cases b with
    | nil => right; rfl
    | cons y ys =>
      rcases Nat.lt_trichotomy x y with h | h | h
      · left; simp [id_le, h]
      · subst h
        rcases ih ys with h1 | h1
        · left; simp [id_le, h1]
        · right; simp [id_le, h1]
      · right; simp [id_le, h]

theorem id_le_trans (a b c : ItemId) (hab : id_le a b = true) (hbc : id_le b c = true) :
    id_le a c = true := by
  induction a generalizing b c with
  | nil => rfl
  | cons x xs ih =>
    cases b with
    | nil => simp [id_le] at hab
    | cons y ys =>
      cases c with
      | nil => simp [id_le] at hbc
      | cons z zs =>
        simp only [id_le] at hab hbc ⊢
        by_cases hxy : x < y
        · by_cases hyz : y < z
          · simp [Nat.lt_trans hxy hyz]
          · simp only [hyz, if_false] at hbc
            by_cases hyz2 : y = z
            · subst hyz2; simp [hxy]
            · simp [hyz2] at hbc
        · simp only [hxy, if_false] at hab
          by_cases hxy2 : x = y
          · subst hxy2
            simp only [if_true] at hab
            by_cases hxz : x < z
            · simp [hxz]
            · simp only [hxz, if_false] at hbc ⊢
              by_cases hxz2 : x = z
              · subst hxz2
                simp only [if_true] at hbc ⊢
                exact ih ys zs hab hbc
              · simp [hxz2] at hbc
          · simp [hxy2] at hab

theorem id_le_antisymm (a b : ItemId) (hab : id_le a b = true) (hba : id_le b a = true) :
    a = b := by
  induction a generalizing b with
  | nil =>
    cases b with
    | nil => rfl
    | cons y ys => simp [id_le] at hba
  | cons x xs ih =>
    cases b with
    | nil => simp [id_le] at hab
    | cons y ys =>
      simp only [id_le] at hab hba
      rcases Nat.lt_trichotomy x y with h | h | h
      · have h1 : ¬ y < x := Nat.lt_asymm h
        have h2 : ¬ y = x := fun e => by omega
        simp [h1, h2] at hba
      · subst h
        simp only [lt_self_iff_false, if_false, if_true] at hab hba
        rw [ih ys hab hba]
      · have h1 : ¬ x < y := Nat.lt_asymm h
        have h2 : ¬ x = y := fun e => by omega
        simp [h1, h2] at hab

theorem sort_sorted (l : List ItemId) : (sort l).Sorted IdLe := by
  haveI : IsTotal ItemId IdLe := ⟨id_le_total⟩
  haveI : IsTrans ItemId IdLe := ⟨id_le_trans⟩
  exact List.sorted_insertionSort IdLe l

theorem sort_perm (l : List ItemId) : (sort l).Perm l :=
  List.perm_insertionSort IdLe l

theorem mem_sort (l : List ItemId) (x : ItemId) : x ∈ sort l ↔ x ∈ l :=
  (sort_perm l).mem_iff

theorem sort_unique (l l' : List ItemId) (hs : l'.Sorted IdLe) (hp : l'.Perm l) :
    l' = sort l := by
  haveI : IsAntisymm ItemId IdLe := ⟨id_le_antisymm⟩
  exact List.eq_of_perm_of_sorted (hp.trans (sort_perm l).symm) hs (sort_sorted l)

/-! ## Callbacks and merges -/

theorem removed_append (a b : List Event) : removed (a ++ b) = removed a ++ removed b := by
  simp [removed, List.filterMap_append]

theorem moved_to_append (a b : List Event) : moved_to (a ++ b) = moved_to a ++ moved_to b := by
  simp [moved_to, List.filterMap_append]

theorem merge_calls_append (a b : List Event) :
    merge_calls (a ++ b) = merge_calls a ++ merge_calls b := by
  simp [merge_calls, List.filterMap_append]

theorem writes_append (a b : List Event) : writes (a ++ b) = writes a ++ writes b := by
  simp [writes, List.filterMap_append]

theorem setList_calls_append (a b : List Event) :
    setList_calls (a ++ b) = setList_calls a ++ setList_calls b := by
  simp [setList_calls, List.filterMap_append]

theorem mem_set_add (s : List ItemId) (id x : ItemId) : x ∈ set_add s id ↔ x ∈ s ∨ x = id := by
  unfold set_add
  split
  · constructor
    · intro h; exact Or.inl h
    · rintro (h | h)
      · exact h
      · subst h; assumption
  · simp

/-- What a run of callbacks does to the state of `sync()`. -/
theorem foldl_callback (effs : List Effect) (s : Sync) :
    (effs.foldl Sync.callback s).log = s.log ++ effs.map Effect.toEvent ∧
    (effs.foldl Sync.callback s).list_add = s.list_add ++ moved_to (effs.map Effect.toEvent) ∧
    (∀ x, x ∈ (effs.foldl Sync.callback s).set_delete ↔
      x ∈ s.set_delete ∨ x ∈ removed (effs.map Effect.toEvent)) ∧
    (effs.foldl Sync.callback s).threw = s.threw ∧
    (effs.foldl Sync.callback s).store = s.store ∧
    (effs.foldl Sync.callback s).current_item_set = s.current_item_set ∧
    (∀ x, (effs.foldl Sync.callback s).item_map x =
      if x ∈ removed (effs.map Effect.toEvent) then none else s.item_map x) := by
  induction effs generalizing s with
  | nil => simp [removed, moved_to]
  | cons e es ih =>
    simp only [List.foldl_cons, List.map_cons]
    obtain ⟨h1, h2, h3, h4, h5, h6, h7⟩ := ih (Sync.callback s e)
    rw [h1, h2, h4, h5, h6]
    cases e with
    | onMove id id_new =>
      refine ⟨?_, ?_, ?_, ?_, ?_, ?_, ?_⟩
      · simp [Sync.callback, Sync.onMove, Sync.onRemove, Sync.onAdd, Effect.toEvent]
      · simp [Sync.callback, Sync.onMove, Sync.onRemove, Sync.onAdd, Effect.toEvent, moved_to]
      · intro x
        rw [h3]
        simp [Sync.callback, Sync.onMove, Sync.onRemove, Sync.onAdd, Effect.toEvent, removed,
          mem_set_add, or_assoc]
      · simp [Sync.callback, Sync.onMove, Sync.onRemove, Sync.onAdd]
      · simp [Sync.callback, Sync.onMove, Sync.onRemove, Sync.onAdd]
      · simp [Sync.callback, Sync.onMove, Sync.onRemove, Sync.onAdd]
      · intro x
        rw [h7]
        simp only [Sync.callback, Sync.onMove, Sync.onRemove, Sync.onAdd, Effect.toEvent, removed,
          map_delete, List.filterMap_cons, List.mem_cons]
        by_cases hx : x = id <;> simp [hx]
    | onRemove id =>
      refine ⟨?_, ?_, ?_, ?_, ?_, ?_, ?_⟩
      · simp [Sync.callback, Sync.onRemove, Effect.toEvent]
      · simp [Sync.callback, Sync.onRemove, Effect.toEvent, moved_to]
      · intro x
        rw [h3]
        simp [Sync.callback, Sync.onRemove, Effect.toEvent, removed, mem_set_add, or_assoc]
      · simp [Sync.callback, Sync.onRemove]
      · simp [Sync.callback, Sync.onRemove]
      · simp [Sync.callback, Sync.onRemove]
      · intro x
        rw [h7]
        simp only [Sync.callback, Sync.onRemove, Effect.toEvent, removed,
          map_delete, List.filterMap_cons, List.mem_cons]
        by_cases hx : x = id <;> simp [hx]

theorem writes_toEvent (effs : List Effect) : writes (effs.map Effect.toEvent) = [] := by
  induction effs with
  | nil => rfl
  | cons e es ih => cases e <;> simpa [writes, Effect.toEvent] using ih

theorem setList_calls_toEvent (effs : List Effect) :
    setList_calls (effs.map Effect.toEvent) = [] := by
  induction effs with
  | nil => rfl
  | cons e es ih => cases e <;> simpa [setList_calls, Effect.toEvent] using ih

theorem merge_calls_toEvent (effs : List Effect) :
    merge_calls (effs.map Effect.toEvent) = [] := by
  induction effs with
  | nil => rfl
  | cons e es ih => cases e <;> simpa [merge_calls, Effect.toEvent] using ih

theorem merge_of_threw (s : Sync) (id : ItemId) (remote : Option Item) (h : s.threw = true) :
    s.merge id remote = s := by
  simp [Sync.merge, h]

theorem merge_of_none (s : Sync) (id : ItemId) (remote : Option Item) (h : s.threw = false)
    (hc : s.item_map id = none) :
    s.merge id remote = { s with threw := true, log := s.log ++ [Event.throwTypeError] } := by
  simp [Sync.merge, h, hc]

theorem merge_of_some (s : Sync) (id : ItemId) (remote : Option Item) (c : Controller)
    (h : s.threw = false) (hc : s.item_map id = some c) :
    s.merge id remote = (c.merge remote s.store).1.foldl Sync.callback
      { s with store := (c.merge remote s.store).2, log := s.log ++ [Event.merge id remote] } := by
  simp [Sync.merge, h, hc]

/-- A merge leaves `current_item_set` alone. -/
theorem merge_current_item_set (s : Sync) (id : ItemId) (remote : Option Item) :
    (s.merge id remote).current_item_set = s.current_item_set := by
  cases h : s.threw with
  | true => rw [merge_of_threw s id remote h]
  | false =>
    cases hc : s.item_map id with
    | none => rw [merge_of_none s id remote h hc]
    | some c => rw [merge_of_some s id remote c h hc, (foldl_callback _ _).2.2.2.2.2.1]

/-- Once a `TypeError` is raised it stays raised. -/
theorem merge_threw_mono (s : Sync) (id : ItemId) (remote : Option Item) (h : s.threw = true) :
    (s.merge id remote).threw = true := by
  rw [merge_of_threw s id remote h, h]

/-- A merge that completes found a controller, and its log grows by the merge
and the callbacks of that controller. -/
theorem merge_ok (s : Sync) (id : ItemId) (remote : Option Item)
    (h : (s.merge id remote).threw = false) :
    s.threw = false ∧ ∃ c, s.item_map id = some c ∧
      (s.merge id remote).log =
        s.log ++ Event.merge id remote :: (c.merge remote s.store).1.map Effect.toEvent ∧
      (s.merge id remote).store = (c.merge remote s.store).2 := by
  cases h0 : s.threw with
  | true => rw [merge_threw_mono s id remote h0] at h; cases h
  | false =>
    refine ⟨rfl, ?_⟩
    cases hc : s.item_map id with
    | none => rw [merge_of_none s id remote h0 hc] at h; cases h
    | some c =>
      refine ⟨c, rfl, ?_, ?_⟩
      · rw [merge_of_some s id remote c h0 hc, (foldl_callback _ _).1]; simp
      · rw [merge_of_some s id remote c h0 hc, (foldl_callback _ _).2.2.2.2.1]

theorem tracks_merge (m0 : ItemId → Option Controller) (s : Sync) (id : ItemId)
    (remote : Option Item) (h : s.Tracks m0) : (s.merge id remote).Tracks m0 := by
  cases h0 : s.threw with
  | true => rw [merge_of_threw s id remote h0]; exact h
  | false =>
    cases hc : s.item_map id with
    | none =>
      rw [merge_of_none s id remote h0 hc]
      refine ⟨?_, ?_, ?_, ?_, ?_⟩
      · intro x; simpa [removed_append, removed] using h.set_delete x
      · simpa [moved_to_append, moved_to] using h.list_add
      · intro x; simpa [removed_append, removed] using h.item_map x
      · simpa [writes_append, writes] using h.no_write
      · simpa [setList_calls_append, setList_calls] using h.no_setList
    | some c =>
      rw [merge_of_some s id remote c h0 hc]
      obtain ⟨h1, h2, h3, -, -, -, h7⟩ := foldl_callback (c.merge remote s.store).1
        { s with store := (c.merge remote s.store).2, log := s.log ++ [Event.merge id remote] }
      have hr : removed (s.log ++ [Event.merge id remote]) = removed s.log := by
        simp [removed_append, removed]
      have hm : moved_to (s.log ++ [Event.merge id remote]) = moved_to s.log := by
        simp [moved_to_append, moved_to]
      refine ⟨?_, ?_, ?_, ?_, ?_⟩
      · intro x
        rw [h3, h1, removed_append, hr, List.mem_append]
        simp only
        rw [h.set_delete x]
      · rw [h2, h1, moved_to_append, hm]
        simp only
        rw [h.list_add]
      · intro x
        rw [h7, h1, removed_append, hr]
        simp only
        rw [h.item_map x]
        by_cases hx1 : x ∈ removed s.log <;>
          by_cases hx2 : x ∈ removed (List.map Effect.toEvent (c.merge remote s.store).1) <;>
          simp [hx1, hx2]
      · rw [h1, writes_append, writes_toEvent]
        simpa [writes_append, writes] using h.no_write
      · rw [h1, setList_calls_append, setList_calls_toEvent]
        simpa [setList_calls_append, setList_calls] using h.no_setList

/-! ## The three loops of `sync()` -/

theorem merge_calls_merge_toEvent (id : ItemId) (remote : Option Item) (effs : List Effect) :
    merge_calls (Event.merge id remote :: effs.map Effect.toEvent) = [(id, remote)] := by
  have h : merge_calls (Event.merge id remote :: effs.map Effect.toEvent) =
      (id, remote) :: merge_calls (effs.map Effect.toEvent) := rfl
  rw [h, merge_calls_toEvent]

theorem foldl_filter_step_of_threw (remote : List Item) (acc : Sync × List Item)
    (h : acc.1.threw = true) : remote.foldl filter_step acc = acc := by
  induction remote with
  | nil => rfl
  | cons item rest ih =>
    have : filter_step acc item = acc := by simp [filter_step, h]
    rw [List.foldl_cons, this, ih]

theorem tracks_filter_step (m0 : ItemId → Option Controller) (acc : Sync × List Item)
    (item : Item) (h : acc.1.Tracks m0) : (filter_step acc item).1.Tracks m0 := by
  unfold filter_step
  split
  · exact h
  · split
    · apply tracks_merge
      exact ⟨h.set_delete, h.list_add, h.item_map, h.no_write, h.no_setList⟩
    · exact h

theorem tracks_foldl_filter_step (m0 : ItemId → Option Controller) (remote : List Item)
    (acc : Sync × List Item) (h : acc.1.Tracks m0) :
    (remote.foldl filter_step acc).1.Tracks m0 := by
  induction remote generalizing acc with
  | nil => exact h
  | cons item rest ih => exact ih _ (tracks_filter_step m0 acc item h)

/-- The loop `remote.filter(...)`, when no `TypeError` stops it: which ids
stay in `current_item_set`, which records are kept, and which merges are made. -/
theorem foldl_filter_step_ok (remote : List Item) (acc : Sync × List Item)
    (h : (remote.foldl filter_step acc).1.threw = false) :
    (remote.foldl filter_step acc).1.current_item_set =
        remaining acc.1.current_item_set remote ∧
      (remote.foldl filter_step acc).2 = acc.2 ++ unmatched acc.1.current_item_set remote ∧
      merge_calls (remote.foldl filter_step acc).1.log =
        merge_calls acc.1.log ++
          (matched acc.1.current_item_set remote).map (fun item => (item.id, some item)) := by
  induction remote generalizing acc with
  | nil => simp [remaining, unmatched, matched]
  | cons item rest ih =>
    rw [List.foldl_cons] at h ⊢
    have h0 : acc.1.threw = false := by
      cases ht : acc.1.threw with
      | false => rfl
      | true =>
        have e1 : filter_step acc item = acc := by simp [filter_step, ht]
        rw [e1, foldl_filter_step_of_threw rest acc ht, ht] at h
        cases h
    obtain ⟨i1, i2, i3⟩ := ih (filter_step acc item) h
    by_cases hm : item.id ∈ acc.1.current_item_set
    · have e : filter_step acc item =
          (Sync.merge { acc.1 with
              current_item_set := set_delete_id acc.1.current_item_set item.id }
            item.id (some item), acc.2) := by
        simp [filter_step, h0, hm]
      have hstep : (filter_step acc item).1.threw = false := by
        cases ht : (filter_step acc item).1.threw with
        | false => rfl
        | true =>
          rw [foldl_filter_step_of_threw rest _ ht, ht] at h
          cases h
      rw [e] at hstep
      obtain ⟨-, c, -, hlog, -⟩ := merge_ok _ _ _ hstep
      rw [i1, i2, i3, e]
      simp only [matched, unmatched, remaining, hm, if_true, merge_current_item_set, hlog]
      refine ⟨trivial, trivial, ?_⟩
      rw [merge_calls_append, merge_calls_merge_toEvent]
      simp
    · have e : filter_step acc item = (acc.1, acc.2 ++ [item]) := by
        simp [filter_step, h0, hm]
      rw [i1, i2, i3, e]
      simp [matched, unmatched, remaining, hm]

theorem foldl_merge_none_of_threw (ids : List ItemId) (s : Sync) (h : s.threw = true) :
    ids.foldl (fun s id => Sync.merge s id none) s = s := by
  induction ids with
  | nil => rfl
  | cons id rest ih => rw [List.foldl_cons, merge_of_threw s id none h, ih]

theorem tracks_foldl_merge_none (m0 : ItemId → Option Controller) (ids : List ItemId)
    (s : Sync) (h : s.Tracks m0) :
    (ids.foldl (fun s id => Sync.merge s id none) s).Tracks m0 := by
  induction ids generalizing s with
  | nil => exact h
  | cons id rest ih => exact ih _ (tracks_merge m0 s id none h)

/-- The loop `current_item_set.forEach(...)`, when no `TypeError` stops it:
one merge with `null` for each id, in order. -/
theorem foldl_merge_none_ok (ids : List ItemId) (s : Sync)
    (h : (ids.foldl (fun s id => Sync.merge s id none) s).threw = false) :
    merge_calls (ids.foldl (fun s id => Sync.merge s id none) s).log =
      merge_calls s.log ++ ids.map (fun id => (id, none)) := by
  induction ids generalizing s with
  | nil => simp
  | cons id rest ih =>
    rw [List.foldl_cons] at h ⊢
    have hstep : (s.merge id none).threw = false := by
      cases ht : (s.merge id none).threw with
      | false => rfl
      | true =>
        rw [foldl_merge_none_of_threw rest _ ht, ht] at h
        cases h
    obtain ⟨-, c, -, hlog, -⟩ := merge_ok _ _ _ hstep
    rw [ih _ h, hlog, merge_calls_append, merge_calls_merge_toEvent]
    simp

/-! ## The partition of the authoritative array -/

theorem mem_foldl_set_add (list init : List ItemId) (x : ItemId) :
    x ∈ list.foldl set_add init ↔ x ∈ init ∨ x ∈ list := by
  induction list generalizing init with
  | nil => simp
  | cons a rest ih =>
    rw [List.foldl_cons, ih, mem_set_add]
    simp only [List.mem_cons]
    tauto

theorem nodup_set_add (s : List ItemId) (id : ItemId) (h : s.Nodup) : (set_add s id).Nodup := by
  unfold set_add
  split
  · exact h
  · rename_i hid
    rw [List.nodup_append]
    refine ⟨h, List.nodup_singleton id, ?_⟩
    intro x hx hx2
    rw [List.mem_singleton] at hx2
    subst hx2
    exact hid hx

theorem nodup_foldl_set_add (list init : List ItemId) (h : init.Nodup) :
    (list.foldl set_add init).Nodup := by
  induction list generalizing init with
  | nil => exact h
  | cons a rest ih => exact ih _ (nodup_set_add init a h)

theorem mem_set_delete_id (s : List ItemId) (id x : ItemId) :
    x ∈ set_delete_id s id ↔ x ∈ s ∧ x ≠ id := by
  simp [set_delete_id]

theorem nodup_set_delete_id (s : List ItemId) (id : ItemId) (h : s.Nodup) :
    (set_delete_id s id).Nodup :=
  List.Nodup.filter _ h

/-- The ids left for the Only-local loop are the current ids that the
authoritative array does not carry. -/
theorem remaining_eq (cis : List ItemId) (remote : List Item) :
    remaining cis remote = cis.filter (fun id => decide (id ∉ remote.map Item.id)) := by
  induction remote generalizing cis with
  | nil => simp [remaining]
  | cons item rest ih =>
    unfold remaining
    split
    · rw [ih, set_delete_id, List.filter_filter]
      apply List.filter_congr
      intro x _
      by_cases hx : x = item.id <;> simp [hx]
    · rename_i hm
      rw [ih]
      apply List.filter_congr
      intro x hx
      have : x ≠ item.id := fun e => hm (e ▸ hx)
      simp [this]

/-- Every kept record is a record of the authoritative array. -/
theorem mem_of_mem_unmatched (cis : List ItemId) (remote : List Item) (item : Item)
    (h : item ∈ unmatched cis remote) : item ∈ remote := by
  induction remote generalizing cis with
  | nil => simp [unmatched] at h
  | cons a rest ih =>
    unfold unmatched at h
    split at h
    · exact List.mem_cons_of_mem _ (ih _ h)
    · rcases List.mem_cons.1 h with h | h
      · exact h ▸ List.mem_cons_self _ _
      · exact List.mem_cons_of_mem _ (ih _ h)

/-- A record whose id is not a current id is kept. -/
theorem mem_unmatched_of_not_mem (cis : List ItemId) (remote : List Item) (item : Item)
    (h : item ∈ remote) (hid : item.id ∉ cis) : item ∈ unmatched cis remote := by
  induction remote generalizing cis with
  | nil => cases h
  | cons a rest ih =>
    unfold unmatched
    rcases List.mem_cons.1 h with h | h
    · subst h
      simp [hid]
    · split
      · exact ih _ h (fun hc => hid ((mem_set_delete_id _ _ _).1 hc).1)
      · exact List.mem_cons_of_mem _ (ih _ h hid)

/-- When the authoritative array carries no id twice, the kept records are
those whose id is not a current id: the Only-remote records. -/
theorem unmatched_eq_filter (cis : List ItemId) (remote : List Item)
    (h : (remote.map Item.id).Nodup) :
    unmatched cis remote = remote.filter (fun item => decide (item.id ∉ cis)) := by
  induction remote generalizing cis with
  | nil => simp [unmatched]
  | cons a rest ih =>
    rw [List.map_cons, List.nodup_cons] at h
    unfold unmatched
    split
    · rename_i hm
      rw [ih _ h.2, List.filter_cons]
      simp only [hm, not_true_eq_false, decide_False, Bool.false_eq_true, if_false]
      apply List.filter_congr
      intro x hx
      have : x.id ≠ a.id := fun e => h.1 (e ▸ List.mem_map_of_mem Item.id hx)
      simp [mem_set_delete_id, this]
    · rename_i hm
      rw [ih _ h.2, List.filter_cons]
      simp [hm]

/-- Among the Matched records, the one carrying a given current id is the
first record of the authoritative array with that id. -/
theorem matched_filter_id (cis : List ItemId) (remote : List Item) (id : ItemId) :
    (matched cis remote).filter (fun item => decide (item.id = id)) =
      if id ∈ cis then (remote.find? (fun item => decide (item.id = id))).toList else [] := by
  induction remote generalizing cis with
  | nil => simp [matched]
  | cons a rest ih =>
    unfold matched
    by_cases ha : a.id ∈ cis
    · simp only [ha, if_true, List.filter_cons, List.find?_cons]
      by_cases hid : a.id = id
      · subst hid
        simp only [decide_True, if_true, ha, Option.toList]
        rw [ih]
        simp [mem_set_delete_id]
      · simp only [hid, decide_False, Bool.false_eq_true, if_false]
        rw [ih]
        have : id ∈ set_delete_id cis a.id ↔ id ∈ cis := by
          rw [mem_set_delete_id]
          exact ⟨fun h => h.1, fun h => ⟨h, fun e => hid e.symm⟩⟩
        simp only [this]
    · simp only [ha, if_false, List.find?_cons]
      rw [ih]
      by_cases hid : a.id = id
      · subst hid
        simp [ha]
      · simp [hid]

theorem foldl_persist_of_threw (key_remote key_local : ItemId → Key) (items : List Item)
    (s : Sync) (h : s.threw = true) : items.foldl (persist key_remote key_local) s = s := by
  induction items with
  | nil => rfl
  | cons item rest ih =>
    have : persist key_remote key_local s item = s := by simp [persist, h]
    rw [List.foldl_cons, this, ih]

/-- The loop `new_item_list.forEach(...)`: two store writes and one `onAdd`
for each record, nothing else. -/
theorem foldl_persist (key_remote key_local : ItemId → Key) (items : List Item) (s : Sync)
    (h : s.threw = false) :
    (items.foldl (persist key_remote key_local) s).log =
        s.log ++ (items.flatMap (persist_writes key_remote key_local)).map
          (fun p => Event.write p.1 p.2) ∧
      (items.foldl (persist key_remote key_local) s).list_add =
        s.list_add ++ items.map Item.id ∧
      (items.foldl (persist key_remote key_local) s).set_delete = s.set_delete ∧
      (items.foldl (persist key_remote key_local) s).item_map = s.item_map ∧
      (items.foldl (persist key_remote key_local) s).threw = false := by
  induction items generalizing s with
  | nil => simp [h]
  | cons item rest ih =>
    have e : persist key_remote key_local s item =
        Sync.onAdd
          { s with
            store := (s.store.set (key_remote item.id) (some ⟨none, item.ver, item.val⟩)).set
              (key_local item.id) (some ⟨some item.ver, item.ver, Val.null⟩)
            log := s.log ++
              [Event.write (key_remote item.id) (some ⟨none, item.ver, item.val⟩),
               Event.write (key_local item.id) (some ⟨some item.ver, item.ver, Val.null⟩)] }
          item.id := by
      simp [persist, h]
    have ht : (persist key_remote key_local s item).threw = false := by
      rw [e]; exact h
    obtain ⟨h1, h2, h3, h4, h5⟩ := ih (persist key_remote key_local s item) ht
    rw [List.foldl_cons, h1, h2, h3, h4, h5, e]
    simp [Sync.onAdd, persist_writes]

theorem removed_writes (l : List (Key × Option Record)) :
    removed (l.map (fun p => Event.write p.1 p.2)) = [] := by
  induction l with
  | nil => rfl
  | cons a rest ih => simp [removed]

theorem moved_to_writes (l : List (Key × Option Record)) :
    moved_to (l.map (fun p => Event.write p.1 p.2)) = [] := by
  induction l with
  | nil => rfl
  | cons a rest ih => simp [moved_to]

theorem merge_calls_writes (l : List (Key × Option Record)) :
    merge_calls (l.map (fun p => Event.write p.1 p.2)) = [] := by
  induction l with
  | nil => rfl
  | cons a rest ih => simp [merge_calls]

theorem setList_calls_writes (l : List (Key × Option Record)) :
    setList_calls (l.map (fun p => Event.write p.1 p.2)) = [] := by
  induction l with
  | nil => rfl
  | cons a rest ih => simp [setList_calls]

theorem writes_writes (l : List (Key × Option Record)) :
    writes (l.map (fun p => Event.write p.1 p.2)) = l := by
  induction l with
  | nil => rfl
  | cons a rest ih =>
    have h : writes ((a :: rest).map (fun p => Event.write p.1 p.2)) =
        (a.1, a.2) :: writes (rest.map (fun p => Event.write p.1 p.2)) := rfl
    rw [h, ih]

theorem tracks_sync_init (list : List ItemId) (w : World) :
    (sync_init list w).Tracks w.item_map :=
  ⟨fun x => by simp [sync_init, removed], rfl, fun x => by simp [sync_init, removed], rfl, rfl⟩

/-- Before the loop over `new_item_list`, the bookkeeping of `sync()` agrees
with the callbacks in the log. -/
theorem tracks_sync_only_local (list : List ItemId) (remote : List Item) (w : World) :
    (sync_only_local (sync_matched list remote w).1).Tracks w.item_map := by
  unfold sync_only_local sync_matched
  apply tracks_foldl_merge_none
  apply tracks_foldl_filter_step
  exact tracks_sync_init list w

/-- No run of `sync()` calls `setList` before line 179. -/
theorem setList_calls_sync_run (key_remote key_local : ItemId → Key) (list : List ItemId)
    (remote : List Item) (w : World) :
    setList_calls (sync_run key_remote key_local list remote w).log = [] := by
  have ht := tracks_sync_only_local list remote w
  unfold sync_run
  cases h : (sync_only_local (sync_matched list remote w).1).threw with
  | true => rw [foldl_persist_of_threw _ _ _ _ h]; exact ht.no_setList
  | false =>
    rw [(foldl_persist key_remote key_local _ _ h).1, setList_calls_append, ht.no_setList,
      setList_calls_writes]
    rfl

/-- A run of `sync()` that no `TypeError` stops: its bookkeeping, its merges
and its store writes, read off the partition of the authoritative array. -/
theorem sync_run_ok (key_remote key_local : ItemId → Key) (list : List ItemId)
    (remote : List Item) (w : World)
    (h : (sync_run key_remote key_local list remote w).threw = false) :
    (∀ x, x ∈ (sync_run key_remote key_local list remote w).set_delete ↔
        x ∈ removed (sync_run key_remote key_local list remote w).log) ∧
      (sync_run key_remote key_local list remote w).list_add =
        moved_to (sync_run key_remote key_local list remote w).log ++
          (unmatched (list.foldl set_add []) remote).map Item.id ∧
      (∀ x, (sync_run key_remote key_local list remote w).item_map x =
        if x ∈ removed (sync_run key_remote key_local list remote w).log then none
        else w.item_map x) ∧
      merge_calls (sync_run key_remote key_local list remote w).log =
        (matched (list.foldl set_add []) remote).map (fun item => (item.id, some item)) ++
          (remaining (list.foldl set_add []) remote).map (fun id => (id, none)) ∧
      writes (sync_run key_remote key_local list remote w).log =
        (unmatched (list.foldl set_add []) remote).flatMap (persist_writes key_remote key_local) := by
  have ht := tracks_sync_only_local list remote w
  have h2 : (sync_only_local (sync_matched list remote w).1).threw = false := by
    cases h' : (sync_only_local (sync_matched list remote w).1).threw with
    | false => rfl
    | true =>
      unfold sync_run at h
      rw [foldl_persist_of_threw _ _ _ _ h', h'] at h
      cases h
  have h1 : (sync_matched list remote w).1.threw = false := by
    cases h' : (sync_matched list remote w).1.threw with
    | false => rfl
    | true =>
      unfold sync_only_local at h2
      rw [foldl_merge_none_of_threw _ _ h', h'] at h2
      cases h2
  obtain ⟨a1, a2, a3⟩ := foldl_filter_step_ok remote (sync_init list w, []) h1
  have b := foldl_merge_none_ok _ _ h2
  obtain ⟨c1, c2, c3, c4, -⟩ := foldl_persist key_remote key_local
    (sync_matched list remote w).2 _ h2
  have e1 : (sync_matched list remote w).2 = unmatched (list.foldl set_add []) remote := by
    unfold sync_matched
    rw [a2]
    rfl
  have e2 : (sync_matched list remote w).1.current_item_set =
      remaining (list.foldl set_add []) remote := a1
  have e3 : merge_calls (sync_matched list remote w).1.log =
      (matched (list.foldl set_add []) remote).map (fun item => (item.id, some item)) := by
    unfold sync_matched
    rw [a3]
    rfl
  unfold sync_run
  rw [c1, c2, c3, c4, removed_append, removed_writes, moved_to_append, moved_to_writes,
    merge_calls_append, merge_calls_writes, writes_append, writes_writes, ht.no_write,
    List.append_nil, List.append_nil, List.append_nil, List.nil_append, ← e1]
  refine ⟨ht.set_delete, ?_, ht.item_map, ?_, rfl⟩
  · rw [ht.list_add]
  · unfold sync_only_local at b ⊢
    rw [b, e3, e2]

theorem sync_apply_log (key_remote key_local : ItemId → Key) (now : Nat) (list : List ItemId)
    (remote : List Item) (w : World) :
    (sync_apply key_remote key_local now list remote w).log =
      w.log ++ (sync_run key_remote key_local list remote w).log ++
        (if (sync_run key_remote key_local list remote w).threw then []
         else [Event.setList (sync_new_list list (sync_run key_remote key_local list remote w)),
               Event.onSync true]) := by
  unfold sync_apply
  cases h : (sync_run key_remote key_local list remote w).threw <;> simp [h, onSync]

theorem sync_new_list_eq (key_remote key_local : ItemId → Key) (list : List ItemId)
    (remote : List Item) (w : World)
    (h : (sync_run key_remote key_local list remote w).threw = false) :
    sync_new_list list (sync_run key_remote key_local list remote w) =
      spec_new_list list (removed (sync_run key_remote key_local list remote w).log)
        (moved_to (sync_run key_remote key_local list remote w).log ++ new_ids list remote) := by
  obtain ⟨h1, h2, -, -, -⟩ := sync_run_ok key_remote key_local list remote w h
  unfold sync_new_list spec_new_list new_ids
  rw [h2]
  congr 2
  apply List.filter_congr
  intro x _
  simp only [h1 x]

/-- C1: the list that `sync()` gives to `setList` is the ascending sort, by id
string, of the old list without the ids of the accumulated remove-set followed
by the accumulated add-list (new ids of renames in callback order, then the ids
of the records kept by `remote.filter`, which are the Only-remote records when
no id occurs twice in the authoritative array). `setList` is called once, with
that list, unless a `TypeError` aborts the run, and then it is not called. The
list is sorted, it is the only sorted arrangement of those ids, and an id is in
it iff it is in the add-list or it is in the old list and not in the remove-set. -/
theorem sync_setList_sorted_merge (key_remote key_local : ItemId → Key) (now : Nat)
    (list : List ItemId) (remote : List Item) (w : World) :
    setList_calls (sync_apply key_remote key_local now list remote w).log =
        setList_calls w.log ++
          (if (sync_run key_remote key_local list remote w).threw then []
           else [spec_new_list list (removed (sync_run key_remote key_local list remote w).log)
              (moved_to (sync_run key_remote key_local list remote w).log ++
                new_ids list remote)]) ∧
      ((sync_run key_remote key_local list remote w).threw = false →
        (sync_apply key_remote key_local now list remote w).list =
          spec_new_list list (removed (sync_run key_remote key_local list remote w).log)
            (moved_to (sync_run key_remote key_local list remote w).log ++
              new_ids list remote)) ∧
      (∀ remove_set add_list : List ItemId,
        (spec_new_list list remove_set add_list).Sorted IdLe ∧
        (∀ id, id ∈ spec_new_list list remove_set add_list ↔
          id ∈ add_list ∨ (id ∈ list ∧ id ∉ remove_set)) ∧
        (∀ l : List ItemId, l.Sorted IdLe →
          l.Perm (list.filter (fun id => decide (id ∉ remove_set)) ++ add_list) →
          l = spec_new_list list remove_set add_list)) ∧
      ((remote.map Item.id).Nodup →
        new_ids list remote =
          (remote.filter (fun item => decide (item.id ∉ list))).map Item.id) := by
  refine ⟨?_, ?_, ?_, ?_⟩
  · rw [sync_apply_log, setList_calls_append, setList_calls_append, setList_calls_sync_run]
    cases h : (sync_run key_remote key_local list remote w).threw with
    | true => simp [setList_calls]
    | false =>
      rw [sync_new_list_eq key_remote key_local list remote w h]
      simp [setList_calls]
  · intro h
    rw [← sync_new_list_eq key_remote key_local list remote w h]
    simp [sync_apply, h, onSync]
  · intro remove_set add_list
    refine ⟨sort_sorted _, ?_, ?_⟩
    · intro id
      unfold spec_new_list
      rw [mem_sort, List.mem_append, List.mem_filter]
      simp only [decide_eq_true_eq]
      tauto
    · intro l hs hp
      exact sort_unique _ l hs hp
  · intro h
    unfold new_ids
    rw [unmatched_eq_filter _ _ h]
    congr 1
    apply List.filter_congr
    intro x _
    simp [mem_foldl_set_add]

/-- The run of C1 on the old list `[R9, L1]` against the authoritative array
`[R5]`, where the controller of `L1` renames it to `R7`. -/
theorem sync_setList_sorted_merge_witness :
    (sync_run key_remote_ex key_local_ex [R9, L1] [⟨R5, 1, Val.str "x"⟩]
        (world_ex [R9, L1] (fun _ => none)
          item_map_ex)).threw = false ∧
      (sync_apply key_remote_ex key_local_ex 5 [R9, L1] [⟨R5, 1, Val.str "x"⟩]
        (world_ex [R9, L1] (fun _ => none)
          item_map_ex)).list = [R5, R7, R9] ∧
      new_ids [R9, L1] [⟨R5, 1, Val.str "x"⟩] = [R5] :=
  ⟨by decide,
   ((sync_setList_sorted_merge key_remote_ex key_local_ex 5 [R9, L1] [⟨R5, 1, Val.str "x"⟩]
      (world_ex [R9, L1] (fun _ => none)
        item_map_ex)).2.1 (by decide)).trans
      (by decide),
   ((sync_setList_sorted_merge key_remote_ex key_local_ex 5 [R9, L1] [⟨R5, 1, Val.str "x"⟩]
      (world_ex [R9, L1] (fun _ => none)
        item_map_ex)).2.2.2 (by decide)).trans
      (by decide)⟩

theorem sync_apply_list (key_remote key_local : ItemId → Key) (now : Nat)
    (list : List ItemId) (remote : List Item) (w : World)
    (h : (sync_run key_remote key_local list remote w).threw = false) :
    (sync_apply key_remote key_local now list remote w).list =
      spec_new_list list (removed (sync_run key_remote key_local list remote w).log)
        (moved_to (sync_run key_remote key_local list remote w).log ++ new_ids list remote) := by
  rw [← sync_new_list_eq key_remote key_local list remote w h]
  simp [sync_apply, h, onSync]

theorem spec_new_list_nodup_iff (list remove_set add_list : List ItemId) (hl : list.Nodup) :
    (spec_new_list list remove_set add_list).Nodup ↔
      add_list.Nodup ∧ ∀ id ∈ add_list, id ∈ list → id ∈ remove_set := by
  unfold spec_new_list
  rw [(sort_perm _).nodup_iff, List.nodup_append]
  constructor
  · rintro ⟨-, h2, h3⟩
    refine ⟨h2, fun id hid hin => ?_⟩
    by_contra hr
    exact h3 (List.mem_filter.2 ⟨hin, by simpa using hr⟩) hid
  · rintro ⟨h2, h3⟩
    refine ⟨List.Nodup.filter _ hl, h2, ?_⟩
    intro id h1 hid
    rw [List.mem_filter] at h1
    exact (by simpa using h1.2 : id ∉ remove_set) (h3 id hid h1.1)

/-- C2, as amended: for a list without duplicate ids, the list written by a
run of `sync()` that completes has no duplicate id exactly when the accumulated
add-list (new ids of renames, then the ids of the records kept by
`remote.filter`) has no duplicate id and every id of it that is in the old
list is in the accumulated remove-set. -/
theorem sync_list_nodup_iff (key_remote key_local : ItemId → Key) (now : Nat)
    (list : List ItemId) (remote : List Item) (w : World) (hl : list.Nodup)
    (h : (sync_run key_remote key_local list remote w).threw = false) :
    (sync_apply key_remote key_local now list remote w).list.Nodup ↔
      (moved_to (sync_run key_remote key_local list remote w).log ++
          new_ids list remote).Nodup ∧
        ∀ id ∈ moved_to (sync_run key_remote key_local list remote w).log ++
            new_ids list remote,
          id ∈ list → id ∈ removed (sync_run key_remote key_local list remote w).log := by
  rw [sync_apply_list key_remote key_local now list remote w h]
  exact spec_new_list_nodup_iff _ _ _ hl

/-- The run of C2 on the list `[R9, L1]` against `[R5]`, `L1` moving to `R7`:
the new list `[R5, R7, R9]` has no duplicate. -/
theorem sync_list_nodup_iff_witness :
    [R9, L1].Nodup ∧
      (sync_apply key_remote_ex key_local_ex 5 [R9, L1] [⟨R5, 1, Val.str "x"⟩]
        (world_ex [R9, L1] (fun _ => none) item_map_ex)).list.Nodup :=
  ⟨by decide,
   (sync_list_nodup_iff key_remote_ex key_local_ex 5 [R9, L1] [⟨R5, 1, Val.str "x"⟩]
      (world_ex [R9, L1] (fun _ => none) item_map_ex) (by decide) (by decide)).2
      ⟨by decide, by decide⟩⟩

/-- C2 fails as stated: on the duplicate-free list `[L1, R7]`, with an empty
authoritative array, the controller of `L1` calls `onMove(L1, R7)` and the
controller of `R7` keeps its item; `sync()` completes and writes `[R7, R7]`. -/
theorem sync_list_nodup_counterexample :
    [L1, R7].Nodup ∧
      (sync_run key_remote_ex key_local_ex [L1, R7] []
        (world_ex [L1, R7] (fun _ => none) item_map_ex)).threw = false ∧
      (sync_apply key_remote_ex key_local_ex 5 [L1, R7] []
        (world_ex [L1, R7] (fun _ => none) item_map_ex)).list = [R7, R7] ∧
      ¬ (sync_apply key_remote_ex key_local_ex 5 [L1, R7] []
        (world_ex [L1, R7] (fun _ => none) item_map_ex)).list.Nodup := by
  decide

theorem filter_eq_singleton (l : List ItemId) (x : ItemId) (hl : l.Nodup) (hx : x ∈ l) :
    l.filter (fun y => decide (y = x)) = [x] := by
  induction l with
  | nil => cases hx
  | cons a rest ih =>
    rw [List.nodup_cons] at hl
    by_cases ha : a = x
    · subst ha
      rw [List.filter_cons]
      simp only [decide_True, if_true, List.cons.injEq, true_and]
      rw [List.filter_eq_nil_iff]
      intro y hy
      have : y ≠ a := fun e => hl.1 (e ▸ hy)
      simp [this]
    · rw [List.filter_cons]
      simp only [ha, decide_False, Bool.false_eq_true, if_false]
      rcases List.mem_cons.1 hx with h | h
      · exact absurd h.symm ha
      · exact ih hl.2 h

/-- C3: in a run of `sync()` that completes, for every id of the WorkingList
(no cap applies) the controller's merge is invoked exactly once, with the
first record of the authoritative array carrying that id if there is one and
with `null` otherwise; no merge is invoked for an id outside the WorkingList;
and the merges with a record all come before the merges with `null`. -/
theorem sync_merge_once (key_remote key_local : ItemId → Key) (list : List ItemId)
    (remote : List Item) (w : World)
    (h : (sync_run key_remote key_local list remote w).threw = false) :
    (∀ id ∈ list,
        (merge_calls (sync_run key_remote key_local list remote w).log).filter
            (fun call => decide (call.1 = id)) =
          [(id, remote.find? (fun item => decide (item.id = id)))]) ∧
      (∀ call ∈ merge_calls (sync_run key_remote key_local list remote w).log,
        call.1 ∈ list) ∧
      (∃ with_record with_null : List (ItemId × Option Item),
        merge_calls (sync_run key_remote key_local list remote w).log =
          with_record ++ with_null ∧
        (∀ call ∈ with_record, call.2.isSome = true) ∧
        (∀ call ∈ with_null, call.2 = none)) := by
  obtain ⟨-, -, -, hm, -⟩ := sync_run_ok key_remote key_local list remote w h
  have hnd : (list.foldl set_add []).Nodup := nodup_foldl_set_add list [] List.nodup_nil
  have hmem : ∀ x, x ∈ list.foldl set_add [] ↔ x ∈ list := fun x => by
    simp [mem_foldl_set_add]
  refine ⟨?_, ?_, ?_⟩
  · intro id hid
    have hid' : id ∈ list.foldl set_add [] := (hmem id).2 hid
    rw [hm, List.filter_append, List.filter_map, List.filter_map]
    have e1 : ((fun call : ItemId × Option Item => decide (call.1 = id)) ∘
        fun item : Item => (item.id, some item)) = fun item => decide (item.id = id) := rfl
    have e2 : ((fun call : ItemId × Option Item => decide (call.1 = id)) ∘
        fun x : ItemId => (x, (none : Option Item))) = fun x => decide (x = id) := rfl
    rw [e1, e2, matched_filter_id, if_pos hid', remaining_eq, List.filter_filter]
    cases hf : remote.find? (fun item => decide (item.id = id)) with
    | none =>
      have hnot : id ∉ remote.map Item.id := by
        intro hc
        obtain ⟨item, hi, hi2⟩ := List.mem_map.1 hc
        have := List.find?_eq_none.1 hf item hi
        simp [hi2] at this
      have e3 : (list.foldl set_add []).filter
          (fun a => decide (a = id) && decide (a ∉ remote.map Item.id)) =
          (list.foldl set_add []).filter (fun a => decide (a = id)) := by
        apply List.filter_congr
        intro x _
        by_cases hx : x = id
        · subst hx; simp [hnot]
        · simp [hx]
      rw [e3, filter_eq_singleton _ _ hnd hid']
      rfl
    | some item =>
      have hi := List.find?_some hf
      have hi2 : item ∈ remote := List.mem_of_find?_eq_some hf
      have hid2 : item.id = id := by simpa using hi
      have hin : id ∈ remote.map Item.id := hid2 ▸ List.mem_map_of_mem Item.id hi2
      have e3 : (list.foldl set_add []).filter
          (fun a => decide (a = id) && decide (a ∉ remote.map Item.id)) = [] := by
        rw [List.filter_eq_nil_iff]
        intro x _
        by_cases hx : x = id
        · subst hx; simp [hin]
        · simp [hx]
      rw [e3]
      simp [hid2]
  · intro call hc
    rw [hm, List.mem_append] at hc
    rcases hc with hc | hc
    · obtain ⟨item, hi, rfl⟩ := List.mem_map.1 hc
      have : item.id ∈ list.foldl set_add [] := by
        have := matched_filter_id (list.foldl set_add []) remote item.id
        by_contra hcon
        rw [if_neg hcon, List.filter_eq_nil_iff] at this
        exact this item hi (by simp)
      exact (hmem _).1 this
    · obtain ⟨x, hx, rfl⟩ := List.mem_map.1 hc
      rw [remaining_eq, List.mem_filter] at hx
      exact (hmem _).1 hx.1
  · refine ⟨_, _, hm, ?_, ?_⟩
    · intro call hc
      obtain ⟨item, -, rfl⟩ := List.mem_map.1 hc
      rfl
    · intro call hc
      obtain ⟨x, -, rfl⟩ := List.mem_map.1 hc
      rfl

/-- The run of C3 on the list `[R9, L1]` against `[R9, R5]`: `R9` is merged
with its record, then `L1` with `null`. -/
theorem sync_merge_once_witness :
    (sync_run key_remote_ex key_local_ex [R9, L1]
        [⟨R9, 2, Val.str "y"⟩, ⟨R5, 1, Val.str "x"⟩]
        (world_ex [R9, L1] (fun _ => none) item_map_ex)).threw = false ∧
      (merge_calls (sync_run key_remote_ex key_local_ex [R9, L1]
        [⟨R9, 2, Val.str "y"⟩, ⟨R5, 1, Val.str "x"⟩]
        (world_ex [R9, L1] (fun _ => none) item_map_ex)).log).filter
          (fun call => decide (call.1 = R9)) = [(R9, some ⟨R9, 2, Val.str "y"⟩)] :=
  ⟨by decide,
   (sync_merge_once key_remote_ex key_local_ex [R9, L1]
      [⟨R9, 2, Val.str "y"⟩, ⟨R5, 1, Val.str "x"⟩]
      (world_ex [R9, L1] (fun _ => none) item_map_ex) (by decide)).1 R9 (by decide)⟩

theorem persist_of_ok (key_remote key_local : ItemId → Key) (s : Sync) (item : Item)
    (h : s.threw = false) :
    (persist key_remote key_local s item).store =
        (s.store.set (key_remote item.id) (some ⟨none, item.ver, item.val⟩)).set
          (key_local item.id) (some ⟨some item.ver, item.ver, Val.null⟩) ∧
      (persist key_remote key_local s item).threw = false := by
  simp [persist, h, Sync.onAdd]

/-- The loop over `new_item_list` leaves every key alone that is not a key of
one of its records. -/
theorem foldl_persist_store_other (key_remote key_local : ItemId → Key) (items : List Item)
    (s : Sync) (k : Key) (h : s.threw = false)
    (hk : ∀ item ∈ items, k ≠ key_remote item.id ∧ k ≠ key_local item.id) :
    (items.foldl (persist key_remote key_local) s).store k = s.store k := by
  induction items generalizing s with
  | nil => rfl
  | cons a rest ih =>
    obtain ⟨e1, e2⟩ := persist_of_ok key_remote key_local s a h
    rw [List.foldl_cons, ih _ e2 (fun item hi => hk item (List.mem_cons_of_mem _ hi)), e1]
    obtain ⟨k1, k2⟩ := hk a (List.mem_cons_self _ _)
    simp [Store.set, k1, k2]

/-- After the loop over `new_item_list`, the store holds the two fresh records
of each of its items, when no id occurs twice and the keys do not collide. -/
theorem foldl_persist_store_mem (key_remote key_local : ItemId → Key) (items : List Item)
    (s : Sync) (h : s.threw = false) (hn : (items.map Item.id).Nodup)
    (hkr : Function.Injective key_remote) (hkl : Function.Injective key_local)
    (hd : ∀ a b, key_remote a ≠ key_local b) (item : Item) (hi : item ∈ items) :
    (items.foldl (persist key_remote key_local) s).store (key_remote item.id) =
        some ⟨none, item.ver, item.val⟩ ∧
      (items.foldl (persist key_remote key_local) s).store (key_local item.id) =
        some ⟨some item.ver, item.ver, Val.null⟩ := by
  induction items generalizing s with
  | nil => cases hi
  | cons a rest ih =>
    rw [List.map_cons, List.nodup_cons] at hn
    obtain ⟨e1, e2⟩ := persist_of_ok key_remote key_local s a h
    rw [List.foldl_cons]
    rcases List.mem_cons.1 hi with hia | hia
    · subst hia
      have hne : ∀ x ∈ rest, x.id ≠ item.id := fun x hx e =>
        hn.1 (e ▸ List.mem_map_of_mem Item.id hx)
      rw [foldl_persist_store_other key_remote key_local rest _ _ e2
          (fun x hx => ⟨fun e => hne x hx (hkr e).symm, fun e => hd _ _ e⟩),
        foldl_persist_store_other key_remote key_local rest _ _ e2
          (fun x hx => ⟨fun e => hd _ _ e.symm, fun e => hne x hx (hkl e).symm⟩), e1]
      simp [Store.set, hd]
    · exact ih _ e2 hn.2 hia

theorem sync_apply_store (key_remote key_local : ItemId → Key) (now : Nat)
    (list : List ItemId) (remote : List Item) (w : World) :
    (sync_apply key_remote key_local now list remote w).store =
      (sync_run key_remote key_local list remote w).store := by
  unfold sync_apply
  cases h : (sync_run key_remote key_local list remote w).threw <;> simp [h, onSync]

theorem mem_persist_writes (key_remote key_local : ItemId → Key) (item : Item) (k : Key)
    (v : Option Record) :
    (k, v) ∈ persist_writes key_remote key_local item ↔
      (k = key_remote item.id ∧ v = some ⟨none, item.ver, item.val⟩) ∨
      (k = key_local item.id ∧ v = some ⟨some item.ver, item.ver, Val.null⟩) := by
  simp [persist_writes]

/-- C4, as amended: in a run of `sync()` that completes on an authoritative
array in which no id occurs twice (the keys of distinct records being
distinct), the store writes of the engine are exactly the two writes for each
record whose id is not in the WorkingList, in array order; so the engine
writes under the keys of an id iff the id occurs in the array and is not in the
WorkingList, never under the keys of an id of the WorkingList; and for each
such record the store afterwards holds `{ ver, val }` under `key_remote(id)`
and `{ ref: ver, ver, val: null }` under `key_local(id)`, and the id is in the
new WorkingList. -/
theorem sync_persists_only_remote (key_remote key_local : ItemId → Key) (now : Nat)
    (list : List ItemId) (remote : List Item) (w : World)
    (h : (sync_run key_remote key_local list remote w).threw = false)
    (hn : (remote.map Item.id).Nodup)
    (hkr : Function.Injective key_remote) (hkl : Function.Injective key_local)
    (hd : ∀ a b, key_remote a ≠ key_local b) :
    writes (sync_run key_remote key_local list remote w).log =
        (remote.filter (fun item => decide (item.id ∉ list))).flatMap
          (persist_writes key_remote key_local) ∧
      (∀ id, (∃ value,
            (key_remote id, value) ∈ writes (sync_run key_remote key_local list remote w).log ∨
            (key_local id, value) ∈ writes (sync_run key_remote key_local list remote w).log) ↔
          (id ∈ remote.map Item.id ∧ id ∉ list)) ∧
      (∀ id ∈ list, ∀ value,
        (key_remote id, value) ∉ writes (sync_run key_remote key_local list remote w).log ∧
        (key_local id, value) ∉ writes (sync_run key_remote key_local list remote w).log) ∧
      (∀ item ∈ remote, item.id ∉ list →
        (sync_apply key_remote key_local now list remote w).store (key_remote item.id) =
            some ⟨none, item.ver, item.val⟩ ∧
          (sync_apply key_remote key_local now list remote w).store (key_local item.id) =
            some ⟨some item.ver, item.ver, Val.null⟩ ∧
          item.id ∈ (sync_apply key_remote key_local now list remote w).list) := by
  obtain ⟨-, -, -, -, hw⟩ := sync_run_ok key_remote key_local list remote w h
  have hu : unmatched (list.foldl set_add []) remote =
      remote.filter (fun item => decide (item.id ∉ list)) := by
    rw [unmatched_eq_filter _ _ hn]
    apply List.filter_congr
    intro x _
    simp [mem_foldl_set_add]
  rw [hu] at hw
  have hiff : ∀ id, (∃ value,
      (key_remote id, value) ∈ writes (sync_run key_remote key_local list remote w).log ∨
      (key_local id, value) ∈ writes (sync_run key_remote key_local list remote w).log) ↔
      (id ∈ remote.map Item.id ∧ id ∉ list) := by
    intro id
    rw [hw]
    constructor
    · rintro ⟨value, hv | hv⟩
      · obtain ⟨item, hi, hp⟩ := List.mem_flatMap.1 hv
        rw [List.mem_filter] at hi
        rw [mem_persist_writes] at hp
        rcases hp with ⟨hk, -⟩ | ⟨hk, -⟩
        · have := hkr hk
          subst this
          exact ⟨List.mem_map_of_mem Item.id hi.1, by simpa using hi.2⟩
        · exact absurd hk (hd _ _)
      · obtain ⟨item, hi, hp⟩ := List.mem_flatMap.1 hv
        rw [List.mem_filter] at hi
        rw [mem_persist_writes] at hp
        rcases hp with ⟨hk, -⟩ | ⟨hk, -⟩
        · exact absurd hk.symm (hd _ _)
        · have := hkl hk
          subst this
          exact ⟨List.mem_map_of_mem Item.id hi.1, by simpa using hi.2⟩
    · rintro ⟨hin, hnot⟩
      obtain ⟨item, hi, rfl⟩ := List.mem_map.1 hin
      refine ⟨some ⟨none, item.ver, item.val⟩, Or.inl ?_⟩
      rw [List.mem_flatMap]
      exact ⟨item, List.mem_filter.2 ⟨hi, by simpa using hnot⟩,
        (mem_persist_writes _ _ _ _ _).2 (Or.inl ⟨rfl, rfl⟩)⟩
  refine ⟨hw, hiff, ?_, ?_⟩
  · intro id hid value
    constructor
    · intro hc
      exact ((hiff id).1 ⟨value, Or.inl hc⟩).2 hid
    · intro hc
      exact ((hiff id).1 ⟨value, Or.inr hc⟩).2 hid
  · intro item hi hnot
    have h2 : (sync_only_local (sync_matched list remote w).1).threw = false := by
      cases h' : (sync_only_local (sync_matched list remote w).1).threw with
      | false => rfl
      | true =>
        unfold sync_run at h
        rw [foldl_persist_of_threw _ _ _ _ h', h'] at h
        cases h
    have h1 : (sync_matched list remote w).1.threw = false := by
      cases h' : (sync_matched list remote w).1.threw with
      | false => rfl
      | true =>
        unfold sync_only_local at h2
        rw [foldl_merge_none_of_threw _ _ h', h'] at h2
        cases h2
    have e1 : (sync_matched list remote w).2 =
        remote.filter (fun item => decide (item.id ∉ list)) := by
      have := (foldl_filter_step_ok remote (sync_init list w, []) h1).2.1
      unfold sync_matched
      rw [this, ← hu]
      rfl
    have hmem : item ∈ (sync_matched list remote w).2 := by
      rw [e1]
      exact List.mem_filter.2 ⟨hi, by simpa using hnot⟩
    have hn2 : ((sync_matched list remote w).2.map Item.id).Nodup := by
      rw [e1]
      exact hn.sublist ((List.filter_sublist _).map Item.id)
    have hs := foldl_persist_store_mem key_remote key_local (sync_matched list remote w).2
      (sync_only_local (sync_matched list remote w).1) h2 hn2 hkr hkl hd item hmem
    rw [sync_apply_store, sync_apply_list key_remote key_local now list remote w h]
    refine ⟨hs.1, hs.2, ?_⟩
    unfold spec_new_list new_ids
    rw [mem_sort, hu]
    exact List.mem_append_right _ (List.mem_append_right _
      (List.mem_map_of_mem Item.id (List.mem_filter.2 ⟨hi, by simpa using hnot⟩)))

theorem key_remote_ex_injective : Function.Injective key_remote_ex := fun a b h => by
  simpa [key_remote_ex] using h

theorem key_local_ex_injective : Function.Injective key_local_ex := fun a b h => by
  simpa [key_local_ex] using h

theorem key_ex_disjoint (a b : ItemId) : key_remote_ex a ≠ key_local_ex b := by
  simp [key_remote_ex, key_local_ex]

/-- The run of C4 on the list `[R9, L1]` against `[R9, R5]`: the records of
`R5` are written, and `R5` is in the new list. -/
theorem sync_persists_only_remote_witness :
    (sync_run key_remote_ex key_local_ex [R9, L1]
        [⟨R9, 2, Val.str "y"⟩, ⟨R5, 1, Val.str "x"⟩]
        (world_ex [R9, L1] (fun _ => none) item_map_ex)).threw = false ∧
      ([⟨R9, 2, Val.str "y"⟩, ⟨R5, 1, Val.str "x"⟩].map Item.id).Nodup ∧
      (sync_apply key_remote_ex key_local_ex 5 [R9, L1]
        [⟨R9, 2, Val.str "y"⟩, ⟨R5, 1, Val.str "x"⟩]
        (world_ex [R9, L1] (fun _ => none) item_map_ex)).store (key_remote_ex R5) =
          some ⟨none, 1, Val.str "x"⟩ ∧
      (sync_apply key_remote_ex key_local_ex 5 [R9, L1]
        [⟨R9, 2, Val.str "y"⟩, ⟨R5, 1, Val.str "x"⟩]
        (world_ex [R9, L1] (fun _ => none) item_map_ex)).store (key_local_ex R5) =
          some ⟨some 1, 1, Val.null⟩ ∧
      R5 ∈ (sync_apply key_remote_ex key_local_ex 5 [R9, L1]
        [⟨R9, 2, Val.str "y"⟩, ⟨R5, 1, Val.str "x"⟩]
        (world_ex [R9, L1] (fun _ => none) item_map_ex)).list :=
  ⟨by decide, by decide,
   (sync_persists_only_remote key_remote_ex key_local_ex 5 [R9, L1]
      [⟨R9, 2, Val.str "y"⟩, ⟨R5, 1, Val.str "x"⟩]
      (world_ex [R9, L1] (fun _ => none) item_map_ex) (by decide) (by decide)
      key_remote_ex_injective key_local_ex_injective key_ex_disjoint).2.2.2
      ⟨R5, 1, Val.str "x"⟩ (by decide) (by decide)⟩

/-- C4 fails as stated: with the WorkingList `[R7]`, whose LocalRecord holds a
pending edit, and an authoritative array that carries `R7` twice, the first
record is merged and the second is treated as new: the engine writes under
the keys of `R7`, an id of the WorkingList, and overwrites its LocalRecord. -/
theorem sync_persists_only_remote_counterexample :
    R7 ∈ [R7] ∧
      (sync_run key_remote_ex key_local_ex [R7]
        [⟨R7, 1, Val.str "x"⟩, ⟨R7, 2, Val.str "y"⟩]
        (world_ex [R7]
          (fun k => if k = key_local_ex R7 then some ⟨some 1, 3, Val.str "mine"⟩ else none)
          item_map_ex)).threw = false ∧
      (key_local_ex R7, some ⟨some 2, 2, Val.null⟩) ∈
        writes (sync_run key_remote_ex key_local_ex [R7]
          [⟨R7, 1, Val.str "x"⟩, ⟨R7, 2, Val.str "y"⟩]
          (world_ex [R7]
            (fun k => if k = key_local_ex R7 then some ⟨some 1, 3, Val.str "mine"⟩ else none)
            item_map_ex)).log ∧
      (sync_apply key_remote_ex key_local_ex 5 [R7]
        [⟨R7, 1, Val.str "x"⟩, ⟨R7, 2, Val.str "y"⟩]
        (world_ex [R7]
          (fun k => if k = key_local_ex R7 then some ⟨some 1, 3, Val.str "mine"⟩ else none)
          item_map_ex)).store (key_local_ex R7) = some ⟨some 2, 2, Val.null⟩ := by
  decide

/-! ## The early returns of `sync()` and the transport classification -/

/-- Whatever the outcome, the end of `fetch_sync` touches neither the list, the
store, the controllers nor the scheduler, and the events it adds are no merge,
no store write, no `setList` and no `onSync(true)`. -/
theorem fetch_sync_response_frame (out : Outcome) (now : Nat) (w : World) :
    (fetch_sync_response out now w).2.list = w.list ∧
      (fetch_sync_response out now w).2.store = w.store ∧
      (fetch_sync_response out now w).2.item_map = w.item_map ∧
      (fetch_sync_response out now w).2.enabled = w.enabled ∧
      (fetch_sync_response out now w).2.time = w.time ∧
      ∃ events, (fetch_sync_response out now w).2.log = w.log ++ events ∧
        merge_calls events = [] ∧ writes events = [] ∧ setList_calls events = [] ∧
        Event.onSync true ∉ events := by
  unfold fetch_sync_response
  cases out with
  | rejected =>
    refine ⟨rfl, rfl, rfl, rfl, rfl, [Event.onSync false], rfl, rfl, rfl, rfl, by simp⟩
  | response status body =>
    by_cases h200 : status = 200
    · simp only [h200, ne_eq, not_true_eq_false, if_false]
      cases body with
      | invalid =>
        refine ⟨rfl, rfl, rfl, rfl, rfl, [Event.setError none, Event.onSync false], ?_, rfl,
          rfl, rfl, by simp⟩
        simp [onSync, setError]
      | json value =>
        refine ⟨rfl, rfl, rfl, rfl, rfl, [Event.setError none], rfl, rfl, rfl, rfl, by simp⟩
    · simp only [ne_eq, h200, not_false_eq_true, if_true]
      by_cases h404 : status = 404
      · simp only [h404, if_true]
        refine ⟨rfl, rfl, rfl, rfl, rfl, [Event.setTokenNull], rfl, rfl, rfl, rfl, by simp⟩
      · simp only [h404, if_false]
        by_cases h429 : status = 429
        · simp only [h429, if_true]
          refine ⟨rfl, rfl, rfl, rfl, rfl,
            [Event.setError (some "list.error.limit.sync.message")], rfl, rfl, rfl, rfl, by simp⟩
        · simp only [h429, if_false]
          refine ⟨rfl, rfl, rfl, rfl, rfl, [Event.onSync false], rfl, rfl, rfl, rfl, by simp⟩

/-- C5: `sync()` applies reconciliation only when `fetch_sync` returned a
response and the scheduler is enabled when the response arrives. If
`fetch_sync` returns `null`, or `sync_state.enabled` is false at that moment,
the events that `sync()` adds after its `await` are no controller merge, no
store write, no `setList` and no `onSync(true)`, and the WorkingList, the store
and the controllers are unchanged; otherwise `sync()` runs the reconciliation
on the returned array. -/
theorem sync_discards_without_response_or_when_disabled (key_remote key_local : ItemId → Key)
    (c : Closure) (out : Outcome) (now : Nat) (w : World) :
    ((fetch_sync_response out now w).1 = none ∨ w.enabled = false →
        sync_resume key_remote key_local c out now w = (fetch_sync_response out now w).2 ∧
        (sync_resume key_remote key_local c out now w).list = w.list ∧
        (sync_resume key_remote key_local c out now w).store = w.store ∧
        (sync_resume key_remote key_local c out now w).item_map = w.item_map ∧
        ∃ events, (sync_resume key_remote key_local c out now w).log = w.log ++ events ∧
          merge_calls events = [] ∧ writes events = [] ∧ setList_calls events = [] ∧
          Event.onSync true ∉ events) ∧
      (∀ remote, (fetch_sync_response out now w).1 = some remote → w.enabled = true →
        sync_resume key_remote key_local c out now w =
          sync_apply key_remote key_local now c.list remote (fetch_sync_response out now w).2) := by
  obtain ⟨f1, f2, f3, f4, -, f5⟩ := fetch_sync_response_frame out now w
  constructor
  · intro h
    have e : sync_resume key_remote key_local c out now w = (fetch_sync_response out now w).2 := by
      unfold sync_resume
      rcases h with h | h
      · rw [h]
      · cases hr : (fetch_sync_response out now w).1 with
        | none => rfl
        | some remote => simp [f4, h]
    rw [e]
    exact ⟨rfl, f1, f2, f3, f5⟩
  · intro remote hr he
    unfold sync_resume
    rw [hr]
    simp [f4, he]

/-- The run of C5 on a disabled scheduler: a good response is discarded. -/
theorem sync_discards_without_response_or_when_disabled_witness :
    (sync_resume key_remote_ex key_local_ex ⟨some "t", [L1]⟩
        (Outcome.response 200 (Body.json (some [⟨R5, 1, Val.str "x"⟩]))) 5
        (disable (world_ex [L1] (fun _ => none) item_map_ex))).list = [L1] ∧
      (sync_resume key_remote_ex key_local_ex ⟨some "t", [L1]⟩
        (Outcome.response 200 (Body.json (some [⟨R5, 1, Val.str "x"⟩]))) 5
        (world_ex [L1] (fun _ => none) item_map_ex)).list = [R5, R7] :=
  ⟨((sync_discards_without_response_or_when_disabled key_remote_ex key_local_ex
      ⟨some "t", [L1]⟩ (Outcome.response 200 (Body.json (some [⟨R5, 1, Val.str "x"⟩]))) 5
      (disable (world_ex [L1] (fun _ => none) item_map_ex))).1 (Or.inr rfl)).2.1,
   (congrArg World.list
      ((sync_discards_without_response_or_when_disabled key_remote_ex key_local_ex
        ⟨some "t", [L1]⟩ (Outcome.response 200 (Body.json (some [⟨R5, 1, Val.str "x"⟩]))) 5
        (world_ex [L1] (fun _ => none) item_map_ex)).2 [⟨R5, 1, Val.str "x"⟩] rfl rfl)).trans
      (by decide)⟩

/-- C6: the classification made by `fetch_sync`, for every payload batch.
Status 200 with a parsed body clears the error notice and returns the body;
status 404 calls `setToken(null)` once and returns `null`; status 429 sets the
rate-limit notice and returns `null`; any other status, a rejected `fetch` and
a body that does not parse report `onSync(false)` once, set no error notice
and return `null`. In every case the WorkingList, the store and the controllers
are unchanged. -/
theorem fetch_sync_classifies (c : Closure) (caller : Caller) (body : List Item) (now : Nat)
    (w : World) :
    (∀ value,
        (fetch_sync c caller body (Outcome.response 200 (Body.json value)) now w).1 = value ∧
        (fetch_sync c caller body (Outcome.response 200 (Body.json value)) now w).2.error = none ∧
        (fetch_sync c caller body (Outcome.response 200 (Body.json value)) now w).2.log =
          w.log ++ [Event.fetch body, Event.setError none]) ∧
      (∀ b,
        (fetch_sync c caller body (Outcome.response 404 b) now w).1 = none ∧
        (fetch_sync c caller body (Outcome.response 404 b) now w).2.error = w.error ∧
        (fetch_sync c caller body (Outcome.response 404 b) now w).2.log =
          w.log ++ [Event.fetch body, Event.setTokenNull]) ∧
      (∀ b,
        (fetch_sync c caller body (Outcome.response 429 b) now w).1 = none ∧
        (fetch_sync c caller body (Outcome.response 429 b) now w).2.error =
          some "list.error.limit.sync.message" ∧
        (fetch_sync c caller body (Outcome.response 429 b) now w).2.log =
          w.log ++ [Event.fetch body, Event.setError (some "list.error.limit.sync.message")]) ∧
      (∀ status b, status ≠ 200 → status ≠ 404 → status ≠ 429 →
        (fetch_sync c caller body (Outcome.response status b) now w).1 = none ∧
        (fetch_sync c caller body (Outcome.response status b) now w).2.error = w.error ∧
        (fetch_sync c caller body (Outcome.response status b) now w).2.log =
          w.log ++ [Event.fetch body, Event.onSync false]) ∧
      ((fetch_sync c caller body Outcome.rejected now w).1 = none ∧
        (fetch_sync c caller body Outcome.rejected now w).2.error = w.error ∧
        (fetch_sync c caller body Outcome.rejected now w).2.log =
          w.log ++ [Event.fetch body, Event.onSync false]) ∧
      ((fetch_sync c caller body (Outcome.response 200 Body.invalid) now w).1 = none ∧
        (fetch_sync c caller body (Outcome.response 200 Body.invalid) now w).2.error = none ∧
        (fetch_sync c caller body (Outcome.response 200 Body.invalid) now w).2.log =
          w.log ++ [Event.fetch body, Event.setError none, Event.onSync false]) ∧
      (∀ out,
        (fetch_sync c caller body out now w).2.list = w.list ∧
        (fetch_sync c caller body out now w).2.store = w.store ∧
        (fetch_sync c caller body out now w).2.item_map = w.item_map) := by
  refine ⟨?_, ?_, ?_, ?_, ?_, ?_, ?_⟩
  · intro value
    simp [fetch_sync, fetch_sync_response, fetch_sync_request, setError]
  · intro b
    simp [fetch_sync, fetch_sync_response, fetch_sync_request, setTokenNull]
  · intro b
    simp [fetch_sync, fetch_sync_response, fetch_sync_request, setError]
  · intro status b h1 h2 h3
    simp [fetch_sync, fetch_sync_response, fetch_sync_request, onSync, h1, h2, h3]
  · simp [fetch_sync, fetch_sync_response, fetch_sync_request, onSync]
  · simp [fetch_sync, fetch_sync_response, fetch_sync_request, onSync, setError]
  · intro out
    obtain ⟨f1, f2, f3, -, -, -⟩ :=
      fetch_sync_response_frame out now (fetch_sync_request c caller body w)
    exact ⟨f1, f2, f3⟩

/-- The run of C6 for a response with status 500 to a batch of one payload. -/
theorem fetch_sync_classifies_witness :
    (500 ≠ 200 ∧ 500 ≠ 404 ∧ 500 ≠ 429) ∧
      (fetch_sync ⟨some "t", [L1]⟩ Caller.loop [⟨L1, 1, Val.str "x"⟩]
        (Outcome.response 500 Body.invalid) 5
        (world_ex [L1] (fun _ => none) item_map_ex)).2.log =
        [Event.fetch [⟨L1, 1, Val.str "x"⟩], Event.onSync false] :=
  ⟨by decide,
   ((fetch_sync_classifies ⟨some "t", [L1]⟩ Caller.loop [⟨L1, 1, Val.str "x"⟩] 5
      (world_ex [L1] (fun _ => none) item_map_ex)).2.2.2.1 500 Body.invalid
      (by decide) (by decide) (by decide)).2.2⟩

/-! ## Runs of `sync()` that complete -/

/-- A merge by a registered controller that speaks for itself completes and
leaves the other controllers registered. -/
theorem merge_completes (s : Sync) (id : ItemId) (remote : Option Item) (c : Controller)
    (h : s.threw = false) (hc : s.item_map id = some c) (hs : speaks_for_itself id c) :
    (s.merge id remote).threw = false ∧
      ∀ x, x ≠ id → (s.merge id remote).item_map x = s.item_map x := by
  rw [merge_of_some s id remote c h hc]
  obtain ⟨-, -, -, h4, -, -, h7⟩ := foldl_callback (c.merge remote s.store).1
    { s with store := (c.merge remote s.store).2, log := s.log ++ [Event.merge id remote] }
  refine ⟨by rw [h4]; exact h, ?_⟩
  intro x hx
  rw [h7, if_neg]
  exact fun hm => hx (hs remote s.store x hm)

theorem foldl_filter_step_completes (m0 : ItemId → Option Controller) (list : List ItemId)
    (hc : ∀ id ∈ list, ∃ c, m0 id = some c ∧ speaks_for_itself id c)
    (remote : List Item) (acc : Sync × List Item) (h : acc.1.threw = false)
    (hn : acc.1.current_item_set.Nodup)
    (hi : ∀ x ∈ acc.1.current_item_set, x ∈ list ∧ acc.1.item_map x = m0 x) :
    (remote.foldl filter_step acc).1.threw = false ∧
      (remote.foldl filter_step acc).1.current_item_set.Nodup ∧
      ∀ x ∈ (remote.foldl filter_step acc).1.current_item_set,
        x ∈ list ∧ (remote.foldl filter_step acc).1.item_map x = m0 x := by
  induction remote generalizing acc with
  | nil => exact ⟨h, hn, hi⟩
  | cons item rest ih =>
    rw [List.foldl_cons]
    by_cases hm : item.id ∈ acc.1.current_item_set
    · have e : filter_step acc item =
          (Sync.merge { acc.1 with
              current_item_set := set_delete_id acc.1.current_item_set item.id }
            item.id (some item), acc.2) := by
        simp [filter_step, h, hm]
      obtain ⟨hl, hmap⟩ := hi _ hm
      obtain ⟨c, hc1, hc2⟩ := hc _ hl
      obtain ⟨m1, m2⟩ := merge_completes
        { acc.1 with current_item_set := set_delete_id acc.1.current_item_set item.id }
        item.id (some item) c h (hmap.trans hc1) hc2
      apply ih
      · rw [e]; exact m1
      · rw [e]
        simp only [merge_current_item_set]
        exact nodup_set_delete_id _ _ hn
      · rw [e]
        simp only [merge_current_item_set]
        intro x hx
        rw [mem_set_delete_id] at hx
        refine ⟨(hi x hx.1).1, ?_⟩
        rw [m2 x hx.2]
        exact (hi x hx.1).2
    · have e : filter_step acc item = (acc.1, acc.2 ++ [item]) := by
        simp [filter_step, h, hm]
      apply ih
      · rw [e]; exact h
      · rw [e]; exact hn
      · rw [e]; exact hi

theorem foldl_merge_none_completes (m0 : ItemId → Option Controller) (list : List ItemId)
    (hc : ∀ id ∈ list, ∃ c, m0 id = some c ∧ speaks_for_itself id c)
    (ids : List ItemId) (s : Sync) (h : s.threw = false) (hn : ids.Nodup)
    (hi : ∀ x ∈ ids, x ∈ list ∧ s.item_map x = m0 x) :
    (ids.foldl (fun s id => Sync.merge s id none) s).threw = false := by
  induction ids generalizing s with
  | nil => exact h
  | cons id rest ih =>
    rw [List.nodup_cons] at hn
    rw [List.foldl_cons]
    obtain ⟨hl, hmap⟩ := hi id (List.mem_cons_self _ _)
    obtain ⟨c, hc1, hc2⟩ := hc _ hl
    obtain ⟨m1, m2⟩ := merge_completes s id none c h (hmap.trans hc1) hc2
    apply ih _ m1 hn.2
    intro x hx
    have hne : x ≠ id := fun e => hn.1 (e ▸ hx)
    refine ⟨(hi x (List.mem_cons_of_mem _ hx)).1, ?_⟩
    rw [m2 x hne]
    exact (hi x (List.mem_cons_of_mem _ hx)).2

/-- No `TypeError` stops `sync()` when every id of the list has a registered
controller and every such controller speaks for itself. -/
theorem sync_run_completes (key_remote key_local : ItemId → Key) (list : List ItemId)
    (remote : List Item) (w : World)
    (hc : ∀ id ∈ list, ∃ c, w.item_map id = some c ∧ speaks_for_itself id c) :
    (sync_run key_remote key_local list remote w).threw = false := by
  obtain ⟨a1, a2, a3⟩ := foldl_filter_step_completes w.item_map list hc remote
    (sync_init list w, []) rfl (nodup_foldl_set_add list [] List.nodup_nil)
    (fun x hx => ⟨by simpa [sync_init, mem_foldl_set_add] using hx, rfl⟩)
  have b : (sync_only_local (sync_matched list remote w).1).threw = false :=
    foldl_merge_none_completes w.item_map list hc _ _ a1 a2 a3
  unfold sync_run
  exact (foldl_persist key_remote key_local _ _ b).2.2.2.2

/-! ## The logout collapse, one id at a time -/

section Collapse

variable {G : Type} (key_remote key_local : ItemId → Key)
  (generate_local_id : Nat → G → ItemId × G)

theorem collapse_of_no_local (s : Logout G) (id : ItemId) (h : s.store (key_local id) = none) :
    collapse key_remote key_local generate_local_id s id = (s, none) := by
  simp [collapse, h]

theorem collapse_of_keep (s : Logout G) (id : ItemId) (loc : Record)
    (h : s.store (key_local id) = some loc)
    (hp : (decide (loc.ver > 0) && loc.val.truthy) = true)
    (hr : s.store (key_remote id) = none) :
    collapse key_remote key_local generate_local_id s id = (s, some id) := by
  simp only [collapse, h, hp, hr, if_true]

theorem collapse_of_mint (s : Logout G) (id : ItemId) (loc rem : Record)
    (h : s.store (key_local id) = some loc)
    (hp : (decide (loc.ver > 0) && loc.val.truthy) = true)
    (hr : s.store (key_remote id) = some rem) :
    collapse key_remote key_local generate_local_id s id =
      (((({ s with gen := (generate_local_id loc.ver s.gen).2,
                   minted := s.minted ++ [(generate_local_id loc.ver s.gen).1] } : Logout G).write
            (key_local (generate_local_id loc.ver s.gen).1) (some ⟨some 0, loc.ver, loc.val⟩)).write
          (key_remote id) none).write (key_local id) none,
        some (generate_local_id loc.ver s.gen).1) := by
  simp only [collapse, h, hp, hr, if_true]

theorem collapse_of_drop (s : Logout G) (id : ItemId) (loc : Record)
    (h : s.store (key_local id) = some loc)
    (hp : (decide (loc.ver > 0) && loc.val.truthy) = false) :
    collapse key_remote key_local generate_local_id s id =
      ((s.write (key_remote id) none).write (key_local id) none, none) := by
  simp [collapse, h, hp]

/-- What one call of the `list.map` callback can do: nothing and return
`undefined`; nothing and return the id; mint a new id, write its record and
delete the two records of the old id; or delete the two records and return
`null`. -/
theorem collapse_cases (s : Logout G) (id : ItemId) :
    (s.store (key_local id) = none ∧
        collapse key_remote key_local generate_local_id s id = (s, none)) ∨
      (∃ loc, s.store (key_local id) = some loc ∧
        (decide (loc.ver > 0) && loc.val.truthy) = true ∧ s.store (key_remote id) = none ∧
        collapse key_remote key_local generate_local_id s id = (s, some id)) ∨
      (∃ loc rem, s.store (key_local id) = some loc ∧
        (decide (loc.ver > 0) && loc.val.truthy) = true ∧ s.store (key_remote id) = some rem ∧
        (collapse key_remote key_local generate_local_id s id).2 =
          some (generate_local_id loc.ver s.gen).1 ∧
        (collapse key_remote key_local generate_local_id s id).1.minted =
          s.minted ++ [(generate_local_id loc.ver s.gen).1] ∧
        (collapse key_remote key_local generate_local_id s id).1.store =
          ((s.store.set (key_local (generate_local_id loc.ver s.gen).1)
              (some ⟨some 0, loc.ver, loc.val⟩)).set (key_remote id) none).set
            (key_local id) none) ∨
      (∃ loc, s.store (key_local id) = some loc ∧
        (decide (loc.ver > 0) && loc.val.truthy) = false ∧
        (collapse key_remote key_local generate_local_id s id).2 = none ∧
        (collapse key_remote key_local generate_local_id s id).1.minted = s.minted ∧
        (collapse key_remote key_local generate_local_id s id).1.store =
          (s.store.set (key_remote id) none).set (key_local id) none) := by
  cases h : s.store (key_local id) with
  | none => exact Or.inl ⟨rfl, collapse_of_no_local key_remote key_local generate_local_id s id h⟩
  | some loc =>
    right
    cases hp : (decide (loc.ver > 0) && loc.val.truthy) with
    | false =>
      right; right
      refine ⟨loc, rfl, hp, ?_⟩
      rw [collapse_of_drop key_remote key_local generate_local_id s id loc h hp]
      exact ⟨rfl, rfl, rfl⟩
    | true =>
      cases hr : s.store (key_remote id) with
      | none =>
        left
        exact ⟨loc, rfl, hp, rfl,
          collapse_of_keep key_remote key_local generate_local_id s id loc h hp hr⟩
      | some rem =>
        right; left
        refine ⟨loc, rem, rfl, hp, rfl, ?_⟩
        rw [collapse_of_mint key_remote key_local generate_local_id s id loc rem h hp hr]
        exact ⟨rfl, rfl, rfl⟩

theorem minted_sublist_collapse (s : Logout G) (id : ItemId) :
    s.minted.Sublist (collapse key_remote key_local generate_local_id s id).1.minted := by
  rcases collapse_cases key_remote key_local generate_local_id s id with
    ⟨-, e⟩ | ⟨loc, -, -, -, e⟩ | ⟨loc, rem, -, -, -, -, e, -⟩ | ⟨loc, -, -, -, e, -⟩
  · rw [e]
  · rw [e]
  · rw [e]; exact List.sublist_append_left _ _
  · rw [e]

theorem minted_sublist_collapse_all (s : Logout G) (ids : List ItemId) :
    s.minted.Sublist (collapse_all key_remote key_local generate_local_id s ids).1.minted := by
  induction ids generalizing s with
  | nil => exact List.Sublist.refl _
  | cons id rest ih =>
    exact (minted_sublist_collapse key_remote key_local generate_local_id s id).trans (ih _)

end Collapse

theorem store_set_eq (s : Store) (k : Key) (v : Option Record) : (s.set k v) k = v := by
  simp [Store.set]

theorem store_set_ne (s : Store) (k k' : Key) (v : Option Record) (h : k' ≠ k) :
    (s.set k v) k' = s k' := by
  simp [Store.set, h]

section CollapseAll

variable {G : Type} (key_remote key_local : ItemId → Key)
  (generate_local_id : Nat → G → ItemId × G)

theorem collapse_all_cons_fst (s : Logout G) (id : ItemId) (ids : List ItemId) :
    (collapse_all key_remote key_local generate_local_id s (id :: ids)).1 =
      (collapse_all key_remote key_local generate_local_id
        (collapse key_remote key_local generate_local_id s id).1 ids).1 := rfl

theorem collapse_all_cons_snd (s : Logout G) (id : ItemId) (ids : List ItemId) :
    (collapse_all key_remote key_local generate_local_id s (id :: ids)).2 =
      (collapse key_remote key_local generate_local_id s id).2 ::
        (collapse_all key_remote key_local generate_local_id
          (collapse key_remote key_local generate_local_id s id).1 ids).2 := rfl

/-- One call of the callback on an id other than `x`, minting no id equal to
`x`, leaves the two records of `x` alone and does not return `x`. -/
theorem collapse_frame (hkr : Function.Injective key_remote)
    (hkl : Function.Injective key_local) (hd : ∀ a b, key_remote a ≠ key_local b)
    (s : Logout G) (y x : ItemId) (hyx : y ≠ x)
    (hm : ∀ m ∈ (collapse key_remote key_local generate_local_id s y).1.minted, m ≠ x) :
    (collapse key_remote key_local generate_local_id s y).1.store (key_local x) =
        s.store (key_local x) ∧
      (collapse key_remote key_local generate_local_id s y).1.store (key_remote x) =
        s.store (key_remote x) ∧
      (collapse key_remote key_local generate_local_id s y).2 ≠ some x := by
  have k1 : key_local x ≠ key_local y := fun e => hyx (hkl e).symm
  have k2 : key_local x ≠ key_remote y := fun e => hd _ _ e.symm
  have k3 : key_remote x ≠ key_local y := hd _ _
  have k4 : key_remote x ≠ key_remote y := fun e => hyx (hkr e).symm
  rcases collapse_cases key_remote key_local generate_local_id s y with
    ⟨-, e⟩ | ⟨loc, -, -, -, e⟩ | ⟨loc, rem, -, -, -, e2, e3, e4⟩ | ⟨loc, -, -, e2, -, e4⟩
  · rw [e]; exact ⟨rfl, rfl, by simp⟩
  · rw [e]; exact ⟨rfl, rfl, by simpa using hyx⟩
  · have hmx : (generate_local_id loc.ver s.gen).1 ≠ x :=
      hm _ (by rw [e3]; simp)
    have k5 : key_local x ≠ key_local (generate_local_id loc.ver s.gen).1 :=
      fun e => hmx (hkl e).symm
    have k6 : key_remote x ≠ key_local (generate_local_id loc.ver s.gen).1 := hd _ _
    rw [e2, e4]
    refine ⟨?_, ?_, by simpa using hmx⟩
    · rw [store_set_ne _ _ _ _ k1, store_set_ne _ _ _ _ k2, store_set_ne _ _ _ _ k5]
    · rw [store_set_ne _ _ _ _ k3, store_set_ne _ _ _ _ k4, store_set_ne _ _ _ _ k6]
  · rw [e2, e4]
    refine ⟨?_, ?_, by simp⟩
    · rw [store_set_ne _ _ _ _ k1, store_set_ne _ _ _ _ k2]
    · rw [store_set_ne _ _ _ _ k3, store_set_ne _ _ _ _ k4]

/-- An id without LocalRecord is never returned by the callback, keeps having
no LocalRecord, and its RemoteSnapshot is left as it is. -/
theorem collapse_all_no_local (hkr : Function.Injective key_remote)
    (hkl : Function.Injective key_local) (hd : ∀ a b, key_remote a ≠ key_local b)
    (minted : List ItemId) (x : ItemId) (hx : x ∉ minted)
    (ids : List ItemId) (s : Logout G)
    (hsub : (collapse_all key_remote key_local generate_local_id s ids).1.minted.Sublist minted)
    (h1 : s.store (key_local x) = none) :
    (collapse_all key_remote key_local generate_local_id s ids).1.store (key_local x) = none ∧
      (collapse_all key_remote key_local generate_local_id s ids).1.store (key_remote x) =
        s.store (key_remote x) ∧
      some x ∉ (collapse_all key_remote key_local generate_local_id s ids).2 := by
  induction ids generalizing s with
  | nil => exact ⟨h1, rfl, by simp [collapse_all]⟩
  | cons y rest ih =>
    rw [collapse_all_cons_fst] at hsub ⊢
    rw [collapse_all_cons_snd]
    have hstep : (collapse key_remote key_local generate_local_id s y).1.store (key_local x) =
          s.store (key_local x) ∧
        (collapse key_remote key_local generate_local_id s y).1.store (key_remote x) =
          s.store (key_remote x) ∧
        (collapse key_remote key_local generate_local_id s y).2 ≠ some x := by
      by_cases hyx : y = x
      · subst hyx
        rw [collapse_of_no_local key_remote key_local generate_local_id s y h1]
        exact ⟨rfl, rfl, by simp⟩
      · apply collapse_frame key_remote key_local generate_local_id hkr hkl hd s y x hyx
        intro m hm e
        subst e
        exact hx (hsub.subset
          ((minted_sublist_collapse_all key_remote key_local generate_local_id _ rest).subset hm))
    obtain ⟨i1, i2, i3⟩ := ih _ hsub (hstep.1.trans h1)
    refine ⟨i1, i2.trans hstep.2.1, ?_⟩
    rw [List.mem_cons]
    rintro (h | h)
    · exact hstep.2.2 h.symm
    · exact i3 h

/-- The record written under a minted id stays as written while the remaining
ids are collapsed, when minted ids are distinct and not in the list. -/
theorem collapse_all_minted_stays (hkl : Function.Injective key_local)
    (hd : ∀ a b, key_remote a ≠ key_local b)
    (minted : List ItemId) (hn : minted.Nodup) (list : List ItemId)
    (hfresh : ∀ m ∈ minted, m ∉ list)
    (ids : List ItemId) (hids : ∀ y ∈ ids, y ∈ list) (s : Logout G) (m0 : ItemId)
    (hm0 : m0 ∈ s.minted)
    (hsub : (collapse_all key_remote key_local generate_local_id s ids).1.minted.Sublist minted) :
    (collapse_all key_remote key_local generate_local_id s ids).1.store (key_local m0) =
      s.store (key_local m0) := by
  induction ids generalizing s with
  | nil => rfl
  | cons y rest ih =>
    rw [collapse_all_cons_fst] at hsub ⊢
    have hs1 := minted_sublist_collapse_all key_remote key_local generate_local_id
      (collapse key_remote key_local generate_local_id s y).1 rest
    have hm0' : m0 ∈ (collapse key_remote key_local generate_local_id s y).1.minted :=
      (minted_sublist_collapse key_remote key_local generate_local_id s y).subset hm0
    have hm0F : m0 ∈ minted := hsub.subset (hs1.subset hm0')
    have hy : y ∈ list := hids y (List.mem_cons_self _ _)
    have hne : m0 ≠ y := fun e => hfresh m0 hm0F (e ▸ hy)
    have k1 : key_local m0 ≠ key_local y := fun e => hne (hkl e)
    have k2 : key_local m0 ≠ key_remote y := fun e => hd _ _ e.symm
    rw [ih (fun z hz => hids z (List.mem_cons_of_mem _ hz)) _ hm0' hsub]
    rcases collapse_cases key_remote key_local generate_local_id s y with
      ⟨-, e⟩ | ⟨loc, -, -, -, e⟩ | ⟨loc, rem, -, -, -, -, e3, e4⟩ | ⟨loc, -, -, -, -, e4⟩
    · rw [e]
    · rw [e]
    · have hnd : (s.minted ++ [(generate_local_id loc.ver s.gen).1]).Nodup := by
        rw [← e3]
        exact (hs1.trans hsub).nodup hn
      have hne2 : m0 ≠ (generate_local_id loc.ver s.gen).1 := by
        intro e
        rw [List.nodup_append] at hnd
        exact hnd.2.2 hm0 (by simp [← e])
      have k3 : key_local m0 ≠ key_local (generate_local_id loc.ver s.gen).1 :=
        fun e => hne2 (hkl e)
      rw [e4, store_set_ne _ _ _ _ k1, store_set_ne _ _ _ _ k2, store_set_ne _ _ _ _ k3]
    · rw [e4, store_set_ne _ _ _ _ k1, store_set_ne _ _ _ _ k2]

end CollapseAll

section CollapseVisit

variable {G : Type} (key_remote key_local : ItemId → Key)
  (generate_local_id : Nat → G → ItemId × G)

/-- An id with a pending LocalRecord and no RemoteSnapshot keeps its records
and is returned by the callback whenever it is visited. -/
theorem collapse_all_keep (hkl : Function.Injective key_local)
    (hd : ∀ a b, key_remote a ≠ key_local b)
    (minted : List ItemId) (x : ItemId) (hx : x ∉ minted) (loc : Record)
    (hp : (decide (loc.ver > 0) && loc.val.truthy) = true)
    (ids : List ItemId) (s : Logout G)
    (hsub : (collapse_all key_remote key_local generate_local_id s ids).1.minted.Sublist minted)
    (h1 : s.store (key_local x) = some loc) (h2 : s.store (key_remote x) = none) :
    (collapse_all key_remote key_local generate_local_id s ids).1.store (key_local x) =
        some loc ∧
      (collapse_all key_remote key_local generate_local_id s ids).1.store (key_remote x) =
        none ∧
      (x ∈ ids → some x ∈ (collapse_all key_remote key_local generate_local_id s ids).2) := by
  induction ids generalizing s with
  | nil => exact ⟨h1, h2, fun h => by cases h⟩
  | cons y rest ih =>
    rw [collapse_all_cons_fst] at hsub ⊢
    rw [collapse_all_cons_snd]
    have hstep : (collapse key_remote key_local generate_local_id s y).1.store (key_local x) =
          some loc ∧
        (collapse key_remote key_local generate_local_id s y).1.store (key_remote x) = none ∧
        (y = x → (collapse key_remote key_local generate_local_id s y).2 = some x) := by
      rcases collapse_cases key_remote key_local generate_local_id s y with
        ⟨-, e⟩ | ⟨loc', -, -, -, e⟩ | ⟨loc', rem, e0, -, e1, -, e3, e4⟩ | ⟨loc', e0, e1, -, -, e4⟩
      · rw [e]
        refine ⟨h1, h2, fun hyx => ?_⟩
        subst hyx
        have := collapse_of_keep key_remote key_local generate_local_id s y loc h1 hp h2
        rw [e] at this
        exact absurd (congrArg Prod.snd this) (by simp)
      · rw [e]
        exact ⟨h1, h2, fun hyx => by rw [hyx]⟩
      · have hyx : y ≠ x := by
          intro e; subst e; rw [h2] at e1; cases e1
        have hmx : (generate_local_id loc'.ver s.gen).1 ≠ x := by
          intro e
          apply hx
          rw [← e]
          exact hsub.subset ((minted_sublist_collapse_all key_remote key_local
            generate_local_id _ rest).subset (by rw [e3]; simp))
        have k1 : key_local x ≠ key_local y := fun e => hyx (hkl e).symm
        have k2 : key_local x ≠ key_remote y := fun e => hd _ _ e.symm
        have k3 : key_remote x ≠ key_local y := hd _ _
        have k5 : key_local x ≠ key_local (generate_local_id loc'.ver s.gen).1 :=
          fun e => hmx (hkl e).symm
        have k6 : key_remote x ≠ key_local (generate_local_id loc'.ver s.gen).1 := hd _ _
        rw [e4]
        refine ⟨?_, ?_, fun e => absurd e hyx⟩
        · rw [store_set_ne _ _ _ _ k1, store_set_ne _ _ _ _ k2, store_set_ne _ _ _ _ k5, h1]
        · rw [store_set_ne _ _ _ _ k3]
          by_cases k4 : key_remote x = key_remote y
          · rw [k4, store_set_eq]
          · rw [store_set_ne _ _ _ _ k4, store_set_ne _ _ _ _ k6, h2]
      · have hyx : y ≠ x := by
          intro e; subst e; rw [h1] at e0; cases e0; rw [hp] at e1; cases e1
        have k1 : key_local x ≠ key_local y := fun e => hyx (hkl e).symm
        have k2 : key_local x ≠ key_remote y := fun e => hd _ _ e.symm
        have k3 : key_remote x ≠ key_local y := hd _ _
        rw [e4]
        refine ⟨?_, ?_, fun e => absurd e hyx⟩
        · rw [store_set_ne _ _ _ _ k1, store_set_ne _ _ _ _ k2, h1]
        · rw [store_set_ne _ _ _ _ k3]
          by_cases k4 : key_remote x = key_remote y
          · rw [k4, store_set_eq]
          · rw [store_set_ne _ _ _ _ k4, h2]
    obtain ⟨i1, i2, i3⟩ := ih _ hsub hstep.1 hstep.2.1
    refine ⟨i1, i2, fun hmem => ?_⟩
    rcases List.mem_cons.1 hmem with h | h
    · rw [hstep.2.2 h.symm]
      exact List.mem_cons_self _ _
    · exact List.mem_cons_of_mem _ (i3 h)

/-- An id whose LocalRecord has nothing pending is dropped at its first visit:
its two records are deleted and the callback never returns it. -/
theorem collapse_all_drop (hkr : Function.Injective key_remote)
    (hkl : Function.Injective key_local) (hd : ∀ a b, key_remote a ≠ key_local b)
    (minted : List ItemId) (x : ItemId) (hx : x ∉ minted) (loc : Record)
    (hp : (decide (loc.ver > 0) && loc.val.truthy) = false)
    (ids : List ItemId) (hmem : x ∈ ids) (s : Logout G)
    (hsub : (collapse_all key_remote key_local generate_local_id s ids).1.minted.Sublist minted)
    (h1 : s.store (key_local x) = some loc) :
    (collapse_all key_remote key_local generate_local_id s ids).1.store (key_local x) = none ∧
      (collapse_all key_remote key_local generate_local_id s ids).1.store (key_remote x) =
        none ∧
      some x ∉ (collapse_all key_remote key_local generate_local_id s ids).2 := by
  induction ids generalizing s with
  | nil => cases hmem
  | cons y rest ih =>
    rw [collapse_all_cons_fst] at hsub ⊢
    rw [collapse_all_cons_snd]
    by_cases hyx : y = x
    · subst hyx
      have e := collapse_of_drop key_remote key_local generate_local_id s y loc h1 hp
      have a1 : (collapse key_remote key_local generate_local_id s y).1.store (key_local y) =
          none := by
        rw [e]; simp [Logout.write, store_set_eq]
      have a2 : (collapse key_remote key_local generate_local_id s y).1.store (key_remote y) =
          none := by
        rw [e]
        simp only [Logout.write]
        rw [store_set_ne _ _ _ _ (hd _ _), store_set_eq]
      obtain ⟨i1, i2, i3⟩ := collapse_all_no_local key_remote key_local generate_local_id
        hkr hkl hd minted y hx rest _ hsub a1
      refine ⟨i1, i2.trans a2, ?_⟩
      rw [List.mem_cons]
      rintro (h | h)
      · rw [e] at h; cases h
      · exact i3 h
    · have hstep := collapse_frame key_remote key_local generate_local_id hkr hkl hd s y x hyx
        (fun m hm e => hx (e ▸ hsub.subset ((minted_sublist_collapse_all key_remote key_local
          generate_local_id _ rest).subset hm)))
      have hmem' : x ∈ rest := by
        rcases List.mem_cons.1 hmem with h | h
        · exact absurd h.symm hyx
        · exact h
      obtain ⟨i1, i2, i3⟩ := ih hmem' _ hsub (hstep.1.trans h1)
      refine ⟨i1, i2, ?_⟩
      rw [List.mem_cons]
      rintro (h | h)
      · exact hstep.2.2 h.symm
      · exact i3 h

/-- An id with a pending LocalRecord and a RemoteSnapshot is re-minted at its
first visit: the callback returns the new id, the LocalRecord
`{ ref: 0, ver, val }` is stored under it, the two records of the old id are
deleted, and the old id is never returned. -/
theorem collapse_all_mint (hkr : Function.Injective key_remote)
    (hkl : Function.Injective key_local) (hd : ∀ a b, key_remote a ≠ key_local b)
    (minted : List ItemId) (hn : minted.Nodup) (list : List ItemId)
    (hfresh : ∀ m ∈ minted, m ∉ list) (x : ItemId) (hx : x ∈ list) (loc rem : Record)
    (hp : (decide (loc.ver > 0) && loc.val.truthy) = true)
    (ids : List ItemId) (hids : ∀ y ∈ ids, y ∈ list) (hmem : x ∈ ids) (s : Logout G)
    (hsub : (collapse_all key_remote key_local generate_local_id s ids).1.minted.Sublist minted)
    (h1 : s.store (key_local x) = some loc) (h2 : s.store (key_remote x) = some rem) :
    ∃ g, (generate_local_id loc.ver g).1 ∈
          (collapse_all key_remote key_local generate_local_id s ids).1.minted ∧
      some (generate_local_id loc.ver g).1 ∈
          (collapse_all key_remote key_local generate_local_id s ids).2 ∧
      some x ∉ (collapse_all key_remote key_local generate_local_id s ids).2 ∧
      (collapse_all key_remote key_local generate_local_id s ids).1.store
          (key_local (generate_local_id loc.ver g).1) = some ⟨some 0, loc.ver, loc.val⟩ ∧
      (collapse_all key_remote key_local generate_local_id s ids).1.store (key_remote x) =
        none ∧
      (collapse_all key_remote key_local generate_local_id s ids).1.store (key_local x) =
        none := by
  have hxm : x ∉ minted := fun h => hfresh x h hx
  induction ids generalizing s with
  | nil => cases hmem
  | cons y rest ih =>
    rw [collapse_all_cons_fst] at hsub ⊢
    rw [collapse_all_cons_snd]
    have hs1 := minted_sublist_collapse_all key_remote key_local generate_local_id
      (collapse key_remote key_local generate_local_id s y).1 rest
    by_cases hyx : y = x
    · subst hyx
      have e := collapse_of_mint key_remote key_local generate_local_id s y loc rem h1 hp h2
      have hmin : (generate_local_id loc.ver s.gen).1 ∈
          (collapse key_remote key_local generate_local_id s y).1.minted := by
        rw [e]; simp [Logout.write]
      have hmy : (generate_local_id loc.ver s.gen).1 ≠ y := fun e' =>
        hxm (e' ▸ hsub.subset (hs1.subset hmin))
      have a1 : (collapse key_remote key_local generate_local_id s y).1.store (key_local y) =
          none := by
        rw [e]; simp [Logout.write, store_set_eq]
      have a2 : (collapse key_remote key_local generate_local_id s y).1.store (key_remote y) =
          none := by
        rw [e]
        simp only [Logout.write]
        rw [store_set_ne _ _ _ _ (hd _ _), store_set_eq]
      have a3 : (collapse key_remote key_local generate_local_id s y).1.store
          (key_local (generate_local_id loc.ver s.gen).1) =
          some ⟨some 0, loc.ver, loc.val⟩ := by
        rw [e]
        simp only [Logout.write]
        rw [store_set_ne _ _ _ _ (fun e' => hmy (hkl e')),
          store_set_ne _ _ _ _ (fun e' => hd _ _ e'.symm), store_set_eq]
      obtain ⟨i1, i2, i3⟩ := collapse_all_no_local key_remote key_local generate_local_id
        hkr hkl hd minted y hxm rest _ hsub a1
      have i4 := collapse_all_minted_stays key_remote key_local generate_local_id hkl hd
        minted hn list hfresh rest (fun z hz => hids z (List.mem_cons_of_mem _ hz)) _ _ hmin hsub
      refine ⟨s.gen, hs1.subset hmin, ?_, ?_, i4.trans a3, i2.trans a2, i1⟩
      · rw [e]; exact List.mem_cons_self _ _
      · rw [List.mem_cons]
        rintro (h | h)
        · rw [e] at h
          exact hmy (Option.some.inj h).symm
        · exact i3 h
    · have hstep := collapse_frame key_remote key_local generate_local_id hkr hkl hd s y x hyx
        (fun m hm e => hxm (e ▸ hsub.subset (hs1.subset hm)))
      have hmem' : x ∈ rest := by
        rcases List.mem_cons.1 hmem with h | h
        · exact absurd h.symm hyx
        · exact h
      obtain ⟨g, j1, j2, j3, j4, j5, j6⟩ :=
        ih (fun z hz => hids z (List.mem_cons_of_mem _ hz)) hmem' _ hsub
          (hstep.1.trans h1) (hstep.2.1.trans h2)
      refine ⟨g, j1, List.mem_cons_of_mem _ j2, ?_, j4, j5, j6⟩
      rw [List.mem_cons]
      rintro (h | h)
      · exact hstep.2.2 h.symm
      · exact j3 h

end CollapseVisit

theorem mem_filter_truthy (outs : List (Option ItemId)) (z : ItemId) :
    z ∈ filter_truthy outs ↔ some z ∈ outs ∧ z ≠ [] := by
  induction outs with
  | nil => simp [filter_truthy]
  | cons o rest ih =>
    have e : filter_truthy (o :: rest) =
        (match o with
          | some (a :: as) => [a :: as]
          | _ => []) ++ filter_truthy rest := by
      cases o with
      | none => rfl
      | some y => cases y <;> rfl
    rw [e, List.mem_append, ih, List.mem_cons]
    cases o with
    | none => simp
    | some y =>
      cases y with
      | nil =>
        simp only [List.not_mem_nil, false_or, Option.some.injEq]
        constructor
        · rintro ⟨h1, h2⟩; exact ⟨Or.inr h1, h2⟩
        · rintro ⟨h1 | h1, h2⟩
          · exact absurd h1 h2
          · exact ⟨h1, h2⟩
      | cons a as =>
        simp only [List.mem_singleton, Option.some.injEq]
        constructor
        · rintro (h | ⟨h1, h2⟩)
          · exact ⟨Or.inl h, by rw [h]; simp⟩
          · exact ⟨Or.inr h1, h2⟩
        · rintro ⟨h1 | h1, h2⟩
          · exact Or.inl h1
          · exact Or.inr ⟨h1, h2⟩

theorem filter_truthy_cons (o : Option ItemId) (rest : List (Option ItemId)) :
    filter_truthy (o :: rest) = filter_truthy [o] ++ filter_truthy rest := by
  cases o with
  | none => rfl
  | some y => cases y <;> rfl

section LogoutNodup

variable {G : Type} (key_remote key_local : ItemId → Key)
  (generate_local_id : Nat → G → ItemId × G)

/-- The ids returned by `list.map(...)` are pairwise distinct when the list has
no duplicate and the minted ids are distinct and not in the list; each of
them is an id of the list or a newly minted id. -/
theorem collapse_all_nodup (minted : List ItemId) (hn : minted.Nodup) (list : List ItemId)
    (hfresh : ∀ m ∈ minted, m ∉ list)
    (ids : List ItemId) (hids : ∀ y ∈ ids, y ∈ list) (hnd : ids.Nodup) (s : Logout G)
    (hsub : (collapse_all key_remote key_local generate_local_id s ids).1.minted.Sublist minted) :
    (filter_truthy (collapse_all key_remote key_local generate_local_id s ids).2).Nodup ∧
      ∀ z ∈ filter_truthy (collapse_all key_remote key_local generate_local_id s ids).2,
        z ∈ ids ∨
          (z ∈ (collapse_all key_remote key_local generate_local_id s ids).1.minted ∧
            z ∉ s.minted) := by
  induction ids generalizing s with
  | nil => simp [collapse_all, filter_truthy]
  | cons y rest ih =>
    rw [collapse_all_cons_fst] at hsub ⊢
    rw [collapse_all_cons_snd, filter_truthy_cons]
    rw [List.nodup_cons] at hnd
    have hs0 := minted_sublist_collapse key_remote key_local generate_local_id s y
    have hs1 := minted_sublist_collapse_all key_remote key_local generate_local_id
      (collapse key_remote key_local generate_local_id s y).1 rest
    obtain ⟨i1, i2⟩ := ih (fun z hz => hids z (List.mem_cons_of_mem _ hz)) hnd.2 _ hsub
    have hy : y ∈ list := hids y (List.mem_cons_self _ _)
    have hrest : ∀ z ∈ filter_truthy (collapse_all key_remote key_local generate_local_id
        (collapse key_remote key_local generate_local_id s y).1 rest).2,
        z ∈ y :: rest ∨
          (z ∈ (collapse_all key_remote key_local generate_local_id
            (collapse key_remote key_local generate_local_id s y).1 rest).1.minted ∧
            z ∉ s.minted) := by
      intro z hz
      rcases i2 z hz with h | ⟨h1, h2⟩
      · exact Or.inl (List.mem_cons_of_mem _ h)
      · exact Or.inr ⟨h1, fun h => h2 (hs0.subset h)⟩
    rcases collapse_cases key_remote key_local generate_local_id s y with
      ⟨-, e⟩ | ⟨loc, -, -, -, e⟩ | ⟨loc, rem, -, -, -, e2, e3, -⟩ | ⟨loc, -, -, e2, -, -⟩
    · have e' : (collapse key_remote key_local generate_local_id s y).2 = none := by rw [e]
      rw [e']
      exact ⟨i1, hrest⟩
    · have hy2 : y ∉ filter_truthy (collapse_all key_remote key_local generate_local_id
          (collapse key_remote key_local generate_local_id s y).1 rest).2 := by
        intro hz
        rcases i2 y hz with h | ⟨h1, -⟩
        · exact hnd.1 h
        · exact hfresh y (hsub.subset h1) hy
      have e' : (collapse key_remote key_local generate_local_id s y).2 = some y := by rw [e]
      rw [e']
      cases y with
      | nil => exact ⟨i1, hrest⟩
      | cons a as =>
        refine ⟨List.nodup_cons.2 ⟨hy2, i1⟩, ?_⟩
        intro z hz
        rcases List.mem_cons.1 hz with h | h
        · exact Or.inl (h ▸ List.mem_cons_self _ _)
        · exact hrest z h
    · have hmin : (generate_local_id loc.ver s.gen).1 ∈
          (collapse key_remote key_local generate_local_id s y).1.minted := by
        rw [e3]; simp
      have hnew : (generate_local_id loc.ver s.gen).1 ∉ s.minted := by
        have hnd2 : (s.minted ++ [(generate_local_id loc.ver s.gen).1]).Nodup := by
          rw [← e3]
          exact (hs1.trans hsub).nodup hn
        rw [List.nodup_append] at hnd2
        exact fun h => hnd2.2.2 h (by simp)
      have hm2 : (generate_local_id loc.ver s.gen).1 ∉
          filter_truthy (collapse_all key_remote key_local generate_local_id
            (collapse key_remote key_local generate_local_id s y).1 rest).2 := by
        intro hz
        rcases i2 _ hz with h | ⟨-, h2⟩
        · exact hfresh _ (hsub.subset (hs1.subset hmin))
            (hids _ (List.mem_cons_of_mem _ h))
        · exact h2 hmin
      rw [e2]
      cases hg : (generate_local_id loc.ver s.gen).1 with
      | nil => exact ⟨i1, hrest⟩
      | cons a as =>
        rw [hg] at hm2 hmin hnew
        refine ⟨List.nodup_cons.2 ⟨hm2, i1⟩, ?_⟩
        intro z hz
        rcases List.mem_cons.1 hz with h | h
        · exact Or.inr ⟨h ▸ hs1.subset hmin, h ▸ hnew⟩
        · exact hrest z h
    · rw [e2]
      exact ⟨i1, hrest⟩

end LogoutNodup

/-- C9, as amended: the list written by the logout transition is sorted
ascending by id string, for every list; it has no duplicate id when the old
list has none and the ids minted during the transition are pairwise distinct
and not in the old list. The code has no deduplication step. -/
theorem logout_list_sorted_nodup {G : Type} (key_remote key_local : ItemId → Key)
    (generate_local_id : Nat → G → ItemId × G) (c : Closure) (g : G) (w : World) :
    (logout key_remote key_local generate_local_id c g w).list.Sorted IdLe ∧
      (c.list.Nodup →
        (logout_run key_remote key_local generate_local_id c g w).1.minted.Nodup →
        (∀ m ∈ (logout_run key_remote key_local generate_local_id c g w).1.minted,
          m ∉ c.list) →
        (logout key_remote key_local generate_local_id c g w).list.Nodup) := by
  refine ⟨sort_sorted _, ?_⟩
  intro hnd hn hfresh
  show (sort _).Nodup
  rw [(sort_perm _).nodup_iff]
  exact (collapse_all_nodup key_remote key_local generate_local_id _ hn c.list hfresh c.list
    (fun _ h => h) hnd _ (List.Sublist.refl _)).1

/-- The run of C9 on the logout example of the specification. -/
theorem logout_list_sorted_nodup_witness :
    [R7, L1].Nodup ∧
      (logout key_remote_ex key_local_ex generate_local_id_ex ⟨none, [R7, L1]⟩ 0
        (world_ex [R7, L1] store_R7 item_map_ex)).list.Nodup :=
  ⟨by decide,
   (logout_list_sorted_nodup key_remote_ex key_local_ex generate_local_id_ex ⟨none, [R7, L1]⟩ 0
      (world_ex [R7, L1] store_R7 item_map_ex)).2 (by decide) (by decide) (by decide)⟩

/-- C9 fails as stated: the list `[L1, L1]`, whose id has a pending
LocalRecord and no RemoteSnapshot, is written back as `[L1, L1]`. -/
theorem logout_list_nodup_counterexample :
    (logout key_remote_ex key_local_ex generate_local_id_ex ⟨none, [L1, L1]⟩ 0
        (world_ex [L1, L1] (store_local L1 ⟨some 0, 1, Val.str "x"⟩) item_map_ex)).list =
        [L1, L1] ∧
      ¬ (logout key_remote_ex key_local_ex generate_local_id_ex ⟨none, [L1, L1]⟩ 0
        (world_ex [L1, L1] (store_local L1 ⟨some 0, 1, Val.str "x"⟩) item_map_ex)).list.Nodup := by
  decide

theorem logout_store {G : Type} (key_remote key_local : ItemId → Key)
    (generate_local_id : Nat → G → ItemId × G) (c : Closure) (g : G) (w : World) :
    (logout key_remote key_local generate_local_id c g w).store =
      (logout_run key_remote key_local generate_local_id c g w).1.store := rfl

theorem mem_logout_list {G : Type} (key_remote key_local : ItemId → Key)
    (generate_local_id : Nat → G → ItemId × G) (c : Closure) (g : G) (w : World) (z : ItemId) :
    z ∈ (logout key_remote key_local generate_local_id c g w).list ↔
      some z ∈ (logout_run key_remote key_local generate_local_id c g w).2 ∧ z ≠ [] := by
  show z ∈ sort _ ↔ _
  rw [mem_sort, mem_filter_truthy]

/-- C7, as amended: logout collapse of an unsynced item. The keys of distinct
records are distinct, and the ids minted during the transition are non-empty,
pairwise distinct and not in the WorkingList. For every id of the WorkingList
whose LocalRecord has `ver > 0` and a truthy `val` (not `null`, and not the
empty string, `0` or `false` either): (a) if no RemoteSnapshot exists for the
id and the id is not the empty string, the id is in the new WorkingList and its
LocalRecord is exactly as it was; (b) if a RemoteSnapshot exists, the new
WorkingList contains an id `generate_local_id(ver)` and not the old id, the
LocalRecord `{ ref: 0, ver, val }` is stored under the new id, and both records
of the old id are deleted. -/
theorem logout_collapses_unsynced {G : Type} (key_remote key_local : ItemId → Key)
    (generate_local_id : Nat → G → ItemId × G) (c : Closure) (g : G) (w : World)
    (hkr : Function.Injective key_remote) (hkl : Function.Injective key_local)
    (hd : ∀ a b, key_remote a ≠ key_local b)
    (hn : (logout_run key_remote key_local generate_local_id c g w).1.minted.Nodup)
    (hfresh : ∀ m ∈ (logout_run key_remote key_local generate_local_id c g w).1.minted,
      m ∉ c.list ∧ m ≠ [])
    (id : ItemId) (hid : id ∈ c.list) (loc : Record)
    (hloc : w.store (key_local id) = some loc) (hver : loc.ver > 0)
    (hval : loc.val.truthy = true) :
    (w.store (key_remote id) = none → id ≠ [] →
        id ∈ (logout key_remote key_local generate_local_id c g w).list ∧
        (logout key_remote key_local generate_local_id c g w).store (key_local id) = some loc ∧
        (logout key_remote key_local generate_local_id c g w).store (key_remote id) = none) ∧
      (∀ rem, w.store (key_remote id) = some rem →
        ∃ g', (generate_local_id loc.ver g').1 ∈
            (logout key_remote key_local generate_local_id c g w).list ∧
          id ∉ (logout key_remote key_local generate_local_id c g w).list ∧
          (logout key_remote key_local generate_local_id c g w).store
              (key_local (generate_local_id loc.ver g').1) =
            some ⟨some 0, loc.ver, loc.val⟩ ∧
          (logout key_remote key_local generate_local_id c g w).store (key_remote id) = none ∧
          (logout key_remote key_local generate_local_id c g w).store (key_local id) = none) := by
  have hp : (decide (loc.ver > 0) && loc.val.truthy) = true := by simp [hver, hval]
  have hxm : id ∉ (logout_run key_remote key_local generate_local_id c g w).1.minted :=
    fun h => (hfresh id h).1 hid
  constructor
  · intro hrem hne
    obtain ⟨a1, a2, a3⟩ := collapse_all_keep key_remote key_local generate_local_id hkl hd
      _ id hxm loc hp c.list { store := w.store, gen := g, minted := [], log := [] }
      (List.Sublist.refl _) hloc hrem
    rw [mem_logout_list, logout_store]
    exact ⟨⟨a3 hid, hne⟩, a1, a2⟩
  · intro rem hrem
    obtain ⟨g', b1, b2, b3, b4, b5, b6⟩ := collapse_all_mint key_remote key_local
      generate_local_id hkr hkl hd _ hn c.list (fun m hm => (hfresh m hm).1) id hid loc rem hp
      c.list (fun _ h => h) hid { store := w.store, gen := g, minted := [], log := [] }
      (List.Sublist.refl _) hloc hrem
    refine ⟨g', ?_, ?_, ?_, ?_, ?_⟩
    · rw [mem_logout_list]
      exact ⟨b2, (hfresh _ b1).2⟩
    · rw [mem_logout_list]
      exact fun h => b3 h.1
    · rw [logout_store]; exact b4
    · rw [logout_store]; exact b5
    · rw [logout_store]; exact b6

/-- The logout example of the specification: `R7` with RemoteSnapshot
`{ ver: 3 }` and LocalRecord `{ ref: 3, ver: 5, val: "y" }` ends under a newly
minted local id with `{ ref: 0, ver: 5, val: "y" }`, and the records of `R7`
are gone. -/
theorem logout_collapses_unsynced_witness :
    ∃ g', (generate_local_id_ex 5 g').1 ∈
          (logout key_remote_ex key_local_ex generate_local_id_ex ⟨none, [R7]⟩ 0
            (world_ex [R7] store_R7 item_map_ex)).list ∧
      R7 ∉ (logout key_remote_ex key_local_ex generate_local_id_ex ⟨none, [R7]⟩ 0
            (world_ex [R7] store_R7 item_map_ex)).list ∧
      (logout key_remote_ex key_local_ex generate_local_id_ex ⟨none, [R7]⟩ 0
            (world_ex [R7] store_R7 item_map_ex)).store
          (key_local_ex (generate_local_id_ex 5 g').1) = some ⟨some 0, 5, Val.str "y"⟩ ∧
      (logout key_remote_ex key_local_ex generate_local_id_ex ⟨none, [R7]⟩ 0
            (world_ex [R7] store_R7 item_map_ex)).store (key_remote_ex R7) = none ∧
      (logout key_remote_ex key_local_ex generate_local_id_ex ⟨none, [R7]⟩ 0
            (world_ex [R7] store_R7 item_map_ex)).store (key_local_ex R7) = none :=
  (logout_collapses_unsynced key_remote_ex key_local_ex generate_local_id_ex ⟨none, [R7]⟩ 0
    (world_ex [R7] store_R7 item_map_ex) key_remote_ex_injective key_local_ex_injective
    key_ex_disjoint (by decide) (by decide) R7 (by decide) ⟨some 3, 5, Val.str "y"⟩
    (by decide) (by decide) (by decide)).2 ⟨none, 3, Val.str "x"⟩ (by decide)

/-- C7 fails as stated, twice. An item whose LocalRecord has `ver = 1` and the
non-null value `""` and which has no RemoteSnapshot is dropped and its
LocalRecord deleted, because the code tests the truthiness of `val`. And the
id `""` with a pending LocalRecord and no RemoteSnapshot is dropped from the
list by `.filter(id => id)`. -/
theorem logout_collapses_unsynced_counterexample :
    ((⟨some 0, 1, Val.str ""⟩ : Record).val ≠ Val.null ∧
        L1 ∉ (logout key_remote_ex key_local_ex generate_local_id_ex ⟨none, [L1]⟩ 0
          (world_ex [L1] (store_local L1 ⟨some 0, 1, Val.str ""⟩) item_map_ex)).list ∧
        (logout key_remote_ex key_local_ex generate_local_id_ex ⟨none, [L1]⟩ 0
          (world_ex [L1] (store_local L1 ⟨some 0, 1, Val.str ""⟩) item_map_ex)).store
            (key_local_ex L1) = none) ∧
      ([] ∈ [([] : ItemId)] ∧
        [] ∉ (logout key_remote_ex key_local_ex generate_local_id_ex ⟨none, [[]]⟩ 0
          (world_ex [[]] (store_local [] ⟨some 0, 1, Val.str "x"⟩) item_map_ex)).list) := by
  decide

/-- C8, as amended: logout collapse of an item with nothing pending. The keys
of distinct records are distinct and no id minted during the transition is in
the WorkingList. For every id of the WorkingList whose LocalRecord has
`ver = 0` or a `val` that is not truthy (`null` included), the id is not in
the new WorkingList and neither a RemoteSnapshot nor a LocalRecord remains
stored under it. For every id of the WorkingList without LocalRecord, the id
is not in the new WorkingList and still has no LocalRecord, and whatever is
stored as its RemoteSnapshot is left as it is. -/
theorem logout_drops_nothing_pending {G : Type} (key_remote key_local : ItemId → Key)
    (generate_local_id : Nat → G → ItemId × G) (c : Closure) (g : G) (w : World)
    (hkr : Function.Injective key_remote) (hkl : Function.Injective key_local)
    (hd : ∀ a b, key_remote a ≠ key_local b)
    (hfresh : ∀ m ∈ (logout_run key_remote key_local generate_local_id c g w).1.minted,
      m ∉ c.list)
    (id : ItemId) (hid : id ∈ c.list) :
    (∀ loc, w.store (key_local id) = some loc → (loc.ver = 0 ∨ loc.val.truthy = false) →
        id ∉ (logout key_remote key_local generate_local_id c g w).list ∧
        (logout key_remote key_local generate_local_id c g w).store (key_remote id) = none ∧
        (logout key_remote key_local generate_local_id c g w).store (key_local id) = none) ∧
      (w.store (key_local id) = none →
        id ∉ (logout key_remote key_local generate_local_id c g w).list ∧
        (logout key_remote key_local generate_local_id c g w).store (key_local id) = none ∧
        (logout key_remote key_local generate_local_id c g w).store (key_remote id) =
          w.store (key_remote id)) := by
  have hxm : id ∉ (logout_run key_remote key_local generate_local_id c g w).1.minted :=
    fun h => hfresh id h hid
  constructor
  · intro loc hloc hnp
    have hp : (decide (loc.ver > 0) && loc.val.truthy) = false := by
      rcases hnp with h | h
      · simp [h]
      · simp [h]
    obtain ⟨a1, a2, a3⟩ := collapse_all_drop key_remote key_local generate_local_id hkr hkl hd
      _ id hxm loc hp c.list hid { store := w.store, gen := g, minted := [], log := [] }
      (List.Sublist.refl _) hloc
    rw [mem_logout_list, logout_store]
    exact ⟨fun h => a3 h.1, a2, a1⟩
  · intro hloc
    obtain ⟨a1, a2, a3⟩ := collapse_all_no_local key_remote key_local generate_local_id
      hkr hkl hd _ id hxm c.list { store := w.store, gen := g, minted := [], log := [] }
      (List.Sublist.refl _) hloc
    rw [mem_logout_list, logout_store]
    exact ⟨fun h => a3 h.1, a1, a2⟩

/-- The run of C8 on the list `[R7, L1]`, where `L1` has a LocalRecord with
`ver = 0`: `L1` is dropped and nothing stays stored under it. -/
theorem logout_drops_nothing_pending_witness :
    L1 ∉ (logout key_remote_ex key_local_ex generate_local_id_ex ⟨none, [R7, L1]⟩ 0
        (world_ex [R7, L1] (store_local L1 ⟨some 0, 0, Val.null⟩) item_map_ex)).list ∧
      (logout key_remote_ex key_local_ex generate_local_id_ex ⟨none, [R7, L1]⟩ 0
        (world_ex [R7, L1] (store_local L1 ⟨some 0, 0, Val.null⟩) item_map_ex)).store
          (key_remote_ex L1) = none ∧
      (logout key_remote_ex key_local_ex generate_local_id_ex ⟨none, [R7, L1]⟩ 0
        (world_ex [R7, L1] (store_local L1 ⟨some 0, 0, Val.null⟩) item_map_ex)).store
          (key_local_ex L1) = none :=
  (logout_drops_nothing_pending key_remote_ex key_local_ex generate_local_id_ex
    ⟨none, [R7, L1]⟩ 0 (world_ex [R7, L1] (store_local L1 ⟨some 0, 0, Val.null⟩) item_map_ex)
    key_remote_ex_injective key_local_ex_injective key_ex_disjoint (by decide) L1
    (by decide)).1 ⟨some 0, 0, Val.null⟩ (by decide) (Or.inl rfl)

/-- C8 fails as stated: an id of the WorkingList with a RemoteSnapshot and no
LocalRecord leaves the list, but the callback returns on line 193 before
`setRemote(null)`, and the RemoteSnapshot remains stored. -/
theorem logout_drops_nothing_pending_counterexample :
    R7 ∈ [R7] ∧
      (world_ex [R7] (store_remote R7 ⟨none, 3, Val.str "x"⟩) item_map_ex).store
        (key_local_ex R7) = none ∧
      R7 ∉ (logout key_remote_ex key_local_ex generate_local_id_ex ⟨none, [R7]⟩ 0
        (world_ex [R7] (store_remote R7 ⟨none, 3, Val.str "x"⟩) item_map_ex)).list ∧
      (logout key_remote_ex key_local_ex generate_local_id_ex ⟨none, [R7]⟩ 0
        (world_ex [R7] (store_remote R7 ⟨none, 3, Val.str "x"⟩) item_map_ex)).store
          (key_remote_ex R7) = some ⟨none, 3, Val.str "x"⟩ := by
  decide

/-! ## The scheduler -/

theorem schedule_enabled (now : Nat) (w : World) : (schedule now w).enabled = w.enabled := rfl

theorem sync_start_enabled (c : Closure) (caller : Caller) (w : World) :
    (sync_start c caller w).1.enabled = w.enabled := by
  unfold sync_start
  split <;> rfl

/-- With a session token, `do_sync` does not touch `sync_state.enabled`. -/
theorem do_sync_enabled (c : Closure) (caller : Caller) (now : Nat) (w : World)
    (ht : token_ok c.token = true) : (do_sync c caller now w).1.enabled = w.enabled := by
  unfold do_sync
  simp only [ht, Bool.not_true, Bool.false_eq_true, if_false]
  split
  · rfl
  · split
    · rfl
    · split
      · rename_i w1 h
        have := sync_start_enabled c caller
          (setSyncing true { w with log := w.log ++ [Event.do_sync caller now] })
        rw [h] at this
        exact this
      · rename_i w1 h
        have := sync_start_enabled c caller
          (setSyncing true { w with log := w.log ++ [Event.do_sync caller now] })
        rw [h] at this
        exact this

/-- With a session token, `prepare_sync` does not touch `sync_state.enabled`. -/
theorem prepare_sync_enabled (c : Closure) (now : Nat) (w : World)
    (ht : token_ok c.token = true) : (prepare_sync c now w).enabled = w.enabled := by
  unfold prepare_sync
  split
  · rfl
  · split
    · have h := do_sync_enabled c Caller.loop now { w with next := now + idle_sync_period } ht
      split
      · rename_i w1 h1
        rw [h1] at h
        rw [schedule_enabled]
        exact h
      · rename_i w1 p h1 h2
        rw [h2] at h
        exact h
    · rfl

/-- The first check of the loop started by `enable()` is due at once and moves
`next` to the idle ceiling before `do_sync()` runs. -/
theorem prepare_sync_next_of_due (c : Closure) (now : Nat) (w : World)
    (he : w.enabled = true) (hd : now ≥ w.next) :
    (prepare_sync c now w).next = now + idle_sync_period := by
  have hn : ∀ (caller : Caller) (w' : World), (do_sync c caller now w').1.next = w'.next := by
    intro caller w'
    unfold do_sync
    split
    · rfl
    · split
      · rfl
      · split
        · rfl
        · have hs : (sync_start c caller
              (setSyncing true { w' with log := w'.log ++ [Event.do_sync caller now] })).1.next =
              w'.next := by
            unfold sync_start
            split <;> rfl
          split
          · rename_i w1 h; rw [h] at hs; exact hs
          · rename_i w1 h; rw [h] at hs; exact hs
  unfold prepare_sync
  rw [if_neg (by simp [he]), if_pos hd]
  have h := hn Caller.loop { w with next := now + idle_sync_period }
  generalize do_sync c Caller.loop now { w with next := now + idle_sync_period } = r at h
  obtain ⟨w1, p⟩ := r
  cases p <;> exact h

theorem enable_of_enabled (c : Closure) (now : Nat) (w : World) (h : w.enabled = true) :
    enable c now w = w := by
  simp [enable, h]

theorem enable_of_disabled (c : Closure) (now : Nat) (w : World) (h : w.enabled = false) :
    enable c now w = prepare_sync c now { w with enabled := true, next := 0 } := by
  simp [enable, h]

/-- C10: `enable()` called on a state with `enabled = true` changes nothing at
all (neither `enabled` nor `next`) and starts no loop; called on a state with
`enabled = false` it sets `enabled = true` and `next = 0` and starts the loop
with `prepare_sync()`, whose first check is due at once and moves `next` to
`now + 600000`. The only call of `enable()` is `if (token) enable()` in the
`[token]` effect (lines 185 and 186), so its closure holds a session token:
then the state after `enable()` has `enabled = true`, and a second `enable()`,
at any later time and from any closure, changes nothing, so that
`enable(); enable()` has the effect of a single `enable()`. -/
theorem enable_idempotent (c : Closure) (now : Nat) (w : World) :
    (w.enabled = true → enable c now w = w) ∧
      (w.enabled = false →
        enable c now w = prepare_sync c now { w with enabled := true, next := 0 } ∧
        (enable c now w).next = now + idle_sync_period) ∧
      (token_ok c.token = true →
        (enable c now w).enabled = true ∧
        ∀ (c' : Closure) (now' : Nat), enable c' now' (enable c now w) = enable c now w) := by
  refine ⟨enable_of_enabled c now w, ?_, ?_⟩
  · intro h
    refine ⟨enable_of_disabled c now w h, ?_⟩
    rw [enable_of_disabled c now w h]
    exact prepare_sync_next_of_due c now _ rfl (Nat.zero_le _)
  · intro ht
    have he : (enable c now w).enabled = true := by
      cases h : w.enabled with
      | true => rw [enable_of_enabled c now w h, h]
      | false => rw [enable_of_disabled c now w h, prepare_sync_enabled c now _ ht]
    exact ⟨he, fun c' now' => enable_of_enabled c' now' _ he⟩

/-- The run of C10 on a disabled scheduler, with a session token. -/
theorem enable_idempotent_witness :
    (world_disabled [L1] (fun _ => none) item_map_ex).enabled = false ∧
      token_ok (some "t") = true ∧
      (enable ⟨some "t", [L1]⟩ 20000 (world_disabled [L1] (fun _ => none) item_map_ex)).next =
        20000 + idle_sync_period ∧
      enable ⟨some "t", [L1]⟩ 20001
          (enable ⟨some "t", [L1]⟩ 20000 (world_disabled [L1] (fun _ => none) item_map_ex)) =
        enable ⟨some "t", [L1]⟩ 20000 (world_disabled [L1] (fun _ => none) item_map_ex) :=
  ⟨rfl, rfl,
   ((enable_idempotent ⟨some "t", [L1]⟩ 20000
      (world_disabled [L1] (fun _ => none) item_map_ex)).2.1 rfl).2,
   ((enable_idempotent ⟨some "t", [L1]⟩ 20000
      (world_disabled [L1] (fun _ => none) item_map_ex)).2.2 rfl).2 ⟨some "t", [L1]⟩ 20001⟩

/-! ## The payload batch -/

theorem fetches_append (a b : List Event) : fetches (a ++ b) = fetches a ++ fetches b := by
  simp [fetches, List.filterMap_append]

theorem attempts_append (a b : List Event) : attempts (a ++ b) = attempts a ++ attempts b := by
  simp [attempts, List.filterMap_append]

theorem loop_attempts_append (a b : List Event) :
    loop_attempts (a ++ b) = loop_attempts a ++ loop_attempts b := by
  simp [loop_attempts, attempts_append, List.filterMap_append]

/-- When every id has a controller, the payload batch is the list of the
payloads the controllers produce, in the order of the ids. -/
theorem build_local_of_registered (m : ItemId → Option Controller) (store : Store)
    (ids : List ItemId) (h : ∀ id ∈ ids, ∃ ctl, m id = some ctl) :
    build_local m store ids =
      some (ids.filterMap fun id => (m id).bind fun ctl => ctl.sync store) := by
  induction ids with
  | nil => rfl
  | cons id rest ih =>
    obtain ⟨ctl, hc⟩ := h id (List.mem_cons_self _ _)
    have ih' := ih (fun x hx => h x (List.mem_cons_of_mem _ hx))
    simp only [build_local, hc, ih', List.filterMap_cons, Option.some_bind]
    cases ctl.sync store <;> rfl

/-- C19: the payload batch handed to the transport is exactly the list of the
non-null results of the controllers' `sync()` for the first `min(length, 10)`
ids of the list, in list order; it has at most 10 entries; and a list longer
than the cap neither stops the request from going out nor is changed by it.
(The controllers of those first ids are registered.) -/
theorem sync_payload_batch (c : Closure) (caller : Caller) (w : World)
    (h : ∀ id ∈ c.list.take max_list_length, ∃ ctl, w.item_map id = some ctl) :
    (sync_start c caller w).2 = true ∧
      (sync_start c caller w).1.log =
        w.log ++ [Event.fetch ((c.list.take max_list_length).filterMap
          fun id => (w.item_map id).bind fun ctl => ctl.sync w.store)] ∧
      (c.list.take max_list_length).length = min c.list.length 10 ∧
      ((c.list.take max_list_length).filterMap
          fun id => (w.item_map id).bind fun ctl => ctl.sync w.store).length ≤ 10 ∧
      (sync_start c caller w).1.list = w.list ∧
      (sync_start c caller w).1.store = w.store := by
  have hb := build_local_of_registered w.item_map w.store _ h
  have hl : (c.list.take max_list_length).length = min c.list.length 10 := by
    rw [List.length_take, Nat.min_comm]
    rfl
  refine ⟨?_, ?_, hl, ?_, ?_, ?_⟩
  · simp [sync_start, hb]
  · simp [sync_start, hb, fetch_sync_request]
  · exact (List.length_filterMap_le _ _).trans (hl ▸ Nat.min_le_right _ _)
  · simp [sync_start, hb, fetch_sync_request]
  · simp [sync_start, hb, fetch_sync_request]

/-- The run of C19 on a list of eleven ids whose controllers all have a
payload: ten payloads go out, and the list keeps its eleven ids. -/
theorem sync_payload_batch_witness :
    (fetches (sync_start
        (closure_ex [[1], [2], [3], [4], [5], [6], [7], [8], [9], [10], [11]]) Caller.loop
        (world_ex [[1], [2], [3], [4], [5], [6], [7], [8], [9], [10], [11]] (fun _ => none)
          (fun id => some (controller_send ⟨id, 1, Val.str "x"⟩)))).1.log).map List.length =
        [10] ∧
      (sync_start
        (closure_ex [[1], [2], [3], [4], [5], [6], [7], [8], [9], [10], [11]]) Caller.loop
        (world_ex [[1], [2], [3], [4], [5], [6], [7], [8], [9], [10], [11]] (fun _ => none)
          (fun id => some (controller_send ⟨id, 1, Val.str "x"⟩)))).1.list.length = 11 :=
  ⟨by
    rw [(sync_payload_batch
      (closure_ex [[1], [2], [3], [4], [5], [6], [7], [8], [9], [10], [11]]) Caller.loop
      (world_ex [[1], [2], [3], [4], [5], [6], [7], [8], [9], [10], [11]] (fun _ => none)
        (fun id => some (controller_send ⟨id, 1, Val.str "x"⟩)))
      (fun id _ => ⟨_, rfl⟩)).2.1]
    decide,
   by
    rw [(sync_payload_batch
      (closure_ex [[1], [2], [3], [4], [5], [6], [7], [8], [9], [10], [11]]) Caller.loop
      (world_ex [[1], [2], [3], [4], [5], [6], [7], [8], [9], [10], [11]] (fun _ => none)
        (fun id => some (controller_send ⟨id, 1, Val.str "x"⟩)))
      (fun id _ => ⟨_, rfl⟩)).2.2.2.2.1]
    decide⟩

/-! ## `do_sync` and `prepare_sync`, step by step -/

/-- What `sync()` does before its `await`: either the request goes out, or a
`TypeError` is raised; nothing else changes. -/
theorem sync_start_cases (c : Closure) (caller : Caller) (w : World) :
    (∃ body, sync_start c caller w = (fetch_sync_request c caller body w, true)) ∨
      sync_start c caller w = ({ w with log := w.log ++ [Event.throwTypeError] }, false) := by
  unfold sync_start
  cases build_local w.item_map w.store (c.list.take max_list_length) with
  | none => exact Or.inr rfl
  | some body => exact Or.inl ⟨body, rfl⟩

/-- The four ways through `do_sync`: no token, rate guard, attempt in flight,
and the attempt itself. -/
theorem do_sync_cases (c : Closure) (caller : Caller) (now : Nat) (w : World) :
    (token_ok c.token = false ∧
        do_sync c caller now w =
          (disable { w with log := w.log ++ [Event.do_sync caller now] }, Progress.settled)) ∨
      (token_ok c.token = true ∧ now < w.time + min_sync_interval ∧
        do_sync c caller now w =
          (setError (some "list.error.limit.sync.message")
            { w with log := w.log ++ [Event.do_sync caller now] }, Progress.settled)) ∨
      (token_ok c.token = true ∧ ¬ now < w.time + min_sync_interval ∧ w.syncing = true ∧
        do_sync c caller now w =
          ({ w with log := w.log ++ [Event.do_sync caller now] }, Progress.settled)) ∨
      (token_ok c.token = true ∧ ¬ now < w.time + min_sync_interval ∧ w.syncing = false ∧
        ((∃ body, do_sync c caller now w =
            (fetch_sync_request c caller body
              (setSyncing true { w with log := w.log ++ [Event.do_sync caller now] }),
              Progress.suspended)) ∨
          do_sync c caller now w =
            ({ setSyncing true { w with log := w.log ++ [Event.do_sync caller now] } with
                log := (w.log ++ [Event.do_sync caller now] ++ [Event.setSyncing true]) ++
                  [Event.throwTypeError] }, Progress.threw))) := by
  cases ht : token_ok c.token with
  | false => left; exact ⟨rfl, by simp [do_sync, ht]⟩
  | true =>
    right
    by_cases hr : now < w.time + min_sync_interval
    · left; exact ⟨rfl, hr, by simp [do_sync, ht, hr]⟩
    · right
      by_cases hs' : w.syncing = true
      · left; exact ⟨rfl, hr, hs', by simp [do_sync, ht, hr, hs']⟩
      · right
        have hs : w.syncing = false := by simpa using hs'
        refine ⟨rfl, hr, hs, ?_⟩
        rcases sync_start_cases c caller
          (setSyncing true { w with log := w.log ++ [Event.do_sync caller now] }) with
          ⟨body, e⟩ | e
        · left
          refine ⟨body, ?_⟩
          unfold do_sync
          rw [if_neg (by simp [ht]), if_neg hr, if_neg (by simp [hs]), e]
        · right
          unfold do_sync
          rw [if_neg (by simp [ht]), if_neg hr, if_neg (by simp [hs]), e]
          simp [setSyncing]

/-- A call of `do_sync` is one sync attempt; it changes neither `next`, the
pending timers, the manager, the last-sync time, the list nor the store. -/
theorem do_sync_frame (c : Closure) (caller : Caller) (now : Nat) (w : World) :
    attempts (do_sync c caller now w).1.log = attempts w.log ++ [(caller, now)] ∧
      (do_sync c caller now w).1.next = w.next ∧
      (do_sync c caller now w).1.timers = w.timers ∧
      (do_sync c caller now w).1.manager = w.manager ∧
      (do_sync c caller now w).1.time = w.time ∧
      (do_sync c caller now w).1.list = w.list ∧
      (do_sync c caller now w).1.store = w.store := by
  rcases do_sync_cases c caller now w with
    ⟨-, e⟩ | ⟨-, -, e⟩ | ⟨-, -, -, e⟩ | ⟨-, -, -, ⟨body, e⟩ | e⟩ <;>
  · rw [e]
    simp [disable, setError, setSyncing, fetch_sync_request, attempts, List.filterMap_append]

theorem schedule_frame (now : Nat) (w : World) :
    attempts (schedule now w).log = attempts w.log ∧
      (schedule now w).next = w.next ∧ (schedule now w).enabled = w.enabled ∧
      (schedule now w).inflight = w.inflight ∧ (schedule now w).syncing = w.syncing ∧
      (schedule now w).manager = w.manager ∧ (schedule now w).time = w.time ∧
      (schedule now w).timers =
        w.timers ++ [⟨w.manager, now + (min ((w.next : Int) - now) op_delay_interval).toNat⟩] := by
  simp [schedule, attempts, List.filterMap_append]

theorem prepare_sync_of_disabled (c : Closure) (now : Nat) (w : World)
    (h : w.enabled = false) : prepare_sync c now w = w := by
  simp [prepare_sync, h]

theorem prepare_sync_of_early (c : Closure) (now : Nat) (w : World)
    (h : w.enabled = true) (hn : now < w.next) : prepare_sync c now w = schedule now w := by
  simp [prepare_sync, h, Nat.not_le.2 hn]

theorem prepare_sync_of_due (c : Closure) (now : Nat) (w : World)
    (h : w.enabled = true) (hn : now ≥ w.next) :
    prepare_sync c now w =
      if (do_sync c Caller.loop now { w with next := now + idle_sync_period }).2 =
          Progress.settled then
        schedule now (do_sync c Caller.loop now { w with next := now + idle_sync_period }).1
      else (do_sync c Caller.loop now { w with next := now + idle_sync_period }).1 := by
  unfold prepare_sync
  rw [if_neg (by simp [h]), if_pos hn]
  generalize do_sync c Caller.loop now { w with next := now + idle_sync_period } = r
  obtain ⟨w1, p⟩ := r
  cases p <;> simp

theorem attempts_toEvent (effs : List Effect) : attempts (effs.map Effect.toEvent) = [] := by
  induction effs with
  | nil => rfl
  | cons e es ih => cases e <;> simpa [attempts, Effect.toEvent] using ih

theorem attempts_writes (l : List (Key × Option Record)) :
    attempts (l.map (fun p => Event.write p.1 p.2)) = [] := by
  induction l with
  | nil => rfl
  | cons a rest ih => simp [attempts]

theorem attempts_merge (s : Sync) (id : ItemId) (remote : Option Item) :
    attempts (s.merge id remote).log = attempts s.log := by
  cases h : s.threw with
  | true => rw [merge_of_threw s id remote h]
  | false =>
    cases hc : s.item_map id with
    | none =>
      rw [merge_of_none s id remote h hc]
      simp [attempts, List.filterMap_append]
    | some c =>
      rw [merge_of_some s id remote c h hc, (foldl_callback _ _).1, attempts_append,
        attempts_toEvent]
      simp [attempts, List.filterMap_append]

theorem attempts_filter_step (acc : Sync × List Item) (item : Item) :
    attempts (filter_step acc item).1.log = attempts acc.1.log := by
  unfold filter_step
  split
  · rfl
  · split
    · rw [attempts_merge]
    · rfl

theorem attempts_foldl_filter_step (remote : List Item) (acc : Sync × List Item) :
    attempts (remote.foldl filter_step acc).1.log = attempts acc.1.log := by
  induction remote generalizing acc with
  | nil => rfl
  | cons item rest ih => rw [List.foldl_cons, ih, attempts_filter_step]

theorem attempts_foldl_merge_none (ids : List ItemId) (s : Sync) :
    attempts (ids.foldl (fun s id => Sync.merge s id none) s).log = attempts s.log := by
  induction ids generalizing s with
  | nil => rfl
  | cons id rest ih => rw [List.foldl_cons, ih, attempts_merge]

/-- Reconciliation makes no call of `do_sync`. -/
theorem attempts_sync_run (key_remote key_local : ItemId → Key) (list : List ItemId)
    (remote : List Item) (w : World) :
    attempts (sync_run key_remote key_local list remote w).log = [] := by
  have h2 : attempts (sync_only_local (sync_matched list remote w).1).log = [] := by
    unfold sync_only_local sync_matched
    rw [attempts_foldl_merge_none, attempts_foldl_filter_step]
    rfl
  unfold sync_run
  cases h : (sync_only_local (sync_matched list remote w).1).threw with
  | true => rw [foldl_persist_of_threw _ _ _ _ h]; exact h2
  | false =>
    rw [(foldl_persist key_remote key_local _ _ h).1, attempts_append, h2, attempts_writes]
    rfl

/-- Reconciliation leaves the scheduler, the pending timers, the requests in
flight, the `syncing` flag and the error notice alone. -/
theorem sync_apply_frame (key_remote key_local : ItemId → Key) (now : Nat)
    (list : List ItemId) (remote : List Item) (w : World) :
    attempts (sync_apply key_remote key_local now list remote w).log = attempts w.log ∧
      (sync_apply key_remote key_local now list remote w).next = w.next ∧
      (sync_apply key_remote key_local now list remote w).timers = w.timers ∧
      (sync_apply key_remote key_local now list remote w).inflight = w.inflight ∧
      (sync_apply key_remote key_local now list remote w).manager = w.manager ∧
      (sync_apply key_remote key_local now list remote w).enabled = w.enabled ∧
      (sync_apply key_remote key_local now list remote w).syncing = w.syncing ∧
      (sync_apply key_remote key_local now list remote w).error = w.error := by
  refine ⟨?_, ?_⟩
  · rw [sync_apply_log, attempts_append, attempts_append, attempts_sync_run]
    cases h : (sync_run key_remote key_local list remote w).threw <;> simp [attempts]
  · unfold sync_apply
    cases h : (sync_run key_remote key_local list remote w).threw <;> simp [h, onSync]

/-- The end of `fetch_sync` leaves the scheduler, the pending timers, the
requests in flight and the `syncing` flag alone. -/
theorem fetch_sync_response_scheduler (out : Outcome) (now : Nat) (w : World) :
    attempts (fetch_sync_response out now w).2.log = attempts w.log ∧
      (fetch_sync_response out now w).2.next = w.next ∧
      (fetch_sync_response out now w).2.timers = w.timers ∧
      (fetch_sync_response out now w).2.inflight = w.inflight ∧
      (fetch_sync_response out now w).2.manager = w.manager ∧
      (fetch_sync_response out now w).2.enabled = w.enabled ∧
      (fetch_sync_response out now w).2.syncing = w.syncing := by
  unfold fetch_sync_response
  cases out with
  | rejected => simp [onSync, attempts, List.filterMap_append]
  | response status body =>
    by_cases h200 : status = 200
    · cases body <;>
        simp [h200, onSync, setError, attempts, List.filterMap_append]
    · by_cases h404 : status = 404
      · simp [h404, setTokenNull, attempts, List.filterMap_append]
      · by_cases h429 : status = 429
        · simp [h429, setError, attempts, List.filterMap_append]
        · simp [h200, h404, h429, onSync, attempts, List.filterMap_append]

/-- The part of `sync()` after its `await` leaves the scheduler, the pending
timers, the requests in flight and the `syncing` flag alone. -/
theorem sync_resume_scheduler (key_remote key_local : ItemId → Key) (c : Closure)
    (out : Outcome) (now : Nat) (w : World) :
    attempts (sync_resume key_remote key_local c out now w).log = attempts w.log ∧
      (sync_resume key_remote key_local c out now w).next = w.next ∧
      (sync_resume key_remote key_local c out now w).timers = w.timers ∧
      (sync_resume key_remote key_local c out now w).inflight = w.inflight ∧
      (sync_resume key_remote key_local c out now w).manager = w.manager ∧
      (sync_resume key_remote key_local c out now w).enabled = w.enabled ∧
      (sync_resume key_remote key_local c out now w).syncing = w.syncing := by
  obtain ⟨f1, f2, f3, f4, f5, f6, f7⟩ := fetch_sync_response_scheduler out now w
  unfold sync_resume
  cases hr : (fetch_sync_response out now w).1 with
  | none => exact ⟨f1, f2, f3, f4, f5, f6, f7⟩
  | some remote =>
    simp only
    split
    · obtain ⟨g1, g2, g3, g4, g5, g6, g7, -⟩ := sync_apply_frame key_remote key_local now
        c.list remote (fetch_sync_response out now w).2
      exact ⟨g1.trans f1, g2.trans f2, g3.trans f3, g4.trans f4, g5.trans f5, g6.trans f6,
        g7.trans f7⟩
    · exact ⟨f1, f2, f3, f4, f5, f6, f7⟩

/-- What the resumption of `do_sync` does to the scheduler: unless a
`TypeError` aborts `sync()`, it settles with the `syncing` flag down, by a
`setSyncing(false)` that is the last thing it does. -/
theorem do_sync_resume_scheduler (key_remote key_local : ItemId → Key) (c : Closure)
    (out : Outcome) (now : Nat) (w : World) :
    attempts (do_sync_resume key_remote key_local c out now w).1.log = attempts w.log ∧
      (do_sync_resume key_remote key_local c out now w).1.next = w.next ∧
      (do_sync_resume key_remote key_local c out now w).1.timers = w.timers ∧
      (do_sync_resume key_remote key_local c out now w).1.inflight = w.inflight ∧
      (do_sync_resume key_remote key_local c out now w).1.manager = w.manager ∧
      (do_sync_resume key_remote key_local c out now w).1.enabled = w.enabled ∧
      (sync_resume_threw key_remote key_local c out now w = true →
        (do_sync_resume key_remote key_local c out now w).2 = Progress.threw ∧
        (do_sync_resume key_remote key_local c out now w).1.syncing = w.syncing) ∧
      (sync_resume_threw key_remote key_local c out now w = false →
        (do_sync_resume key_remote key_local c out now w).2 = Progress.settled ∧
        (do_sync_resume key_remote key_local c out now w).1.syncing = false ∧
        (do_sync_resume key_remote key_local c out now w).1.log =
          (sync_resume key_remote key_local c out now w).log ++ [Event.setSyncing false]) := by
  obtain ⟨f1, f2, f3, f4, f5, f6, f7⟩ := sync_resume_scheduler key_remote key_local c out now w
  by_cases ht : sync_resume_threw key_remote key_local c out now w = true
  · have e : do_sync_resume key_remote key_local c out now w =
        (sync_resume key_remote key_local c out now w, Progress.threw) := by
      simp [do_sync_resume, ht]
    rw [e]
    exact ⟨f1, f2, f3, f4, f5, f6, fun _ => ⟨rfl, f7⟩, fun h => absurd ht (by simp [h])⟩
  · have e : do_sync_resume key_remote key_local c out now w =
        (setSyncing false (sync_resume key_remote key_local c out now w),
          Progress.settled) := by
      simp [do_sync_resume, ht]
    rw [e]
    refine ⟨?_, f2, f3, f4, f5, f6, fun h => absurd h ht, fun _ => ⟨rfl, rfl, rfl⟩⟩
    show attempts ((sync_resume key_remote key_local c out now w).log ++
      [Event.setSyncing false]) = attempts w.log
    rw [attempts_append, f1]
    simp [attempts]

/-- What the arrival of an outcome does to the scheduler. Unless a `TypeError`
aborts `sync()`, the `syncing` flag is down afterwards and, when the scheduling
loop awaited the attempt, exactly one check is scheduled, after
`min(next - now, 60000)` ms. -/
theorem respond_scheduler (key_remote key_local : ItemId → Key) (r : Inflight)
    (out : Outcome) (now : Nat) (w : World) :
    attempts (respond key_remote key_local r out now w).log = attempts w.log ∧
      (respond key_remote key_local r out now w).next = w.next ∧
      (respond key_remote key_local r out now w).manager = w.manager ∧
      (respond key_remote key_local r out now w).enabled = w.enabled ∧
      (respond key_remote key_local r out now w).inflight = w.inflight.erase r ∧
      (sync_resume_threw key_remote key_local r.closure out now
          { w with inflight := w.inflight.erase r } = true →
        (respond key_remote key_local r out now w).timers = w.timers ∧
        (respond key_remote key_local r out now w).syncing = w.syncing) ∧
      (sync_resume_threw key_remote key_local r.closure out now
          { w with inflight := w.inflight.erase r } = false →
        (respond key_remote key_local r out now w).syncing = false ∧
        (r.caller = Caller.loop →
          (respond key_remote key_local r out now w).timers =
            w.timers ++
              [⟨w.manager, now + (min ((w.next : Int) - now) op_delay_interval).toNat⟩]) ∧
        (r.caller = Caller.manual →
          (respond key_remote key_local r out now w).timers = w.timers)) := by
  obtain ⟨f1, f2, f3, f4, f5, f6, f7, f8⟩ := do_sync_resume_scheduler key_remote key_local
    r.closure out now { w with inflight := w.inflight.erase r }
  by_cases ht : sync_resume_threw key_remote key_local r.closure out now
      { w with inflight := w.inflight.erase r } = true
  · obtain ⟨g1, g2⟩ := f7 ht
    have e : respond key_remote key_local r out now w =
        (do_sync_resume key_remote key_local r.closure out now
          { w with inflight := w.inflight.erase r }).1 := by
      unfold respond
      generalize do_sync_resume key_remote key_local r.closure out now
        { w with inflight := w.inflight.erase r } = d at g1
      obtain ⟨w1, p⟩ := d
      simp only at g1
      subst g1
      rfl
    rw [e]
    exact ⟨f1, f2, f5, f6, f4, fun _ => ⟨f3, g2⟩, fun h => absurd ht (by simp [h])⟩
  · have ht' : sync_resume_threw key_remote key_local r.closure out now
        { w with inflight := w.inflight.erase r } = false := by simpa using ht
    obtain ⟨g1, g2, -⟩ := f8 ht'
    cases hc : r.caller with
    | loop =>
      have e : respond key_remote key_local r out now w =
          schedule now (do_sync_resume key_remote key_local r.closure out now
            { w with inflight := w.inflight.erase r }).1 := by
        unfold respond
        generalize do_sync_resume key_remote key_local r.closure out now
          { w with inflight := w.inflight.erase r } = d at g1
        obtain ⟨w1, p⟩ := d
        simp only at g1
        subst g1
        simp [hc]
      obtain ⟨s1, s2, s3, s4, s5, s6, -, s8⟩ := schedule_frame now
        (do_sync_resume key_remote key_local r.closure out now
          { w with inflight := w.inflight.erase r }).1
      rw [e]
      refine ⟨s1.trans f1, s2.trans f2, s6.trans f5, s3.trans f6, s4.trans f4,
        fun h => absurd h ht, fun _ => ⟨s5.trans g2, fun _ => ?_, fun h => Caller.noConfusion h⟩⟩
      rw [s8, f3, f5, f2]
    | manual =>
      have e : respond key_remote key_local r out now w =
          (do_sync_resume key_remote key_local r.closure out now
            { w with inflight := w.inflight.erase r }).1 := by
        unfold respond
        generalize do_sync_resume key_remote key_local r.closure out now
          { w with inflight := w.inflight.erase r } = d at g1
        obtain ⟨w1, p⟩ := d
        simp only at g1
        subst g1
        simp [hc]
      rw [e]
      exact ⟨f1, f2, f5, f6, f4, fun h => absurd h ht,
        fun _ => ⟨g2, fun h => Caller.noConfusion h, fun _ => f3⟩⟩

/-! ## The rate guard -/

/-- A call of `do_sync` stopped by the rate guard: no request, the `syncing`
flag as it was, and the rate-limit notice. -/
theorem do_sync_of_limited (c : Closure) (caller : Caller) (now : Nat) (w : World)
    (ht : token_ok c.token = true) (hr : now < w.time + min_sync_interval) :
    do_sync c caller now w =
        (setError (some "list.error.limit.sync.message")
          { w with log := w.log ++ [Event.do_sync caller now] }, Progress.settled) ∧
      fetches (do_sync c caller now w).1.log = fetches w.log ∧
      (do_sync c caller now w).1.inflight = w.inflight ∧
      (do_sync c caller now w).1.syncing = w.syncing ∧
      (do_sync c caller now w).1.error = some "list.error.limit.sync.message" := by
  have e : do_sync c caller now w =
      (setError (some "list.error.limit.sync.message")
        { w with log := w.log ++ [Event.do_sync caller now] }, Progress.settled) := by
    simp [do_sync, ht, hr]
  rw [e]
  simp [setError, fetches, List.filterMap_append]

/-- A call of `do_sync` past the rate guard while the `syncing` flag is up:
nothing happens, and no notice is set. -/
theorem do_sync_of_syncing (c : Closure) (caller : Caller) (now : Nat) (w : World)
    (ht : token_ok c.token = true) (hr : ¬ now < w.time + min_sync_interval)
    (hs : w.syncing = true) :
    do_sync c caller now w =
      ({ w with log := w.log ++ [Event.do_sync caller now] }, Progress.settled) := by
  simp [do_sync, ht, hr, hs]

/-- A reconciliation that completes moves the last-sync time to the time of
the response. -/
theorem respond_time_of_success (key_remote key_local : ItemId → Key) (r : Inflight)
    (remote : List Item) (now : Nat) (w : World) (he : w.enabled = true)
    (ht : sync_resume_threw key_remote key_local r.closure
      (Outcome.response 200 (Body.json (some remote))) now
      { w with inflight := w.inflight.erase r } = false) :
    (respond key_remote key_local r (Outcome.response 200 (Body.json (some remote))) now
      w).time = now := by
  have h1 := ht
  simp only [sync_resume_threw, fetch_sync_response] at h1
  simp [setError, he] at h1
  have e : (do_sync_resume key_remote key_local r.closure
      (Outcome.response 200 (Body.json (some remote))) now
      { w with inflight := w.inflight.erase r }).1.time = now ∧
      (do_sync_resume key_remote key_local r.closure
      (Outcome.response 200 (Body.json (some remote))) now
      { w with inflight := w.inflight.erase r }).2 = Progress.settled := by
    simp only [do_sync_resume, ht]
    refine ⟨?_, rfl⟩
    simp only [Bool.false_eq_true, if_false, setSyncing, sync_resume, fetch_sync_response]
    simp [setError, he, sync_apply, h1, onSync]
  unfold respond
  generalize do_sync_resume key_remote key_local r.closure
    (Outcome.response 200 (Body.json (some remote))) now
    { w with inflight := w.inflight.erase r } = d at e
  obtain ⟨w1, p⟩ := d
  obtain ⟨e1, e2⟩ := e
  simp only at e1 e2
  subst e2
  cases r.caller
  · simpa [schedule] using e1
  · simpa using e1

/-! ## Debounce -/

theorem run_append (key_remote key_local : ItemId → Key) (a b : List (Nat × Step)) (w : World) :
    run key_remote key_local w (a ++ b) =
      run key_remote key_local (run key_remote key_local w a) b := by
  induction a generalizing w with
  | nil => rfl
  | cons s rest ih => exact ih _

theorem stays_enabled_head (key_remote key_local : ItemId → Key) (steps : List (Nat × Step))
    (w : World) (h : stays_enabled key_remote key_local w steps) : w.enabled = true := by
  cases steps with
  | nil => exact h
  | cons s rest => exact h.1

theorem stays_enabled_append (key_remote key_local : ItemId → Key) (a b : List (Nat × Step))
    (w : World) :
    stays_enabled key_remote key_local w (a ++ b) ↔
      stays_enabled key_remote key_local w a ∧
        stays_enabled key_remote key_local (run key_remote key_local w a) b := by
  induction a generalizing w with
  | nil =>
    exact ⟨fun h => ⟨stays_enabled_head key_remote key_local b w h, h⟩, fun h => h.2⟩
  | cons s rest ih =>
    show (_ ∧ stays_enabled key_remote key_local _ (rest ++ b)) ↔
      (_ ∧ stays_enabled key_remote key_local _ rest) ∧ _
    rw [ih]
    exact ⟨fun h => ⟨⟨h.1, h.2.1⟩, h.2.2⟩, fun h => ⟨h.1.1, h.1.2, h.2⟩⟩

theorem loop_attempts_of_attempts (a b : List Event) (h : attempts a = attempts b) :
    loop_attempts a = loop_attempts b := by
  unfold loop_attempts
  rw [h]

theorem op_of_enabled (now : Nat) (w : World) (h : w.enabled = true) :
    op now w = { w with next := now + op_delay_interval } := by
  simp [op, h]

theorem op_of_disabled (now : Nat) (w : World) (h : w.enabled = false) : op now w = w := by
  simp [op, h]

/-- While `next` is at least `B`, a step before `B` that leaves the scheduler
enabled starts no sync attempt from the scheduling loop and keeps `next` at
least `B`; an `op()` is taken at a time `now` with `now + 60000 >= B`. -/
theorem step_keeps_bound (key_remote key_local : ItemId → Key) (B now : Nat) (w : World)
    (s : Step) (he : w.enabled = true) (hb : B ≤ w.next) (hn : now < B)
    (hop : s = Step.op → B ≤ now + op_delay_interval)
    (he' : (step key_remote key_local now w s).enabled = true) :
    loop_attempts (step key_remote key_local now w s).log = loop_attempts w.log ∧
      B ≤ (step key_remote key_local now w s).next := by
  cases s with
  | enable c =>
    show loop_attempts (enable c now w).log = _ ∧ B ≤ (enable c now w).next
    rw [enable_of_enabled c now w he]
    exact ⟨rfl, hb⟩
  | disable => exact absurd he' (by simp [step, disable])
  | op =>
    show loop_attempts (op now w).log = _ ∧ B ≤ (op now w).next
    rw [op_of_enabled now w he]
    exact ⟨rfl, hop rfl⟩
  | fire t =>
    show loop_attempts (fire t now w).log = _ ∧ B ≤ (fire t now w).next
    unfold fire
    rw [prepare_sync_of_early t.closure now { w with timers := w.timers.erase t } he
      (lt_of_lt_of_le hn hb)]
    obtain ⟨s1, s2, -⟩ := schedule_frame now { w with timers := w.timers.erase t }
    exact ⟨loop_attempts_of_attempts _ _ s1, by rw [s2]; exact hb⟩
  | sync c =>
    show loop_attempts (do_sync c Caller.manual now w).1.log = _ ∧
      B ≤ (do_sync c Caller.manual now w).1.next
    obtain ⟨d1, d2, -⟩ := do_sync_frame c Caller.manual now w
    refine ⟨?_, by rw [d2]; exact hb⟩
    unfold loop_attempts
    rw [d1]
    simp [List.filterMap_append]
  | respond r out =>
    show loop_attempts (respond key_remote key_local r out now w).log = _ ∧
      B ≤ (respond key_remote key_local r out now w).next
    obtain ⟨r1, r2, -⟩ := respond_scheduler key_remote key_local r out now w
    exact ⟨loop_attempts_of_attempts _ _ r1, by rw [r2]; exact hb⟩
  | render c => exact ⟨rfl, hb⟩

/-- While `next` is at least `B`, a run of steps before `B` in which the
scheduler stays enabled starts no sync attempt from the scheduling loop. -/
theorem run_keeps_bound (key_remote key_local : ItemId → Key) (B : Nat)
    (steps : List (Nat × Step)) (w : World) (hb : B ≤ w.next)
    (hs : ∀ s ∈ steps, s.1 < B ∧ (s.2 = Step.op → B ≤ s.1 + op_delay_interval))
    (he : stays_enabled key_remote key_local w steps) :
    loop_attempts (run key_remote key_local w steps).log = loop_attempts w.log ∧
      B ≤ (run key_remote key_local w steps).next := by
  induction steps generalizing w with
  | nil => exact ⟨rfl, hb⟩
  | cons s rest ih =>
    obtain ⟨h1, h2⟩ := he
    obtain ⟨hn, hop⟩ := hs s (List.mem_cons_self _ _)
    obtain ⟨k1, k2⟩ := step_keeps_bound key_remote key_local B s.1 w s.2 h1 hb hn hop
      (stays_enabled_head key_remote key_local rest _ h2)
    obtain ⟨i1, i2⟩ := ih _ k2 (fun x hx => hs x (List.mem_cons_of_mem _ hx)) h2
    exact ⟨i1.trans k1, i2⟩

/-- A run that starts with `op()` at `t` on an enabled scheduler, goes on until
before `t + 60000` and leaves the scheduler enabled throughout, starts no sync
attempt from the scheduling loop and ends with `next` at least `t + 60000`. -/
theorem run_after_op (key_remote key_local : ItemId → Key) (t : Nat)
    (steps : List (Nat × Step)) (w : World)
    (hs : ∀ s ∈ steps, t ≤ s.1 ∧ s.1 < t + op_delay_interval)
    (he : stays_enabled key_remote key_local w ((t, Step.op) :: steps)) :
    loop_attempts (run key_remote key_local w ((t, Step.op) :: steps)).log =
        loop_attempts w.log ∧
      t + op_delay_interval ≤ (run key_remote key_local w ((t, Step.op) :: steps)).next := by
  obtain ⟨h1, h2⟩ := he
  have e : step key_remote key_local t w Step.op = { w with next := t + op_delay_interval } :=
    op_of_enabled t w h1
  show loop_attempts (run key_remote key_local (step key_remote key_local t w Step.op) steps).log
      = _ ∧
    _ ≤ (run key_remote key_local (step key_remote key_local t w Step.op) steps).next
  have h2' : stays_enabled key_remote key_local (step key_remote key_local t w Step.op) steps :=
    h2
  rw [e] at h2' ⊢
  exact run_keeps_bound key_remote key_local (t + op_delay_interval) steps _ (le_refl _)
    (fun s hs' => ⟨(hs s hs').2, fun _ => Nat.add_le_add_right (hs s hs').1 _⟩) h2'

/-- C11: `op()` on an enabled scheduler sets `next = now + 60000` and changes
nothing else; on a disabled scheduler it changes nothing. Consequently, in
every run in which the scheduler stays enabled, the scheduling loop starts no
sync attempt after an `op()` at time `t` and before `t + 60000`. With `op()` at
0 s, 10 s and 20 s, whatever else happens in between and afterwards, the
scheduling loop starts no sync attempt before 80 s. -/
theorem op_debounce (key_remote key_local : ItemId → Key) (t : Nat) (w : World) :
    (w.enabled = true → op t w = { w with next := t + 60000 }) ∧
      (w.enabled = false → op t w = w) ∧
      (∀ steps : List (Nat × Step),
        (∀ s ∈ steps, t ≤ s.1 ∧ s.1 < t + 60000) →
        stays_enabled key_remote key_local w ((t, Step.op) :: steps) →
        loop_attempts (run key_remote key_local w ((t, Step.op) :: steps)).log =
          loop_attempts w.log) ∧
      (∀ r1 r2 r3 : List (Nat × Step),
        (∀ s ∈ r1, s.1 < 10000) →
        (∀ s ∈ r2, 10000 ≤ s.1 ∧ s.1 < 20000) →
        (∀ s ∈ r3, 20000 ≤ s.1 ∧ s.1 < 80000) →
        stays_enabled key_remote key_local w
          (((0, Step.op) :: r1) ++ ((10000, Step.op) :: r2) ++ ((20000, Step.op) :: r3)) →
        loop_attempts (run key_remote key_local w
          (((0, Step.op) :: r1) ++ ((10000, Step.op) :: r2) ++ ((20000, Step.op) :: r3))).log =
          loop_attempts w.log) := by
  refine ⟨op_of_enabled t w, op_of_disabled t w, fun steps hs he => ?_,
    fun r1 r2 r3 h1 h2 h3 he => ?_⟩
  · exact (run_after_op key_remote key_local t steps w hs he).1
  · rw [stays_enabled_append, stays_enabled_append] at he
    obtain ⟨⟨e1, e2⟩, e3⟩ := he
    rw [run_append] at e3
    have a1 := run_after_op key_remote key_local 0 r1 w
      (fun s hs => ⟨Nat.zero_le _, by simp only [op_delay_interval]; have := h1 s hs; omega⟩) e1
    have a2 := run_after_op key_remote key_local 10000 r2 _
      (fun s hs => ⟨(h2 s hs).1, by simp only [op_delay_interval]; have := h2 s hs; omega⟩) e2
    have a3 := run_after_op key_remote key_local 20000 r3 _
      (fun s hs => ⟨(h3 s hs).1, by simp only [op_delay_interval]; have := h3 s hs; omega⟩) e3
    rw [run_append, run_append]
    exact a3.1.trans (a2.1.trans a1.1)

/-- The run of C11 with `op()` at 0 s, 10 s and 20 s: the check pending at 5 s
fires then and re-arms for 60 s, where it fires 5 s late and re-arms for 80 s;
the scheduling loop has started no sync attempt. -/
theorem op_debounce_witness :
    loop_attempts (run key_remote_ex key_local_ex
      { world_ex [R7] (fun _ => none) item_map_ex with timers := [⟨closure_ex [R7], 5000⟩] }
      (((0, Step.op) :: [(5000, Step.fire ⟨closure_ex [R7], 5000⟩)]) ++
        ((10000, Step.op) :: []) ++
        ((20000, Step.op) :: [(65000, Step.fire ⟨closure_ex [R7], 60000⟩)]))).log = [] ∧
      (run key_remote_ex key_local_ex
      { world_ex [R7] (fun _ => none) item_map_ex with timers := [⟨closure_ex [R7], 5000⟩] }
      (((0, Step.op) :: [(5000, Step.fire ⟨closure_ex [R7], 5000⟩)]) ++
        ((10000, Step.op) :: []) ++
        ((20000, Step.op) :: [(65000, Step.fire ⟨closure_ex [R7], 60000⟩)]))).timers =
        [⟨closure_ex [R7], 80000⟩] :=
  ⟨(op_debounce key_remote_ex key_local_ex 0
    { world_ex [R7] (fun _ => none) item_map_ex with timers := [⟨closure_ex [R7], 5000⟩] }).2.2.2
    [(5000, Step.fire ⟨closure_ex [R7], 5000⟩)] []
    [(65000, Step.fire ⟨closure_ex [R7], 60000⟩)]
    (by simp) (by simp) (by simp)
    (by
      show _ ∧ _ ∧ _ ∧ _ ∧ _ ∧ (_ = true)
      decide), by decide⟩

/-! ## A single attempt in flight -/

theorem single_flight_congr (w w' : World) (hi : w'.inflight = w.inflight)
    (hs : w'.syncing = w.syncing) (h : single_flight w) : single_flight w' := by
  unfold single_flight at h ⊢
  rw [hi, hs]
  exact h

/-- A call of `do_sync` while the `syncing` flag is up starts no request. -/
theorem do_sync_of_flag (c : Closure) (caller : Caller) (now : Nat) (w : World)
    (hs : w.syncing = true) :
    fetches (do_sync c caller now w).1.log = fetches w.log ∧
      (do_sync c caller now w).1.inflight = w.inflight ∧
      (do_sync c caller now w).1.syncing = true ∧
      (do_sync c caller now w).2 = Progress.settled := by
  rcases do_sync_cases c caller now w with
    ⟨-, e⟩ | ⟨-, -, e⟩ | ⟨-, -, -, e⟩ | ⟨-, -, h, -⟩
  · rw [e]; simp [disable, fetches, List.filterMap_append, hs]
  · rw [e]; simp [setError, fetches, List.filterMap_append, hs]
  · rw [e]; simp [fetches, List.filterMap_append, hs]
  · rw [hs] at h; exact absurd h (by decide)

/-- A call of `do_sync` that awaits a request found the `syncing` flag down,
raised it, and then handed one request to the transport. -/
theorem do_sync_of_suspended (c : Closure) (caller : Caller) (now : Nat) (w : World)
    (h : (do_sync c caller now w).2 = Progress.suspended) :
    w.syncing = false ∧
      ∃ body, (do_sync c caller now w).1.log =
          w.log ++ [Event.do_sync caller now, Event.setSyncing true, Event.fetch body] ∧
        (do_sync c caller now w).1.syncing = true ∧
        (do_sync c caller now w).1.inflight = w.inflight ++ [⟨c, body, caller⟩] := by
  rcases do_sync_cases c caller now w with
    ⟨-, e⟩ | ⟨-, -, e⟩ | ⟨-, -, -, e⟩ | ⟨-, -, hs, ⟨body, e⟩ | e⟩
  · rw [e] at h; simp at h
  · rw [e] at h; simp at h
  · rw [e] at h; simp at h
  · refine ⟨hs, body, ?_⟩
    rw [e]
    simp [fetch_sync_request, setSyncing]
  · rw [e] at h; simp at h

theorem do_sync_single_flight (c : Closure) (caller : Caller) (now : Nat) (w : World)
    (h : single_flight w) : single_flight (do_sync c caller now w).1 := by
  rcases do_sync_cases c caller now w with
    ⟨-, e⟩ | ⟨-, -, e⟩ | ⟨-, -, -, e⟩ | ⟨-, -, hs, ⟨body, e⟩ | e⟩
  · rw [e]; exact single_flight_congr w _ rfl rfl h
  · rw [e]; exact single_flight_congr w _ rfl rfl h
  · rw [e]; exact single_flight_congr w _ rfl rfl h
  · have hi : w.inflight = [] := by
      rcases h with h | ⟨h, -⟩
      · exact h
      · rw [hs] at h; exact absurd h (by decide)
    rw [e]
    right
    exact ⟨rfl, ⟨c, body, caller⟩, by simp [fetch_sync_request, setSyncing, hi]⟩
  · have hi : w.inflight = [] := by
      rcases h with h | ⟨h, -⟩
      · exact h
      · rw [hs] at h; exact absurd h (by decide)
    rw [e]
    left
    exact hi

theorem schedule_single_flight (now : Nat) (w : World) (h : single_flight w) :
    single_flight (schedule now w) :=
  single_flight_congr w _ rfl rfl h

theorem prepare_sync_single_flight (c : Closure) (now : Nat) (w : World)
    (h : single_flight w) : single_flight (prepare_sync c now w) := by
  cases he : w.enabled with
  | false => rw [prepare_sync_of_disabled c now w he]; exact h
  | true =>
    by_cases hn : now < w.next
    · rw [prepare_sync_of_early c now w he hn]
      exact schedule_single_flight now w h
    · rw [prepare_sync_of_due c now w he (Nat.not_lt.1 hn)]
      have hd := do_sync_single_flight c Caller.loop now { w with next := now + idle_sync_period }
        (single_flight_congr w _ rfl rfl h)
      split
      · exact schedule_single_flight now _ hd
      · exact hd

theorem respond_single_flight (key_remote key_local : ItemId → Key) (r : Inflight)
    (out : Outcome) (now : Nat) (w : World) (h : single_flight w) (hr : r ∈ w.inflight) :
    (respond key_remote key_local r out now w).inflight = [] := by
  obtain ⟨-, -, -, -, f5, -⟩ := respond_scheduler key_remote key_local r out now w
  rw [f5]
  rcases h with h | ⟨-, r', h⟩
  · rw [h] at hr; exact absurd hr (List.not_mem_nil _)
  · rw [h] at hr ⊢
    have : r = r' := by simpa using hr
    subst this
    simp

theorem step_single_flight (key_remote key_local : ItemId → Key) (now : Nat) (w : World)
    (s : Step) (h : single_flight w) (hp : s.possible w) :
    single_flight (step key_remote key_local now w s) := by
  cases s with
  | enable c =>
    show single_flight (enable c now w)
    unfold enable
    split
    · exact h
    · exact prepare_sync_single_flight c now _ (single_flight_congr w _ rfl rfl h)
  | disable => exact single_flight_congr w _ rfl rfl h
  | op =>
    show single_flight (op now w)
    unfold op
    split
    · exact single_flight_congr w _ rfl rfl h
    · exact h
  | fire t =>
    exact prepare_sync_single_flight t.closure now _ (single_flight_congr w _ rfl rfl h)
  | sync c => exact do_sync_single_flight c Caller.manual now w h
  | respond r out =>
    exact Or.inl (respond_single_flight key_remote key_local r out now w h hp)
  | render c => exact single_flight_congr w _ rfl rfl h

theorem run_single_flight (key_remote key_local : ItemId → Key) (steps : List (Nat × Step))
    (w : World) (h : single_flight w) (hp : run_possible key_remote key_local w steps) :
    single_flight (run key_remote key_local w steps) := by
  induction steps generalizing w with
  | nil => exact h
  | cons s rest ih =>
    exact ih _ (step_single_flight key_remote key_local s.1 w s.2 h hp.1) hp.2

theorem sync_resume_threw_of_none (key_remote key_local : ItemId → Key) (c : Closure)
    (out : Outcome) (now : Nat) (w : World) (h : (fetch_sync_response out now w).1 = none) :
    sync_resume_threw key_remote key_local c out now w = false := by
  simp [sync_resume_threw, h]

theorem sync_resume_threw_of_disabled (key_remote key_local : ItemId → Key) (c : Closure)
    (out : Outcome) (now : Nat) (w : World) (h : w.enabled = false) :
    sync_resume_threw key_remote key_local c out now w = false := by
  have he := (fetch_sync_response_scheduler out now w).2.2.2.2.2.1
  unfold sync_resume_threw
  cases (fetch_sync_response out now w).1 with
  | none => rfl
  | some remote => simp [he, h]

/-! ## The idle ceiling -/

theorem prepare_sync_attempts_of_due (c : Closure) (now : Nat) (w : World)
    (he : w.enabled = true) (hn : now ≥ w.next) :
    attempts (prepare_sync c now w).log = attempts w.log ++ [(Caller.loop, now)] := by
  obtain ⟨d1, -⟩ := do_sync_frame c Caller.loop now { w with next := now + idle_sync_period }
  rw [prepare_sync_of_due c now w he hn]
  split
  · exact (schedule_frame now _).1.trans d1
  · exact d1

theorem loop_attempts_of_loop (a b : List Event) (now : Nat)
    (h : attempts a = attempts b ++ [(Caller.loop, now)]) :
    loop_attempts a = loop_attempts b ++ [now] := by
  unfold loop_attempts
  rw [h]
  simp [List.filterMap_append]

theorem tick_of_timer (w : World) (t : Timer) (h : w.timers = [t]) :
    tick w = prepare_sync t.closure t.due { w with timers := [] } := by
  have e : w.timers.erase t = [] := by rw [h]; simp
  unfold tick fire
  rw [h]
  simp only
  rw [← h, e]

theorem delay_of_early (N due : Nat) (h : due < N) :
    due + (min ((N : Int) - due) op_delay_interval).toNat = due + min (N - due) 60000 := by
  simp only [op_delay_interval]
  omega

/-- With one check pending in an enabled scheduler, the checks that fire at
their scheduled times start the next sync attempt of the scheduling loop at
`next`, or at the time of the pending check when that is later, and none
before. -/
theorem tick_until_due (N : Nat) :
    ∀ (k : Nat) (w : World) (t : Timer), N - t.due ≤ k → w.enabled = true → w.next = N →
      w.timers = [t] →
      ∃ n, loop_attempts ((tick^[n]) w).log = loop_attempts w.log ++ [max N t.due] ∧
        ∀ m, m < n → loop_attempts ((tick^[m]) w).log = loop_attempts w.log := by
  intro k
  induction k with
  | zero =>
    intro w t hk he hn ht
    have hdue : w.next ≤ t.due := by omega
    refine ⟨1, ?_, fun m hm => ?_⟩
    · show loop_attempts (tick w).log = _
      rw [tick_of_timer w t ht, max_eq_right (by omega)]
      exact loop_attempts_of_loop _ _ _
        (prepare_sync_attempts_of_due t.closure t.due { w with timers := [] } he hdue)
    · have : m = 0 := by omega
      subst this
      rfl
  | succ k ih =>
    intro w t hk he hn ht
    by_cases hdue : w.next ≤ t.due
    · refine ⟨1, ?_, fun m hm => ?_⟩
      · show loop_attempts (tick w).log = _
        rw [tick_of_timer w t ht, max_eq_right (by omega)]
        exact loop_attempts_of_loop _ _ _
          (prepare_sync_attempts_of_due t.closure t.due { w with timers := [] } he hdue)
      · have : m = 0 := by omega
        subst this
        rfl
    · have hlt : t.due < w.next := Nat.lt_of_not_le hdue
      have e : tick w = schedule t.due { w with timers := [] } := by
        rw [tick_of_timer w t ht]
        exact prepare_sync_of_early t.closure t.due { w with timers := [] } he hlt
      obtain ⟨s1, s2, s3, -, -, -, -, s8⟩ := schedule_frame t.due { w with timers := [] }
      have ht' : (tick w).timers = [⟨w.manager, t.due + min (w.next - t.due) 60000⟩] := by
        rw [e, s8]
        simp only [List.nil_append]
        rw [delay_of_early w.next t.due hlt]
      obtain ⟨n, h1, h2⟩ := ih (tick w) ⟨w.manager, t.due + min (w.next - t.due) 60000⟩
        (by simp only; omega) (by rw [e, s3]; exact he) (by rw [e, s2]; exact hn) ht'
      have hl : loop_attempts (tick w).log = loop_attempts w.log := by
        rw [e]
        exact loop_attempts_of_attempts _ _ s1
      refine ⟨n + 1, ?_, fun m hm => ?_⟩
      · rw [Function.iterate_succ_apply, h1, hl]
        congr 2
        simp only
        omega
      · cases m with
        | zero => rfl
        | succ m =>
          rw [Function.iterate_succ_apply, h2 m (by omega), hl]

/-- C13, as amended: `enable()` at `T0` on a disabled scheduler with no check
pending, in a closure with a session token, makes a sync attempt at `T0`.
When that attempt is skipped at once (rate guard, or an attempt in flight),
the checks that fire at their scheduled times start the next attempt of the
scheduling loop at `T0 + 600000` exactly, and none before. When the attempt
awaits its request, no check is pending until the outcome arrives; when it
arrives at `T0 + d` (and no `TypeError` aborts `sync()`), the next attempt of
the scheduling loop is at `T0 + 600000` or at `T0 + d`, whichever is later,
and none before: within `[T0 + 600000, T0 + 660000]` exactly when
`d <= 660000`. -/
theorem enable_idle_ceiling (key_remote key_local : ItemId → Key) (c : Closure) (T0 : Nat)
    (w0 : World) (hd : w0.enabled = false) (ht : w0.timers = [])
    (hk : token_ok c.token = true) :
    attempts (enable c T0 w0).log = attempts w0.log ++ [(Caller.loop, T0)] ∧
      ((do_sync c Caller.loop T0
          { w0 with enabled := true, next := T0 + idle_sync_period }).2 = Progress.settled →
        ∃ n, loop_attempts ((tick^[n]) (enable c T0 w0)).log =
            loop_attempts w0.log ++ [T0, T0 + 600000] ∧
          ∀ m, m < n → loop_attempts ((tick^[m]) (enable c T0 w0)).log =
            loop_attempts w0.log ++ [T0]) ∧
      ((do_sync c Caller.loop T0
          { w0 with enabled := true, next := T0 + idle_sync_period }).2 = Progress.suspended →
        (enable c T0 w0).timers = [] ∧
        ∀ (r : Inflight) (out : Outcome) (d : Nat), r.caller = Caller.loop →
          sync_resume_threw key_remote key_local r.closure out (T0 + d)
            { enable c T0 w0 with inflight := (enable c T0 w0).inflight.erase r } = false →
          ∃ n, loop_attempts ((tick^[n])
                (respond key_remote key_local r out (T0 + d) (enable c T0 w0))).log =
              loop_attempts w0.log ++ [T0, max (T0 + 600000) (T0 + d)] ∧
            ∀ m, m < n → loop_attempts ((tick^[m])
                (respond key_remote key_local r out (T0 + d) (enable c T0 w0))).log =
              loop_attempts w0.log ++ [T0]) := by
  have e0 : enable c T0 w0 = prepare_sync c T0 { w0 with enabled := true, next := 0 } :=
    enable_of_disabled c T0 w0 hd
  have ea : attempts (enable c T0 w0).log = attempts w0.log ++ [(Caller.loop, T0)] := by
    rw [e0]
    exact prepare_sync_attempts_of_due c T0 { w0 with enabled := true, next := 0 } rfl
      (Nat.zero_le _)
  have el : loop_attempts (enable c T0 w0).log = loop_attempts w0.log ++ [T0] :=
    loop_attempts_of_loop _ _ _ ea
  have en : (enable c T0 w0).next = T0 + idle_sync_period := by
    rw [e0]
    exact prepare_sync_next_of_due c T0 { w0 with enabled := true, next := 0 } rfl
      (Nat.zero_le _)
  have ee : (enable c T0 w0).enabled = true := by
    rw [e0, prepare_sync_enabled c T0 _ hk]
  have e1 : enable c T0 w0 =
      if (do_sync c Caller.loop T0
          { w0 with enabled := true, next := T0 + idle_sync_period }).2 = Progress.settled then
        schedule T0 (do_sync c Caller.loop T0
          { w0 with enabled := true, next := T0 + idle_sync_period }).1
      else (do_sync c Caller.loop T0
          { w0 with enabled := true, next := T0 + idle_sync_period }).1 := by
    rw [e0]
    exact prepare_sync_of_due c T0 { w0 with enabled := true, next := 0 } rfl (Nat.zero_le _)
  obtain ⟨-, d2, d3, d4, -⟩ := do_sync_frame c Caller.loop T0
    { w0 with enabled := true, next := T0 + idle_sync_period }
  refine ⟨ea, fun hp => ?_, fun hp => ?_⟩
  · obtain ⟨-, -, -, -, -, -, -, s8⟩ := schedule_frame T0 (do_sync c Caller.loop T0
      { w0 with enabled := true, next := T0 + idle_sync_period }).1
    have htm : (enable c T0 w0).timers = [⟨w0.manager, T0 + 60000⟩] := by
      rw [e1, if_pos hp, s8, d3, d4, d2]
      simp only [idle_sync_period, op_delay_interval, ht, List.nil_append]
      congr 2
      omega
    obtain ⟨n, h1, h2⟩ := tick_until_due (T0 + idle_sync_period) _ (enable c T0 w0)
      ⟨w0.manager, T0 + 60000⟩ (le_refl _) ee en htm
    refine ⟨n, ?_, fun m hm => ?_⟩
    · rw [h1, el, max_eq_left (by simp only [idle_sync_period]; omega)]
      simp [idle_sync_period]
    · rw [h2 m hm, el]
  · have htm : (enable c T0 w0).timers = [] := by
      rw [e1, if_neg (by rw [hp]; decide), d3]
      exact ht
    refine ⟨htm, fun r out d hc hthrew => ?_⟩
    obtain ⟨r1, r2, -, r4, -, -, r7⟩ := respond_scheduler key_remote key_local r out (T0 + d)
      (enable c T0 w0)
    have rl : loop_attempts (respond key_remote key_local r out (T0 + d) (enable c T0 w0)).log =
        loop_attempts w0.log ++ [T0] := by
      rw [loop_attempts_of_attempts _ _ r1, el]
    obtain ⟨n, h1, h2⟩ := tick_until_due (T0 + idle_sync_period) _
      (respond key_remote key_local r out (T0 + d) (enable c T0 w0))
      ⟨(enable c T0 w0).manager,
        T0 + d + (min (((enable c T0 w0).next : Int) - (T0 + d : Nat)) op_delay_interval).toNat⟩
      (le_refl _) (by rw [r4]; exact ee) (by rw [r2]; exact en)
      (by rw [((r7 hthrew).2.1 hc), htm]; rfl)
    refine ⟨n, ?_, fun m hm => ?_⟩
    · rw [h1, rl]
      simp only [List.append_assoc, List.singleton_append, en, idle_sync_period,
        op_delay_interval]
      congr 3
      omega
    · rw [h2 m hm, rl]

/-- The run of C13 with the first attempt answered half a second after
`enable()` at 20 s: the next attempt of the scheduling loop is at 620 s. -/
theorem enable_idle_ceiling_witness :
    ∃ n, loop_attempts ((tick^[n])
        (respond key_remote_ex key_local_ex ⟨closure_ex [R7], [], Caller.loop⟩
          (Outcome.response 200 (Body.json (some []))) (20000 + 500)
          (enable (closure_ex [R7]) 20000
            (world_disabled [R7] (fun _ => none) item_map_ex)))).log =
          loop_attempts (world_disabled [R7] (fun _ => none) item_map_ex).log ++
            [20000, max (20000 + 600000) (20000 + 500)] ∧
        ∀ m, m < n → loop_attempts ((tick^[m])
          (respond key_remote_ex key_local_ex ⟨closure_ex [R7], [], Caller.loop⟩
            (Outcome.response 200 (Body.json (some []))) (20000 + 500)
            (enable (closure_ex [R7]) 20000
              (world_disabled [R7] (fun _ => none) item_map_ex)))).log =
          loop_attempts (world_disabled [R7] (fun _ => none) item_map_ex).log ++ [20000] :=
  ((enable_idle_ceiling key_remote_ex key_local_ex (closure_ex [R7]) 20000
    (world_disabled [R7] (fun _ => none) item_map_ex) rfl rfl rfl).2.2 (by decide)).2
    ⟨closure_ex [R7], [], Caller.loop⟩ (Outcome.response 200 (Body.json (some []))) 500 rfl
    (by decide)

/-- C13 fails as stated: after `enable()` at 20 s on a disabled scheduler the
first attempt awaits its request and no check is pending; the request fails
700 s later, and the check scheduled then starts the next attempt of the
scheduling loop at 720 s, later than 660 s after `enable()`. -/
theorem enable_idle_ceiling_counterexample :
    (world_disabled [R7] (fun _ => none) item_map_ex).enabled = false ∧
      loop_attempts (enable (closure_ex [R7]) 20000
        (world_disabled [R7] (fun _ => none) item_map_ex)).log = [20000] ∧
      (enable (closure_ex [R7]) 20000
        (world_disabled [R7] (fun _ => none) item_map_ex)).timers = [] ∧
      (enable (closure_ex [R7]) 20000
        (world_disabled [R7] (fun _ => none) item_map_ex)).inflight =
        [⟨closure_ex [R7], [], Caller.loop⟩] ∧
      (respond key_remote_ex key_local_ex ⟨closure_ex [R7], [], Caller.loop⟩
        Outcome.rejected 720000
        (enable (closure_ex [R7]) 20000
          (world_disabled [R7] (fun _ => none) item_map_ex))).timers =
        [⟨closure_ex [R7], 720000⟩] ∧
      loop_attempts (tick
        (respond key_remote_ex key_local_ex ⟨closure_ex [R7], [], Caller.loop⟩
          Outcome.rejected 720000
          (enable (closure_ex [R7]) 20000
            (world_disabled [R7] (fun _ => none) item_map_ex)))).log = [20000, 720000] ∧
      ¬ (720000 ≤ 20000 + 660000) := by
  refine ⟨rfl, by decide, by decide, by decide, by decide, by decide, by decide⟩

/-! ## Two scheduling loops after `disable()` and `enable()` -/

/-- C20 fails: `enable()` at 20 s on a disabled scheduler leaves one check
pending, due at 80 s. After `disable()` at 30 s and `enable()` at 31 s, before
that check has fired, two checks are pending, due at 80 s and at 91 s; each of
them finds the scheduler enabled when it fires and schedules its successor, so
that two checks are pending from then on. -/
theorem enable_after_disable_two_loops :
    world_synced.enabled = false ∧ world_synced.timers = [] ∧
      run_possible key_remote_ex key_local_ex world_synced
        (enable_disable_enable ++
          [(80000, Step.fire ⟨closure_ex [R7], 80000⟩),
            (91000, Step.fire ⟨closure_ex [R7], 91000⟩)]) ∧
      (run key_remote_ex key_local_ex world_synced
        [(20000, Step.enable (closure_ex [R7]))]).timers = [⟨closure_ex [R7], 80000⟩] ∧
      (run key_remote_ex key_local_ex world_synced enable_disable_enable).timers =
        [⟨closure_ex [R7], 80000⟩, ⟨closure_ex [R7], 91000⟩] ∧
      (run key_remote_ex key_local_ex world_synced enable_disable_enable).enabled = true ∧
      (run key_remote_ex key_local_ex world_synced
        (enable_disable_enable ++
          [(80000, Step.fire ⟨closure_ex [R7], 80000⟩),
            (91000, Step.fire ⟨closure_ex [R7], 91000⟩)])).timers =
        [⟨closure_ex [R7], 140000⟩, ⟨closure_ex [R7], 151000⟩] := by
  refine ⟨rfl, rfl, ?_, by decide, by decide, by decide, by decide⟩
  show _ ∧ _ ∧ _ ∧ (_ ∈ _) ∧ (_ ∈ _) ∧ True
  refine ⟨trivial, trivial, trivial, by decide, by decide, trivial⟩

/-! ## Renames -/

theorem mem_spec_new_list (list remove_set add_list : List ItemId) (id : ItemId) :
    id ∈ spec_new_list list remove_set add_list ↔
      id ∈ add_list ∨ (id ∈ list ∧ id ∉ remove_set) := by
  unfold spec_new_list
  rw [mem_sort, List.mem_append, List.mem_filter]
  simp only [decide_eq_true_eq]
  tauto

theorem mem_removed_of_onMove (log : List Event) (id id_new : ItemId)
    (h : Event.onMove id id_new ∈ log) : id ∈ removed log := by
  unfold removed
  rw [List.mem_filterMap]
  exact ⟨_, h, rfl⟩

theorem mem_moved_to_iff (log : List Event) (id_new : ItemId) :
    id_new ∈ moved_to log ↔ ∃ id, Event.onMove id id_new ∈ log := by
  unfold moved_to
  rw [List.mem_filterMap]
  constructor
  · rintro ⟨e, he, h⟩
    cases e <;> simp at h
    subst h
    exact ⟨_, he⟩
  · rintro ⟨id, h⟩
    exact ⟨_, h, rfl⟩

theorem sync_apply_item_map (key_remote key_local : ItemId → Key) (now : Nat)
    (list : List ItemId) (remote : List Item) (w : World) :
    (sync_apply key_remote key_local now list remote w).item_map =
      (sync_run key_remote key_local list remote w).item_map := by
  unfold sync_apply
  cases h : (sync_run key_remote key_local list remote w).threw <;> simp [h, onSync]

/-- An id of the old list is not added by the engine itself when no id occurs
twice in the authoritative array. -/
theorem not_mem_new_ids (list : List ItemId) (remote : List Item) (id : ItemId)
    (hn : (remote.map Item.id).Nodup) (hid : id ∈ list) : id ∉ new_ids list remote := by
  unfold new_ids
  rw [unmatched_eq_filter _ _ hn, List.mem_map]
  rintro ⟨item, hi, rfl⟩
  rw [List.mem_filter] at hi
  have := hi.2
  simp [mem_foldl_set_add] at this
  exact this hid

/-- C18, as amended: in a run of `sync()` that completes and in which a merge
calls `onMove(old, new)`, the new WorkingList contains `new` and the
controller registered under `old` is gone from `item_map`. The new WorkingList
does not contain `old` if and only if no `onMove` hands `old` over as a new id
and `old` is not the id of a record kept by `remote.filter`; in particular,
when `old` is in the WorkingList, no id occurs twice in the authoritative
array and no `onMove` names `old` as its new id. -/
theorem sync_rename (key_remote key_local : ItemId → Key) (now : Nat) (list : List ItemId)
    (remote : List Item) (w : World) (old new : ItemId)
    (h : (sync_run key_remote key_local list remote w).threw = false)
    (hm : Event.onMove old new ∈ (sync_run key_remote key_local list remote w).log) :
    new ∈ (sync_apply key_remote key_local now list remote w).list ∧
      (sync_apply key_remote key_local now list remote w).item_map old = none ∧
      (old ∉ (sync_apply key_remote key_local now list remote w).list ↔
        old ∉ moved_to (sync_run key_remote key_local list remote w).log ∧
          old ∉ new_ids list remote) ∧
      (old ∈ list → (remote.map Item.id).Nodup →
        (∀ x, Event.onMove x old ∉ (sync_run key_remote key_local list remote w).log) →
        old ∉ (sync_apply key_remote key_local now list remote w).list) := by
  have hold : old ∈ removed (sync_run key_remote key_local list remote w).log :=
    mem_removed_of_onMove _ old new hm
  have hnew : new ∈ moved_to (sync_run key_remote key_local list remote w).log :=
    (mem_moved_to_iff _ new).2 ⟨old, hm⟩
  have hiff : old ∉ (sync_apply key_remote key_local now list remote w).list ↔
      old ∉ moved_to (sync_run key_remote key_local list remote w).log ∧
        old ∉ new_ids list remote := by
    rw [sync_apply_list key_remote key_local now list remote w h, mem_spec_new_list,
      List.mem_append]
    constructor
    · intro hno
      exact ⟨fun hx => hno (Or.inl (Or.inl hx)), fun hx => hno (Or.inl (Or.inr hx))⟩
    · rintro ⟨h1, h2⟩ (hx | hx)
      · rcases hx with hx | hx
        · exact h1 hx
        · exact h2 hx
      · exact hx.2 hold
  refine ⟨?_, ?_, hiff, fun hl hn hx => ?_⟩
  · rw [sync_apply_list key_remote key_local now list remote w h, mem_spec_new_list,
      List.mem_append]
    exact Or.inl (Or.inl hnew)
  · rw [sync_apply_item_map, (sync_run_ok key_remote key_local list remote w h).2.2.1 old,
      if_pos hold]
  · rw [hiff]
    refine ⟨fun hmv => ?_, not_mem_new_ids list remote old hn hl⟩
    obtain ⟨x, hx'⟩ := (mem_moved_to_iff _ old).1 hmv
    exact hx x hx'

/-- The run of C18 of the specification: `L1` with LocalRecord
`{ ref: 0, ver: 1, val: "x" }` is confirmed as `R7`; the new WorkingList
contains `R7` and not `L1`, and `L1` has no controller any more. -/
theorem sync_rename_witness :
    (sync_apply key_remote_ex key_local_ex 5 [L1] [⟨L1, 1, Val.str "x"⟩]
        (world_ex [L1] (store_local L1 ⟨some 0, 1, Val.str "x"⟩) item_map_ex)).list = [R7] ∧
      R7 ∈ (sync_apply key_remote_ex key_local_ex 5 [L1] [⟨L1, 1, Val.str "x"⟩]
        (world_ex [L1] (store_local L1 ⟨some 0, 1, Val.str "x"⟩) item_map_ex)).list ∧
      L1 ∉ (sync_apply key_remote_ex key_local_ex 5 [L1] [⟨L1, 1, Val.str "x"⟩]
        (world_ex [L1] (store_local L1 ⟨some 0, 1, Val.str "x"⟩) item_map_ex)).list :=
  ⟨by decide,
    (sync_rename key_remote_ex key_local_ex 5 [L1] [⟨L1, 1, Val.str "x"⟩]
      (world_ex [L1] (store_local L1 ⟨some 0, 1, Val.str "x"⟩) item_map_ex) L1 R7
      (by decide) (by decide)).1,
    (sync_rename key_remote_ex key_local_ex 5 [L1] [⟨L1, 1, Val.str "x"⟩]
      (world_ex [L1] (store_local L1 ⟨some 0, 1, Val.str "x"⟩) item_map_ex) L1 R7
      (by decide) (by decide)).2.2.2 (by decide) (by decide)
      (by
        intro x hx
        have hlog : (sync_run key_remote_ex key_local_ex [L1] [⟨L1, 1, Val.str "x"⟩]
            (world_ex [L1] (store_local L1 ⟨some 0, 1, Val.str "x"⟩) item_map_ex)).log =
            [Event.merge L1 (some ⟨L1, 1, Val.str "x"⟩), Event.onMove L1 R7] := by decide
        rw [hlog] at hx
        simp [L1, R7] at hx)⟩

/-- C18 fails as stated. With `L1` twice in the authoritative array, the first
record is merged and the controller calls `onMove(L1, R7)`; the second record
is kept by `remote.filter` and `L1` is added again: the new WorkingList is
`[L1, R7]`. And when the controller of `L1` calls `onMove(L1, R7)` while the
one of `R7` calls `onMove(R7, L1)`, on an empty array, the new WorkingList is
`[L1, R7]` again. In both runs `sync()` completes, `L1` is in the old list and
the new id differs from it. -/
theorem sync_rename_counterexample :
    (sync_run key_remote_ex key_local_ex [L1] [⟨L1, 1, Val.str "x"⟩, ⟨L1, 1, Val.str "x"⟩]
        (world_ex [L1] (fun _ => none) item_map_ex)).threw = false ∧
      Event.onMove L1 R7 ∈
        (sync_run key_remote_ex key_local_ex [L1] [⟨L1, 1, Val.str "x"⟩, ⟨L1, 1, Val.str "x"⟩]
          (world_ex [L1] (fun _ => none) item_map_ex)).log ∧
      (sync_apply key_remote_ex key_local_ex 5 [L1]
        [⟨L1, 1, Val.str "x"⟩, ⟨L1, 1, Val.str "x"⟩]
        (world_ex [L1] (fun _ => none) item_map_ex)).list = [L1, R7] ∧
      (sync_run key_remote_ex key_local_ex [L1, R7] []
        (world_ex [L1, R7] (fun _ => none) item_map_swap)).threw = false ∧
      Event.onMove L1 R7 ∈
        (sync_run key_remote_ex key_local_ex [L1, R7] []
          (world_ex [L1, R7] (fun _ => none) item_map_swap)).log ∧
      (sync_apply key_remote_ex key_local_ex 5 [L1, R7] []
        (world_ex [L1, R7] (fun _ => none) item_map_swap)).list = [L1, R7] ∧
      L1 ≠ R7 := by
  refine ⟨by decide, by decide, by decide, by decide, by decide, by decide, by decide⟩

/-! ## LocalRecords after reconciliation -/

/-- After the loop over `new_item_list`, a LocalRecord `{ ref: ver, ver, val: null }`
is stored under the local key of each of its ids. -/
theorem foldl_persist_has_local (key_remote key_local : ItemId → Key) (items : List Item)
    (s : Sync) (h : s.threw = false) (hkl : Function.Injective key_local)
    (hd : ∀ a b, key_remote a ≠ key_local b) (id : ItemId) (hi : id ∈ items.map Item.id) :
    ∃ item ∈ items, item.id = id ∧
      (items.foldl (persist key_remote key_local) s).store (key_local id) =
        some ⟨some item.ver, item.ver, Val.null⟩ := by
  induction items generalizing s with
  | nil => cases hi
  | cons a rest ih =>
    obtain ⟨e1, e2⟩ := persist_of_ok key_remote key_local s a h
    rw [List.foldl_cons]
    by_cases hr : id ∈ rest.map Item.id
    · obtain ⟨item, hm, hid, hs⟩ := ih _ e2 hr
      exact ⟨item, List.mem_cons_of_mem _ hm, hid, hs⟩
    · have ha : a.id = id := by
        rw [List.map_cons, List.mem_cons] at hi
        rcases hi with hi | hi
        · exact hi.symm
        · exact absurd hi hr
      refine ⟨a, List.mem_cons_self _ _, ha, ?_⟩
      rw [foldl_persist_store_other key_remote key_local rest _ _ e2
        (fun x hx => ⟨fun e => hd _ _ e.symm,
          fun e => hr (List.mem_map.2 ⟨x, hx, (hkl e).symm⟩)⟩), e1, ← ha]
      simp [Store.set]

theorem sync_only_local_completes (key_remote key_local : ItemId → Key) (list : List ItemId)
    (remote : List Item) (w : World)
    (h : (sync_run key_remote key_local list remote w).threw = false) :
    (sync_only_local (sync_matched list remote w).1).threw = false := by
  cases h' : (sync_only_local (sync_matched list remote w).1).threw with
  | false => rfl
  | true =>
    unfold sync_run at h
    rw [foldl_persist_of_threw _ _ _ _ h', h'] at h
    cases h

theorem sync_matched_completes (list : List ItemId) (remote : List Item) (w : World)
    (h : (sync_only_local (sync_matched list remote w).1).threw = false) :
    (sync_matched list remote w).1.threw = false := by
  cases h' : (sync_matched list remote w).1.threw with
  | false => rfl
  | true =>
    unfold sync_only_local at h
    rw [foldl_merge_none_of_threw _ _ h', h'] at h
    cases h

theorem sync_matched_snd (key_remote key_local : ItemId → Key) (list : List ItemId)
    (remote : List Item) (w : World)
    (h : (sync_run key_remote key_local list remote w).threw = false) :
    (sync_matched list remote w).2 = unmatched (list.foldl set_add []) remote := by
  have h2 := sync_only_local_completes key_remote key_local list remote w h
  have h3 := sync_matched_completes list remote w h2
  have := (foldl_filter_step_ok remote (sync_init list w, []) h3).2.1
  simpa [sync_matched, sync_init] using this

/-- C17, as amended: in a run of `sync()` that completes (the local keys of
distinct ids being distinct, and distinct from the remote keys), the store
holds, for every id the engine adds itself, the LocalRecord
`{ ref: ver, ver, val: null }` of a record of the authoritative array, which
satisfies `ver >= ref`; under the local key of any other id it holds what the
controllers' merges left there. So every id of the new WorkingList has a
LocalRecord with `ver >= ref`, provided the merges left one for every id that
stays in the list and for every new id of a rename. -/
theorem sync_local_records (key_remote key_local : ItemId → Key) (now : Nat)
    (list : List ItemId) (remote : List Item) (w : World)
    (h : (sync_run key_remote key_local list remote w).threw = false)
    (hkl : Function.Injective key_local) (hd : ∀ a b, key_remote a ≠ key_local b) :
    (∀ id ∈ new_ids list remote,
        ∃ item ∈ remote, item.id = id ∧
          (sync_apply key_remote key_local now list remote w).store (key_local id) =
            some ⟨some item.ver, item.ver, Val.null⟩) ∧
      (∀ id, id ∉ new_ids list remote →
        (sync_apply key_remote key_local now list remote w).store (key_local id) =
          (sync_only_local (sync_matched list remote w).1).store (key_local id)) ∧
      ((∀ id, (id ∈ list ∧ id ∉ removed (sync_run key_remote key_local list remote w).log) ∨
            id ∈ moved_to (sync_run key_remote key_local list remote w).log →
          has_local (sync_only_local (sync_matched list remote w).1).store (key_local id)) →
        ∀ id ∈ (sync_apply key_remote key_local now list remote w).list,
          has_local (sync_apply key_remote key_local now list remote w).store
            (key_local id)) := by
  have h2 := sync_only_local_completes key_remote key_local list remote w h
  have hsnd := sync_matched_snd key_remote key_local list remote w h
  have hstore : (sync_apply key_remote key_local now list remote w).store =
      ((unmatched (list.foldl set_add []) remote).foldl (persist key_remote key_local)
        (sync_only_local (sync_matched list remote w).1)).store := by
    rw [sync_apply_store, ← hsnd]
    rfl
  have hsub : ∀ item ∈ unmatched (list.foldl set_add []) remote, item ∈ remote := by
    intro item hi
    have : ∀ (cis : List ItemId) (r : List Item), item ∈ unmatched cis r → item ∈ r := by
      intro cis r
      induction r generalizing cis with
      | nil => intro hx; cases hx
      | cons a rest ih =>
        unfold unmatched
        split
        · intro hx; exact List.mem_cons_of_mem _ (ih _ hx)
        · intro hx
          rcases List.mem_cons.1 hx with hx | hx
          · rw [hx]; exact List.mem_cons_self _ _
          · exact List.mem_cons_of_mem _ (ih _ hx)
    exact this _ _ hi
  have hnew : ∀ id ∈ new_ids list remote,
      ∃ item ∈ remote, item.id = id ∧
        (sync_apply key_remote key_local now list remote w).store (key_local id) =
          some ⟨some item.ver, item.ver, Val.null⟩ := by
    intro id hid
    obtain ⟨item, hm, hi, hs⟩ := foldl_persist_has_local key_remote key_local _ _ h2 hkl hd id hid
    exact ⟨item, hsub item hm, hi, by rw [hstore]; exact hs⟩
  have hother : ∀ id, id ∉ new_ids list remote →
      (sync_apply key_remote key_local now list remote w).store (key_local id) =
        (sync_only_local (sync_matched list remote w).1).store (key_local id) := by
    intro id hid
    rw [hstore]
    exact foldl_persist_store_other key_remote key_local _ _ _ h2
      (fun x hx => ⟨fun e => hd _ _ e.symm,
        fun e => hid (List.mem_map.2 ⟨x, hx, (hkl e).symm⟩)⟩)
  refine ⟨hnew, hother, fun hm id hid => ?_⟩
  by_cases hn : id ∈ new_ids list remote
  · obtain ⟨item, -, -, hs⟩ := hnew id hn
    exact ⟨_, item.ver, hs, rfl, le_refl _⟩
  · have hx : (id ∈ list ∧ id ∉ removed (sync_run key_remote key_local list remote w).log) ∨
        id ∈ moved_to (sync_run key_remote key_local list remote w).log := by
      rw [sync_apply_list key_remote key_local now list remote w h, mem_spec_new_list,
        List.mem_append] at hid
      rcases hid with (hid | hid) | hid
      · exact Or.inr hid
      · exact absurd hid hn
      · exact Or.inl hid
    obtain ⟨loc, r, a, b, c⟩ := hm id hx
    exact ⟨loc, r, by rw [hother id hn]; exact a, b, c⟩

/-- The run of C17 on the list `[R7]` with the records of `store_R7`, against
an array with the new record `R9`: both ids of the new list `[R7, R9]` have a
LocalRecord with `ver >= ref`. -/
theorem sync_local_records_witness :
    (sync_apply key_remote_ex key_local_ex 5 [R7] [⟨R9, 1, Val.str "y"⟩]
        (world_ex [R7] store_R7 item_map_ex)).list = [R7, R9] ∧
      ∀ id ∈ (sync_apply key_remote_ex key_local_ex 5 [R7] [⟨R9, 1, Val.str "y"⟩]
          (world_ex [R7] store_R7 item_map_ex)).list,
        has_local (sync_apply key_remote_ex key_local_ex 5 [R7] [⟨R9, 1, Val.str "y"⟩]
          (world_ex [R7] store_R7 item_map_ex)).store (key_local_ex id) :=
  ⟨by decide,
    (sync_local_records key_remote_ex key_local_ex 5 [R7] [⟨R9, 1, Val.str "y"⟩]
      (world_ex [R7] store_R7 item_map_ex) (by decide) key_local_ex_injective
      key_ex_disjoint).2.2
      (by
        intro id hid
        have hl : (sync_run key_remote_ex key_local_ex [R7] [⟨R9, 1, Val.str "y"⟩]
            (world_ex [R7] store_R7 item_map_ex)).log =
            [Event.merge R7 none,
              Event.write (key_remote_ex R9) (some ⟨none, 1, Val.str "y"⟩),
              Event.write (key_local_ex R9) (some ⟨some 1, 1, Val.null⟩)] := by decide
        rw [hl] at hid
        have hid' : id = R7 := by
          rcases hid with ⟨hid, -⟩ | hid
          · simpa using hid
          · simp [moved_to] at hid
        subst hid'
        exact ⟨⟨some 3, 5, Val.str "y"⟩, 3, by decide, rfl, by decide⟩)⟩

/-- C17 fails as stated: `R7` is in the list with nothing stored under its
keys, as after `onCreate`; its controller keeps the item when merged with
`null`; `sync()` completes, `R7` is in the new WorkingList and no LocalRecord
is stored under `key_local(R7)`. -/
theorem sync_local_records_counterexample :
    (sync_run key_remote_ex key_local_ex [R7] []
        (world_ex [R7] (fun _ => none) item_map_ex)).threw = false ∧
      (sync_apply key_remote_ex key_local_ex 5 [R7] []
        (world_ex [R7] (fun _ => none) item_map_ex)).list = [R7] ∧
      (sync_apply key_remote_ex key_local_ex 5 [R7] []
        (world_ex [R7] (fun _ => none) item_map_ex)).store (key_local_ex R7) = none ∧
      ¬ has_local (sync_apply key_remote_ex key_local_ex 5 [R7] []
        (world_ex [R7] (fun _ => none) item_map_ex)).store (key_local_ex R7) := by
  refine ⟨by decide, by decide, by decide, ?_⟩
  rintro ⟨loc, r, h, -⟩
  have e : (sync_apply key_remote_ex key_local_ex 5 [R7] []
      (world_ex [R7] (fun _ => none) item_map_ex)).store (key_local_ex R7) = none := by decide
  rw [e] at h
  cases h

/-! ## A second reconciliation with the same array -/

theorem quiet_merge (l : List ItemId) (S : Store) (m : ItemId → Option Controller)
    (hq : ∀ id ∈ l, ∃ c, m id = some c ∧ ∀ arg, c.merge arg S = ([], S))
    (s : Sync) (id : ItemId) (remote : Option Item) (h : s.Quiet l S m) (hid : id ∈ l) :
    (s.merge id remote).Quiet l S m := by
  obtain ⟨c, hc, hm⟩ := hq id hid
  have hc' : s.item_map id = some c := by rw [h.item_map, hc]
  rw [merge_of_some s id remote c h.threw hc', h.store, hm remote]
  exact ⟨h.threw, rfl, h.item_map, h.set_delete, h.list_add, h.current⟩

theorem quiet_filter_step (l : List ItemId) (S : Store) (m : ItemId → Option Controller)
    (hq : ∀ id ∈ l, ∃ c, m id = some c ∧ ∀ arg, c.merge arg S = ([], S))
    (acc : Sync × List Item) (item : Item) (h : acc.1.Quiet l S m) :
    (filter_step acc item).1.Quiet l S m := by
  unfold filter_step
  rw [if_neg (by simp [h.threw])]
  split
  · rename_i hin
    exact quiet_merge l S m hq _ item.id (some item)
      ⟨h.threw, h.store, h.item_map, h.set_delete, h.list_add,
        fun x hx => h.current x ((mem_set_delete_id _ _ _).1 hx).1⟩ (h.current _ hin)
  · exact h

theorem quiet_foldl_filter_step (l : List ItemId) (S : Store) (m : ItemId → Option Controller)
    (hq : ∀ id ∈ l, ∃ c, m id = some c ∧ ∀ arg, c.merge arg S = ([], S))
    (remote : List Item) (acc : Sync × List Item) (h : acc.1.Quiet l S m) :
    (remote.foldl filter_step acc).1.Quiet l S m := by
  induction remote generalizing acc with
  | nil => exact h
  | cons item rest ih => exact ih _ (quiet_filter_step l S m hq acc item h)

theorem quiet_foldl_merge_none (l : List ItemId) (S : Store) (m : ItemId → Option Controller)
    (hq : ∀ id ∈ l, ∃ c, m id = some c ∧ ∀ arg, c.merge arg S = ([], S))
    (ids : List ItemId) (hids : ∀ x ∈ ids, x ∈ l) (s : Sync) (h : s.Quiet l S m) :
    (ids.foldl (fun s id => Sync.merge s id none) s).Quiet l S m := by
  induction ids generalizing s with
  | nil => exact h
  | cons id rest ih =>
    exact ih (fun x hx => hids x (List.mem_cons_of_mem _ hx)) _
      (quiet_merge l S m hq s id none h (hids id (List.mem_cons_self _ _)))

/-- A run of `sync()` on a list all of whose controllers answer every merge
without callback and without store write, against an array of distinct ids
that are all in the list: it completes, and it changes neither the store nor
the bookkeeping of the list. -/
theorem sync_run_quiet (key_remote key_local : ItemId → Key) (l : List ItemId)
    (remote : List Item) (w : World)
    (hq : ∀ id ∈ l, ∃ c, w.item_map id = some c ∧ ∀ arg, c.merge arg w.store = ([], w.store))
    (hn : (remote.map Item.id).Nodup) (ha : ∀ item ∈ remote, item.id ∈ l) :
    (sync_run key_remote key_local l remote w).Quiet l w.store w.item_map := by
  have q0 : (sync_init l w).Quiet l w.store w.item_map :=
    ⟨rfl, rfl, rfl, rfl, rfl, fun x hx => by simpa [sync_init, mem_foldl_set_add] using hx⟩
  have q1 : (sync_matched l remote w).1.Quiet l w.store w.item_map :=
    quiet_foldl_filter_step l w.store w.item_map hq remote (sync_init l w, []) q0
  have q2 : (sync_only_local (sync_matched l remote w).1).Quiet l w.store w.item_map :=
    quiet_foldl_merge_none l w.store w.item_map hq _ q1.current _ q1
  have hsnd : (sync_matched l remote w).2 = [] := by
    have := (foldl_filter_step_ok remote (sync_init l w, []) q1.threw).2.1
    rw [show (sync_matched l remote w).2 = (remote.foldl filter_step (sync_init l w, [])).2
      from rfl, this, unmatched_eq_filter _ _ hn]
    simp only [List.nil_append, List.filter_eq_nil_iff]
    intro item hi
    have : item.id ∈ (sync_init l w).current_item_set := by
      simpa [sync_init, mem_foldl_set_add] using ha item hi
    simpa using this
  unfold sync_run
  rw [hsnd]
  exact q2

theorem sort_of_sorted (l : List ItemId) (h : l.Sorted IdLe) : sort l = l :=
  List.Sorted.insertionSort_eq h

/-- C16, as amended: let `w1` be the state after a reconciliation that
completed. A second reconciliation of the list of `w1` with the same
authoritative array completes and leaves the WorkingList and every stored
record as they are in `w1`, provided that no id occurs twice in the array,
that every id of the array is in the list of `w1` (the first reconciliation
removed none of them), and that the controllers registered for the ids of that
list answer a merge on the store of `w1` without callback and without store
write. -/
theorem sync_idempotent (key_remote key_local : ItemId → Key) (now now' : Nat)
    (list : List ItemId) (remote : List Item) (w w1 : World)
    (m : ItemId → Option Controller)
    (hw1 : w1 = sync_apply key_remote key_local now list remote w)
    (h : (sync_run key_remote key_local list remote w).threw = false)
    (hn : (remote.map Item.id).Nodup)
    (ha : ∀ item ∈ remote, item.id ∈ w1.list)
    (hq : ∀ id ∈ w1.list, ∃ c, m id = some c ∧ ∀ arg, c.merge arg w1.store = ([], w1.store)) :
    (sync_run key_remote key_local w1.list remote { w1 with item_map := m }).threw = false ∧
      (sync_apply key_remote key_local now' w1.list remote { w1 with item_map := m }).list =
        w1.list ∧
      (sync_apply key_remote key_local now' w1.list remote { w1 with item_map := m }).store =
        w1.store := by
  have q := sync_run_quiet key_remote key_local w1.list remote { w1 with item_map := m } hq hn ha
  have hs : w1.list.Sorted IdLe := by
    rw [hw1, sync_apply_list key_remote key_local now list remote w h]
    exact sort_sorted _
  refine ⟨q.threw, ?_, ?_⟩
  · rw [sync_apply_list key_remote key_local now' w1.list remote _ q.threw,
      ← sync_new_list_eq key_remote key_local w1.list remote _ q.threw]
    unfold sync_new_list
    rw [q.set_delete, q.list_add]
    simp only [List.not_mem_nil, not_false_eq_true, decide_True, List.filter_true,
      List.append_nil]
    exact sort_of_sorted _ hs
  · rw [sync_apply_store]
    exact q.store

/-- The run of C16 on the list `[R7]` against an array with the known record
`R7` and the new record `R9`: the first reconciliation gives `[R7, R9]`, and
the second one leaves list and store as they are. -/
theorem sync_idempotent_witness :
    (sync_apply key_remote_ex key_local_ex 5 [R7]
        [⟨R7, 3, Val.str "x"⟩, ⟨R9, 1, Val.str "y"⟩]
        (world_ex [R7] store_R7 item_map_ex)).list = [R7, R9] ∧
      (sync_apply key_remote_ex key_local_ex 6 [R7, R9]
        [⟨R7, 3, Val.str "x"⟩, ⟨R9, 1, Val.str "y"⟩]
        { sync_apply key_remote_ex key_local_ex 5 [R7]
            [⟨R7, 3, Val.str "x"⟩, ⟨R9, 1, Val.str "y"⟩]
            (world_ex [R7] store_R7 item_map_ex) with item_map := item_map_ex }).list =
        [R7, R9] :=
  ⟨by decide,
    (sync_idempotent key_remote_ex key_local_ex 5 6 [R7]
      [⟨R7, 3, Val.str "x"⟩, ⟨R9, 1, Val.str "y"⟩] (world_ex [R7] store_R7 item_map_ex)
      (sync_apply key_remote_ex key_local_ex 5 [R7]
        [⟨R7, 3, Val.str "x"⟩, ⟨R9, 1, Val.str "y"⟩] (world_ex [R7] store_R7 item_map_ex))
      item_map_ex rfl (by decide) (by decide) (by decide)
      (by
        intro id hid
        have hl : (sync_apply key_remote_ex key_local_ex 5 [R7]
            [⟨R7, 3, Val.str "x"⟩, ⟨R9, 1, Val.str "y"⟩]
            (world_ex [R7] store_R7 item_map_ex)).list = [R7, R9] := by decide
        rw [hl] at hid
        have hid' : id = R7 ∨ id = R9 := by simpa using hid
        rcases hid' with rfl | rfl
        · exact ⟨controller_keep, rfl, fun _ => rfl⟩
        · exact ⟨controller_keep, rfl, fun _ => rfl⟩)).2.1⟩

/-- C16 fails as stated. The controller of `R7` answers the merge with
`onRemove(R7)`: the first reconciliation gives the empty list, and the second
one, with the same array, finds `R7` unknown, stores fresh records for it and
gives `[R7]`. And after the rename of `L1` to `R7` on an array that names `L1`,
the second reconciliation finds `L1` unknown and gives `[L1, R7]` instead of
`[R7]`. All four runs complete. -/
theorem sync_idempotent_counterexample :
    (sync_run key_remote_ex key_local_ex [R7] [⟨R7, 2, Val.null⟩]
        (world_ex [R7] (fun _ => none) item_map_remove)).threw = false ∧
      (sync_apply key_remote_ex key_local_ex 5 [R7] [⟨R7, 2, Val.null⟩]
        (world_ex [R7] (fun _ => none) item_map_remove)).list = [] ∧
      (sync_apply key_remote_ex key_local_ex 5 [R7] [⟨R7, 2, Val.null⟩]
        (world_ex [R7] (fun _ => none) item_map_remove)).store (key_local_ex R7) = none ∧
      (sync_run key_remote_ex key_local_ex [] [⟨R7, 2, Val.null⟩]
        (sync_apply key_remote_ex key_local_ex 5 [R7] [⟨R7, 2, Val.null⟩]
          (world_ex [R7] (fun _ => none) item_map_remove))).threw = false ∧
      (sync_apply key_remote_ex key_local_ex 6 [] [⟨R7, 2, Val.null⟩]
        (sync_apply key_remote_ex key_local_ex 5 [R7] [⟨R7, 2, Val.null⟩]
          (world_ex [R7] (fun _ => none) item_map_remove))).list = [R7] ∧
      (sync_apply key_remote_ex key_local_ex 6 [] [⟨R7, 2, Val.null⟩]
        (sync_apply key_remote_ex key_local_ex 5 [R7] [⟨R7, 2, Val.null⟩]
          (world_ex [R7] (fun _ => none) item_map_remove))).store (key_local_ex R7) =
        some ⟨some 2, 2, Val.null⟩ ∧
      (sync_apply key_remote_ex key_local_ex 5 [L1] [⟨L1, 1, Val.str "x"⟩]
        (world_ex [L1] (store_local L1 ⟨some 0, 1, Val.str "x"⟩) item_map_ex)).list = [R7] ∧
      (sync_run key_remote_ex key_local_ex [R7] [⟨L1, 1, Val.str "x"⟩]
        (sync_apply key_remote_ex key_local_ex 5 [L1] [⟨L1, 1, Val.str "x"⟩]
          (world_ex [L1] (store_local L1 ⟨some 0, 1, Val.str "x"⟩) item_map_ex))).threw =
        false ∧
      (sync_apply key_remote_ex key_local_ex 6 [R7] [⟨L1, 1, Val.str "x"⟩]
        (sync_apply key_remote_ex key_local_ex 5 [L1] [⟨L1, 1, Val.str "x"⟩]
          (world_ex [L1] (store_local L1 ⟨some 0, 1, Val.str "x"⟩) item_map_ex))).list =
        [L1, R7] := by
  refine ⟨by decide, by decide, by decide, by decide, by decide, by decide, by decide,
    by decide, by decide⟩

/-! ## When a `TypeError` aborts `sync()` -/

/-- A call of `do_sync` that a `TypeError` aborts found the `syncing` flag
down and raised it; no request went out, and nothing lowers the flag. -/
theorem do_sync_of_threw (c : Closure) (caller : Caller) (now : Nat) (w : World)
    (h : (do_sync c caller now w).2 = Progress.threw) :
    w.syncing = false ∧
      (do_sync c caller now w).1.syncing = true ∧
      (do_sync c caller now w).1.inflight = w.inflight ∧
      fetches (do_sync c caller now w).1.log = fetches w.log := by
  rcases do_sync_cases c caller now w with
    ⟨-, e⟩ | ⟨-, -, e⟩ | ⟨-, -, -, e⟩ | ⟨-, -, hs, ⟨body, e⟩ | e⟩
  · rw [e] at h; simp at h
  · rw [e] at h; simp at h
  · rw [e] at h; simp at h
  · rw [e] at h; simp at h
  · refine ⟨hs, ?_⟩
    rw [e]
    simp [setSyncing, fetches, List.filterMap_append]

/-- The end of `fetch_sync` never moves the last-sync time. -/
theorem fetch_sync_response_time (out : Outcome) (now : Nat) (w : World) :
    (fetch_sync_response out now w).2.time = w.time := by
  unfold fetch_sync_response
  cases out with
  | rejected => simp [onSync]
  | response status body =>
    by_cases h200 : status = 200
    · cases body <;> simp [h200, onSync, setError]
    · by_cases h404 : status = 404
      · simp [h404, setTokenNull]
      · by_cases h429 : status = 429
        · simp [h429, setError]
        · simp [h200, h404, h429, onSync]

/-- An attempt for which `fetch_sync` returns `null` leaves the last-sync time
as it was. -/
theorem respond_time_of_failure (key_remote key_local : ItemId → Key) (r : Inflight)
    (out : Outcome) (now : Nat) (w : World)
    (h : (fetch_sync_response out now { w with inflight := w.inflight.erase r }).1 = none) :
    (respond key_remote key_local r out now w).time = w.time := by
  have ht := sync_resume_threw_of_none key_remote key_local r.closure out now _ h
  have hr : (sync_resume key_remote key_local r.closure out now
      { w with inflight := w.inflight.erase r }).time = w.time := by
    unfold sync_resume
    rw [h]
    exact fetch_sync_response_time out now _
  have e : (do_sync_resume key_remote key_local r.closure out now
      { w with inflight := w.inflight.erase r }).1.time = w.time ∧
      (do_sync_resume key_remote key_local r.closure out now
      { w with inflight := w.inflight.erase r }).2 = Progress.settled := by
    simp only [do_sync_resume, ht]
    exact ⟨hr, rfl⟩
  unfold respond
  generalize do_sync_resume key_remote key_local r.closure out now
    { w with inflight := w.inflight.erase r } = d at e
  obtain ⟨w1, p⟩ := d
  obtain ⟨e1, e2⟩ := e
  simp only at e1 e2
  subst e2
  cases r.caller
  · simpa [schedule] using e1
  · simpa using e1

/-- A call of `do_sync` with a session token, past the rate guard and with the
`syncing` flag down, is not skipped: it raises the flag and enters `sync()`,
and when it comes to await, one request has gone out. -/
theorem do_sync_of_free (c : Closure) (caller : Caller) (now : Nat) (w : World)
    (ht : token_ok c.token = true) (hr : ¬ now < w.time + min_sync_interval)
    (hs : w.syncing = false) :
    (do_sync c caller now w).2 ≠ Progress.settled ∧
      (do_sync c caller now w).1.syncing = true ∧
      ((do_sync c caller now w).2 = Progress.suspended →
        ∃ body, fetches (do_sync c caller now w).1.log = fetches w.log ++ [body]) := by
  rcases do_sync_cases c caller now w with
    ⟨h, -⟩ | ⟨-, h, -⟩ | ⟨-, -, h, -⟩ | ⟨-, -, -, ⟨body, e⟩ | e⟩
  · rw [ht] at h; exact absurd h (by decide)
  · exact absurd h hr
  · rw [hs] at h; exact absurd h (by decide)
  · rw [e]
    refine ⟨by simp, by simp [fetch_sync_request, setSyncing], fun _ => ⟨body, ?_⟩⟩
    simp [fetch_sync_request, setSyncing, fetches, List.filterMap_append]
  · rw [e]
    exact ⟨by simp, by simp [setSyncing], fun h => by simp at h⟩

/-! ## One step of the scheduling loop -/

/-- C12, as amended: one step of the scheduling loop. If the scheduler is
disabled, `prepare_sync` changes nothing: no attempt, no further check. If it
is enabled and `now < next`, it makes no attempt, leaves `next` unchanged and
schedules exactly one check after `min(next - now, 60000)` ms. If it is enabled
and `now >= next`, it sets `next = now + 600000` before `do_sync` is invoked
and makes exactly one `do_sync` call; when that call settles at once, exactly
one check is scheduled, after 60000 ms; when it awaits its request, no check is
scheduled until the outcome arrives, and then exactly one is, after
`min(next - now, 60000)` ms with the values of that moment; when a `TypeError`
aborts `sync()`, before the request or after its outcome, no check is
scheduled and nothing is left in flight that would schedule one. A scheduled
delay never exceeds 60000 ms. -/
theorem prepare_sync_one_step (key_remote key_local : ItemId → Key) (c : Closure) (now : Nat)
    (w : World) :
    (w.enabled = false → prepare_sync c now w = w) ∧
      (w.enabled = true → now < w.next →
        attempts (prepare_sync c now w).log = attempts w.log ∧
        (prepare_sync c now w).next = w.next ∧
        (prepare_sync c now w).timers =
          w.timers ++
            [⟨w.manager, now + (min ((w.next : Int) - now) op_delay_interval).toNat⟩] ∧
        (prepare_sync c now w).log =
          w.log ++ [Event.setTimeout (min ((w.next : Int) - now) op_delay_interval)]) ∧
      (w.enabled = true → now ≥ w.next →
        attempts (prepare_sync c now w).log = attempts w.log ++ [(Caller.loop, now)] ∧
        (prepare_sync c now w).next = now + idle_sync_period ∧
        (do_sync c Caller.loop now { w with next := now + idle_sync_period }).1.next =
          now + idle_sync_period ∧
        ((do_sync c Caller.loop now { w with next := now + idle_sync_period }).2 =
            Progress.settled →
          (prepare_sync c now w).timers = w.timers ++ [⟨w.manager, now + 60000⟩] ∧
          (prepare_sync c now w).log =
            (do_sync c Caller.loop now { w with next := now + idle_sync_period }).1.log ++
              [Event.setTimeout 60000]) ∧
        ((do_sync c Caller.loop now { w with next := now + idle_sync_period }).2 =
            Progress.suspended →
          (prepare_sync c now w).timers = w.timers ∧
          ∃ body, (prepare_sync c now w).inflight = w.inflight ++ [⟨c, body, Caller.loop⟩]) ∧
        ((do_sync c Caller.loop now { w with next := now + idle_sync_period }).2 =
            Progress.threw →
          (prepare_sync c now w).timers = w.timers ∧
          (prepare_sync c now w).inflight = w.inflight)) ∧
      (∀ (r : Inflight) (out : Outcome) (now' : Nat) (w' : World),
        r.caller = Caller.loop →
        (sync_resume_threw key_remote key_local r.closure out now'
            { w' with inflight := w'.inflight.erase r } = false →
          (respond key_remote key_local r out now' w').timers =
            w'.timers ++
              [⟨w'.manager,
                now' + (min ((w'.next : Int) - now') op_delay_interval).toNat⟩]) ∧
        (sync_resume_threw key_remote key_local r.closure out now'
            { w' with inflight := w'.inflight.erase r } = true →
          (respond key_remote key_local r out now' w').timers = w'.timers ∧
          (respond key_remote key_local r out now' w').inflight = w'.inflight.erase r)) ∧
      (∀ (next' now' : Nat), min ((next' : Int) - now') op_delay_interval ≤ 60000) := by
  refine ⟨prepare_sync_of_disabled c now w, ?_, ?_, ?_, ?_⟩
  · intro he hn
    rw [prepare_sync_of_early c now w he hn]
    obtain ⟨s1, s2, -, -, -, -, -, s8⟩ := schedule_frame now w
    exact ⟨s1, s2, s8, rfl⟩
  · intro he hn
    obtain ⟨d1, d2, d3, d4, -, -, -⟩ :=
      do_sync_frame c Caller.loop now { w with next := now + idle_sync_period }
    rw [prepare_sync_of_due c now w he hn]
    have hdelay : min (((now + idle_sync_period : Nat) : Int) - now) op_delay_interval = 60000 := by
      simp only [idle_sync_period, op_delay_interval]
      push_cast
      omega
    by_cases hp : (do_sync c Caller.loop now { w with next := now + idle_sync_period }).2 =
        Progress.settled
    · rw [if_pos hp]
      obtain ⟨s1, s2, -, -, -, -, -, s8⟩ := schedule_frame now
        (do_sync c Caller.loop now { w with next := now + idle_sync_period }).1
      refine ⟨s1.trans d1, s2.trans d2, d2, fun _ => ⟨?_, ?_⟩,
        fun h => by rw [hp] at h; simp at h, fun h => by rw [hp] at h; simp at h⟩
      · rw [s8, d3, d4, d2]
        simp only
        rw [hdelay]
        rfl
      · show _ ++ [Event.setTimeout (min
          (((do_sync c Caller.loop now { w with next := now + idle_sync_period }).1.next : Int)
            - now) op_delay_interval)] = _
        rw [d2]
        simp only
        rw [hdelay]
    · rw [if_neg hp]
      refine ⟨d1, d2, d2, fun h => absurd h hp, fun h => ⟨d3, ?_⟩, fun h => ⟨d3, ?_⟩⟩
      · obtain ⟨-, body, -, -, hi⟩ := do_sync_of_suspended c Caller.loop now
          { w with next := now + idle_sync_period } h
        exact ⟨body, hi⟩
      · exact (do_sync_of_threw c Caller.loop now
          { w with next := now + idle_sync_period } h).2.2.1
  · intro r out now' w' hc
    obtain ⟨-, -, -, -, f5, f6, f7⟩ := respond_scheduler key_remote key_local r out now' w'
    exact ⟨fun ht => ((f7 ht).2.1 hc), fun ht => ⟨(f6 ht).1, f5⟩⟩
  · intro next' now'
    exact (min_le_right _ _).trans (by simp [op_delay_interval])

/-- The run of C12 on an enabled scheduler whose `next` is 30 s away: no
attempt, and one check after 30000 ms. -/
theorem prepare_sync_one_step_witness :
    (prepare_sync (closure_ex [L1]) 20000
        { world_ex [L1] (fun _ => none) item_map_ex with next := 50000 }).log =
      [Event.setTimeout 30000] :=
  ((prepare_sync_one_step key_remote_ex key_local_ex (closure_ex [L1]) 20000
    { world_ex [L1] (fun _ => none) item_map_ex with next := 50000 }).2.1 rfl
    (by decide)).2.2.2

/-- C12 fails as stated. With `R5` in the list and no controller registered
for it, `prepare_sync` on an enabled scheduler that is due makes its sync
attempt, `sync()` raises a `TypeError` on `item_map.get(id).sync()`, and line
74 is not reached: no check is scheduled and no request is in flight. And with
the list `[L1, R7]`, where the merge of `L1` calls `onRemove(R7)`, the request
goes out, the response `200 []` arrives, reconciliation raises a `TypeError`
on the controller of `R7`, and again no check is scheduled. -/
theorem prepare_sync_one_step_counterexample :
    (world_ex [R5] (fun _ => none) item_map_ex).enabled = true ∧
      (world_ex [R5] (fun _ => none) item_map_ex).next ≤ 20000 ∧
      attempts (prepare_sync (closure_ex [R5]) 20000
        (world_ex [R5] (fun _ => none) item_map_ex)).log = [(Caller.loop, 20000)] ∧
      (prepare_sync (closure_ex [R5]) 20000
        (world_ex [R5] (fun _ => none) item_map_ex)).enabled = true ∧
      (prepare_sync (closure_ex [R5]) 20000
        (world_ex [R5] (fun _ => none) item_map_ex)).timers = [] ∧
      (prepare_sync (closure_ex [R5]) 20000
        (world_ex [R5] (fun _ => none) item_map_ex)).inflight = [] ∧
      (prepare_sync (closure_ex [L1, R7]) 20000
        (world_ex [L1, R7] (fun _ => none) item_map_orphan)).timers = [] ∧
      (prepare_sync (closure_ex [L1, R7]) 20000
        (world_ex [L1, R7] (fun _ => none) item_map_orphan)).inflight =
        [⟨closure_ex [L1, R7], [], Caller.loop⟩] ∧
      (respond key_remote_ex key_local_ex ⟨closure_ex [L1, R7], [], Caller.loop⟩
        (Outcome.response 200 (Body.json (some []))) 20500
        (prepare_sync (closure_ex [L1, R7]) 20000
          (world_ex [L1, R7] (fun _ => none) item_map_orphan))).enabled = true ∧
      (respond key_remote_ex key_local_ex ⟨closure_ex [L1, R7], [], Caller.loop⟩
        (Outcome.response 200 (Body.json (some []))) 20500
        (prepare_sync (closure_ex [L1, R7]) 20000
          (world_ex [L1, R7] (fun _ => none) item_map_orphan))).timers = [] ∧
      (respond key_remote_ex key_local_ex ⟨closure_ex [L1, R7], [], Caller.loop⟩
        (Outcome.response 200 (Body.json (some []))) 20500
        (prepare_sync (closure_ex [L1, R7]) 20000
          (world_ex [L1, R7] (fun _ => none) item_map_orphan))).inflight = [] := by
  refine ⟨rfl, by decide, by decide, by decide, by decide, by decide, by decide, by decide,
    by decide, by decide, by decide⟩

/-! ## The rate guard and its consequences -/

/-- C14, as amended: a call of `do_sync` made with a session token at a time
`now < time + 15000`, where `time` is the last-sync time of the status
collaborator, invokes no transport, leaves the `syncing` flag and the requests
in flight as they were, and sets the notice `list.error.limit.sync.message`.
Hence an attempt made less than 15 s after a reconciliation completed is
skipped with the notice. An attempt made past the rate guard while another is
in flight is skipped by the `syncing` flag, without a notice. And an attempt
for which `fetch_sync` returned `null` (failure, a status other than 200, an
unreadable or `null` body) does not move the last-sync time: an attempt made
after it, past the guard as it stood, is not skipped. -/
theorem do_sync_rate_guard (key_remote key_local : ItemId → Key) (c : Closure)
    (caller : Caller) (now : Nat) (w : World) (ht : token_ok c.token = true) :
    (now < w.time + min_sync_interval →
        fetches (do_sync c caller now w).1.log = fetches w.log ∧
        (do_sync c caller now w).1.inflight = w.inflight ∧
        (do_sync c caller now w).1.syncing = w.syncing ∧
        (do_sync c caller now w).1.error = some "list.error.limit.sync.message" ∧
        (do_sync c caller now w).2 = Progress.settled) ∧
      (∀ (r : Inflight) (remote : List Item) (now0 : Nat) (w0 : World),
        w0.enabled = true →
        sync_resume_threw key_remote key_local r.closure
          (Outcome.response 200 (Body.json (some remote))) now0
          { w0 with inflight := w0.inflight.erase r } = false →
        w = respond key_remote key_local r
          (Outcome.response 200 (Body.json (some remote))) now0 w0 →
        now < now0 + min_sync_interval →
        fetches (do_sync c caller now w).1.log = fetches w.log ∧
        (do_sync c caller now w).1.inflight = w.inflight ∧
        (do_sync c caller now w).1.syncing = w.syncing ∧
        (do_sync c caller now w).1.error = some "list.error.limit.sync.message") ∧
      (¬ now < w.time + min_sync_interval → w.syncing = true →
        fetches (do_sync c caller now w).1.log = fetches w.log ∧
        (do_sync c caller now w).1.inflight = w.inflight ∧
        (do_sync c caller now w).1.syncing = true ∧
        (do_sync c caller now w).1.error = w.error) ∧
      (∀ (r : Inflight) (out : Outcome) (now0 : Nat) (w0 : World),
        (fetch_sync_response out now0 { w0 with inflight := w0.inflight.erase r }).1 = none →
        w = respond key_remote key_local r out now0 w0 →
        ¬ now < w0.time + min_sync_interval →
        w.time = w0.time ∧
        (do_sync c caller now w).2 ≠ Progress.settled ∧
        ((do_sync c caller now w).2 = Progress.suspended →
          ∃ body, fetches (do_sync c caller now w).1.log = fetches w.log ++ [body])) := by
  refine ⟨fun hr => ?_, fun r remote now0 w0 he hthrew hw hr => ?_, fun hr hs => ?_,
    fun r out now0 w0 hf hw hr => ?_⟩
  · obtain ⟨e, h1, h2, h3, h4⟩ := do_sync_of_limited c caller now w ht hr
    exact ⟨h1, h2, h3, h4, by rw [e]⟩
  · have htime : w.time = now0 := by
      rw [hw]
      exact respond_time_of_success key_remote key_local r remote now0 w0 he hthrew
    obtain ⟨-, h1, h2, h3, h4⟩ := do_sync_of_limited c caller now w ht (by rw [htime]; exact hr)
    exact ⟨h1, h2, h3, h4⟩
  · rw [do_sync_of_syncing c caller now w ht hr hs]
    simp [fetches, List.filterMap_append, hs]
  · have htime : w.time = w0.time := by
      rw [hw]
      exact respond_time_of_failure key_remote key_local r out now0 w0 hf
    have hsync : w.syncing = false := by
      rw [hw]
      exact ((respond_scheduler key_remote key_local r out now0 w0).2.2.2.2.2.2
        (sync_resume_threw_of_none key_remote key_local r.closure out now0 _ hf)).1
    obtain ⟨a1, -, a3⟩ := do_sync_of_free c caller now w ht (by rw [htime]; exact hr) hsync
    exact ⟨htime, a1, a3⟩

/-- The run of C14: a first attempt at 20 s, answered at 20.5 s with an empty
array; a second attempt at 21 s is stopped by the rate guard. -/
theorem do_sync_rate_guard_witness :
    (do_sync (closure_ex [R7]) Caller.manual 21000
        (respond key_remote_ex key_local_ex ⟨closure_ex [R7], [], Caller.manual⟩
          (Outcome.response 200 (Body.json (some []))) 20500
          (do_sync (closure_ex [R7]) Caller.manual 20000
            (world_ex [R7] (fun _ => none) item_map_ex)).1)).1.error =
      some "list.error.limit.sync.message" :=
  ((do_sync_rate_guard key_remote_ex key_local_ex (closure_ex [R7]) Caller.manual 21000
    (respond key_remote_ex key_local_ex ⟨closure_ex [R7], [], Caller.manual⟩
      (Outcome.response 200 (Body.json (some []))) 20500
      (do_sync (closure_ex [R7]) Caller.manual 20000
        (world_ex [R7] (fun _ => none) item_map_ex)).1) rfl).2.1
    ⟨closure_ex [R7], [], Caller.manual⟩ [] 20500
    (do_sync (closure_ex [R7]) Caller.manual 20000
      (world_ex [R7] (fun _ => none) item_map_ex)).1 (by decide) (by decide) rfl
    (by decide)).2.2.2

/-- C14 fails as stated in its second half. A first attempt at 20 s awaits its
response; a second attempt at 21 s is skipped, but by the `syncing` flag and
without the rate-limit notice. And when the first attempt fails at 20.5 s, the
second attempt at 21 s executes: two requests have gone out within 15 s. -/
theorem do_sync_rate_guard_counterexample :
    (do_sync (closure_ex [R7]) Caller.manual 20000
        (world_ex [R7] (fun _ => none) item_map_ex)).2 = Progress.suspended ∧
      (do_sync (closure_ex [R7]) Caller.manual 21000
        (do_sync (closure_ex [R7]) Caller.manual 20000
          (world_ex [R7] (fun _ => none) item_map_ex)).1).1.error = none ∧
      (fetches (do_sync (closure_ex [R7]) Caller.manual 21000
        (do_sync (closure_ex [R7]) Caller.manual 20000
          (world_ex [R7] (fun _ => none) item_map_ex)).1).1.log).length = 1 ∧
      (do_sync (closure_ex [R7]) Caller.manual 21000
        (respond key_remote_ex key_local_ex ⟨closure_ex [R7], [], Caller.manual⟩
          Outcome.rejected 20500
          (do_sync (closure_ex [R7]) Caller.manual 20000
            (world_ex [R7] (fun _ => none) item_map_ex)).1)).2 = Progress.suspended ∧
      (fetches (do_sync (closure_ex [R7]) Caller.manual 21000
        (respond key_remote_ex key_local_ex ⟨closure_ex [R7], [], Caller.manual⟩
          Outcome.rejected 20500
          (do_sync (closure_ex [R7]) Caller.manual 20000
            (world_ex [R7] (fun _ => none) item_map_ex)).1)).1.log).length = 2 := by
  refine ⟨by decide, by decide, by decide, by decide, by decide⟩

/-! ## The `syncing` flag and the requests in flight -/

/-- C15, as amended: whoever calls `do_sync`, the scheduling loop or the
exposed `sync`, a call made while the `syncing` flag is up starts no request;
a call that starts a request found the flag down and raised it before the
request went out; and when the outcome of the request arrives and `sync()`
returns (failure, any status other than 200, an unreadable or `null` body, a
result discarded because the scheduler is disabled, or a reconciliation that
completes), the flag is down again. In every run that starts with at most one
request in flight under a raised flag, at most one request is in flight after
every step, and the flag is up whenever one is. But when a `TypeError` aborts
`sync()`, before the request or during reconciliation, the flag raised on line
61 is not lowered: it stays up with no request in flight. -/
theorem do_sync_one_in_flight (key_remote key_local : ItemId → Key) (c : Closure)
    (caller : Caller) (now : Nat) (w : World) :
    (w.syncing = true →
        fetches (do_sync c caller now w).1.log = fetches w.log ∧
        (do_sync c caller now w).1.inflight = w.inflight) ∧
      ((do_sync c caller now w).2 = Progress.suspended →
        w.syncing = false ∧
        ∃ body, (do_sync c caller now w).1.log =
            w.log ++ [Event.do_sync caller now, Event.setSyncing true, Event.fetch body] ∧
          (do_sync c caller now w).1.syncing = true ∧
          (do_sync c caller now w).1.inflight = w.inflight ++ [⟨c, body, caller⟩]) ∧
      (∀ (r : Inflight) (out : Outcome),
        (sync_resume_threw key_remote key_local r.closure out now
            { w with inflight := w.inflight.erase r } = false →
          (respond key_remote key_local r out now w).syncing = false) ∧
        ((fetch_sync_response out now { w with inflight := w.inflight.erase r }).1 = none →
          (respond key_remote key_local r out now w).syncing = false) ∧
        (w.enabled = false → (respond key_remote key_local r out now w).syncing = false)) ∧
      (∀ steps : List (Nat × Step),
        single_flight w → run_possible key_remote key_local w steps →
        (run key_remote key_local w steps).inflight.length ≤ 1 ∧
        ((run key_remote key_local w steps).inflight ≠ [] →
          (run key_remote key_local w steps).syncing = true)) ∧
      ((do_sync c caller now w).2 = Progress.threw →
        w.syncing = false ∧
        (do_sync c caller now w).1.syncing = true ∧
        (do_sync c caller now w).1.inflight = w.inflight ∧
        fetches (do_sync c caller now w).1.log = fetches w.log) ∧
      (∀ (r : Inflight) (out : Outcome),
        sync_resume_threw key_remote key_local r.closure out now
            { w with inflight := w.inflight.erase r } = true →
        (respond key_remote key_local r out now w).syncing = w.syncing ∧
        (respond key_remote key_local r out now w).inflight = w.inflight.erase r) := by
  refine ⟨fun hs => ?_, do_sync_of_suspended c caller now w, fun r out => ⟨fun h => ?_,
    fun h => ?_, fun h => ?_⟩, fun steps h hp => ?_, do_sync_of_threw c caller now w,
    fun r out h => ?_⟩
  · obtain ⟨h1, h2, -⟩ := do_sync_of_flag c caller now w hs
    exact ⟨h1, h2⟩
  · exact ((respond_scheduler key_remote key_local r out now w).2.2.2.2.2.2 h).1
  · exact ((respond_scheduler key_remote key_local r out now w).2.2.2.2.2.2
      (sync_resume_threw_of_none key_remote key_local r.closure out now _ h)).1
  · exact ((respond_scheduler key_remote key_local r out now w).2.2.2.2.2.2
      (sync_resume_threw_of_disabled key_remote key_local r.closure out now _ h)).1
  · rcases run_single_flight key_remote key_local steps w h hp with h' | ⟨h1, r, h2⟩
    · rw [h']
      exact ⟨by simp, fun hne => absurd rfl hne⟩
    · rw [h2]
      exact ⟨by simp, fun _ => h1⟩
  · obtain ⟨-, -, -, -, f5, f6, -⟩ := respond_scheduler key_remote key_local r out now w
    exact ⟨(f6 h).2, f5⟩

/-- The run of C15: a manual attempt while the loop's first attempt is in
flight starts no second request. -/
theorem do_sync_one_in_flight_witness :
    (run key_remote_ex key_local_ex (world_disabled [R7] (fun _ => none) item_map_ex)
      [(20000, Step.enable (closure_ex [R7])), (21000, Step.sync (closure_ex [R7]))]).inflight
      = [⟨closure_ex [R7], [], Caller.loop⟩] ∧
    (run key_remote_ex key_local_ex (world_disabled [R7] (fun _ => none) item_map_ex)
      [(20000, Step.enable (closure_ex [R7])),
        (21000, Step.sync (closure_ex [R7]))]).inflight.length ≤ 1 :=
  ⟨by decide,
    ((do_sync_one_in_flight key_remote_ex key_local_ex (closure_ex [R7]) Caller.loop 0
      (world_disabled [R7] (fun _ => none) item_map_ex)).2.2.2.1
      [(20000, Step.enable (closure_ex [R7])), (21000, Step.sync (closure_ex [R7]))]
      (Or.inl rfl) ⟨trivial, trivial, trivial⟩).1⟩

/-- C15 fails as stated. With the list `[L1, R7]`, where the merge of `L1`
calls `onRemove(R7)`, an attempt at 20 s sends its request; the response
`200 []` arrives at 20.5 s, reconciliation raises a `TypeError` on the
controller of `R7`, and line 63 is not reached: the attempt has finished with
a successful transport outcome, no request is in flight, and the `syncing`
flag is still up, so that an attempt at 40 s is skipped. And with `R5` in the
list and no controller for it, `sync()` raises the `TypeError` before the
request: the flag is up and no request ever went out. -/
theorem do_sync_one_in_flight_counterexample :
    (do_sync (closure_ex [L1, R7]) Caller.manual 20000
        (world_ex [L1, R7] (fun _ => none) item_map_orphan)).2 = Progress.suspended ∧
      (do_sync (closure_ex [L1, R7]) Caller.manual 20000
        (world_ex [L1, R7] (fun _ => none) item_map_orphan)).1.inflight =
        [⟨closure_ex [L1, R7], [], Caller.manual⟩] ∧
      (respond key_remote_ex key_local_ex ⟨closure_ex [L1, R7], [], Caller.manual⟩
        (Outcome.response 200 (Body.json (some []))) 20500
        (do_sync (closure_ex [L1, R7]) Caller.manual 20000
          (world_ex [L1, R7] (fun _ => none) item_map_orphan)).1).inflight = [] ∧
      (respond key_remote_ex key_local_ex ⟨closure_ex [L1, R7], [], Caller.manual⟩
        (Outcome.response 200 (Body.json (some []))) 20500
        (do_sync (closure_ex [L1, R7]) Caller.manual 20000
          (world_ex [L1, R7] (fun _ => none) item_map_orphan)).1).syncing = true ∧
      (do_sync (closure_ex [L1, R7]) Caller.manual 40000
        (respond key_remote_ex key_local_ex ⟨closure_ex [L1, R7], [], Caller.manual⟩
          (Outcome.response 200 (Body.json (some []))) 20500
          (do_sync (closure_ex [L1, R7]) Caller.manual 20000
            (world_ex [L1, R7] (fun _ => none) item_map_orphan)).1)).2 = Progress.settled ∧
      (fetches (do_sync (closure_ex [L1, R7]) Caller.manual 40000
        (respond key_remote_ex key_local_ex ⟨closure_ex [L1, R7], [], Caller.manual⟩
          (Outcome.response 200 (Body.json (some []))) 20500
          (do_sync (closure_ex [L1, R7]) Caller.manual 20000
            (world_ex [L1, R7] (fun _ => none) item_map_orphan)).1)).1.log).length = 1 ∧
      (do_sync (closure_ex [R5]) Caller.manual 20000
        (world_ex [R5] (fun _ => none) item_map_ex)).2 = Progress.threw ∧
      (do_sync (closure_ex [R5]) Caller.manual 20000
        (world_ex [R5] (fun _ => none) item_map_ex)).1.syncing = true ∧
      (do_sync (closure_ex [R5]) Caller.manual 20000
        (world_ex [R5] (fun _ => none) item_map_ex)).1.inflight = [] := by
  refine ⟨by decide, by decide, by decide, by decide, by decide, by decide, by decide,
    by decide, by decide⟩

end EasyCloze
